import Mathlib

/-!
# Prefab diffing of BansheeEngine: embedding and verified properties

Sources embedded: `BansheeCore/Source/BsPrefabDiff.cpp` and, for the dynamic library manager,
`BansheeUtility/Source/BsDynLibManager.cpp`.

* A scene object is a finite tree; every game object (scene object or component) owns one
  `GameObjectInstanceData` block, identified here by its address, and the instance ID it holds
  lives in a `Heap` (address to ID).  `RenamedGameObject` records point at such a block.
* Link IDs are compared for equality only, so they are integers with `-1` for "no link".
* The generic serializer and the per-type diff handlers are external: they are the fields of `Env`.
-/

namespace BansheeEngine

/-! ## Data model -/

/-- Modelled from the spec: `GameObjectInstanceData` is declared outside the sources. Every
game object reaches its instance ID through a block `mInstanceData`; the store gives the
`mInstanceId` held by the block at each address. -/
abbrev Heap := Nat → Nat

/-- Modelled from the spec: the declaration of `Component` is not part of the sources. A
component has a link ID, an instance-data block (its address), an RTTI type that selects the
diff handler, and an abstract state. -/
structure Component where
  linkId : Int
  instanceData : Nat
  rtti : Nat
  state : Nat
deriving DecidableEq, Repr

/-- Modelled from the spec: the declaration of `SceneObject` is not part of the sources. A
scene object has a name, a link ID, an instance-data block, the prefab-link UUID, the
do-not-persist flag, its attached components and its ordered children. -/
inductive SceneObject where
  | mk (name : String) (linkId : Int) (instanceData : Nat) (mPrefabLinkUUID : String)
      (dontSave : Bool) (components : List Component) (children : List SceneObject)
deriving Repr

namespace SceneObject

def name : SceneObject → String
  | mk n _ _ _ _ _ _ => n

def linkId : SceneObject → Int
  | mk _ l _ _ _ _ _ => l

def instanceData : SceneObject → Nat
  | mk _ _ a _ _ _ _ => a

def mPrefabLinkUUID : SceneObject → String
  | mk _ _ _ u _ _ _ => u

/-- The flag test `hasFlag(SOF_DontSave)`. -/
def dontSave : SceneObject → Bool
  | mk _ _ _ _ f _ _ => f

def components : SceneObject → List Component
  | mk _ _ _ _ _ cs _ => cs

def children : SceneObject → List SceneObject
  | mk _ _ _ _ _ _ ch => ch

def setName : SceneObject → String → SceneObject
  | mk _ l a u f cs ch, n => mk n l a u f cs ch

def setComponents : SceneObject → List Component → SceneObject
  | mk n l a u f _ ch, cs => mk n l a u f cs ch

def setChildren : SceneObject → List SceneObject → SceneObject
  | mk n l a u f cs _, ch => mk n l a u f cs ch

end SceneObject

/-- Modelled from the spec: the external collaborators, taken as parameters. These are the
generic serializer (`_encodeIntermediate`, `_decodeIntermediate`) and the diff handler reached
through a component's RTTI type; `B` is the type of serialized objects. Encoding may read
instance IDs, hence the heap argument. -/
structure Env (B : Type) where
  encodeSceneObject : Heap → SceneObject → B
  encodeComponent : Heap → Component → B
  decodeSceneObject : B → SceneObject
  decodeComponent : B → Component
  handlerGenerateDiff : Nat → B → B → Option B
  handlerApplyDiff : Component → B → Component

/-- Modelled from the spec: the record `PrefabComponentDiff` (declared in the missing header),
a link ID and an opaque delta. -/
structure PrefabComponentDiff (B : Type) where
  id : Int
  data : B

/-- Modelled from the spec: the record `PrefabObjectDiff` (declared in the missing header),
with the fields that `generateDiff` fills and `applyDiff` reads. -/
inductive PrefabObjectDiff (B : Type) where
  | mk (id : Int) (name : String) (componentDiffs : List (PrefabComponentDiff B))
      (removedComponents : List Int) (addedComponents : List B)
      (childDiffs : List (PrefabObjectDiff B)) (removedChildren : List Int)
      (addedChildren : List B)

namespace PrefabObjectDiff

variable {B : Type}

def id : PrefabObjectDiff B → Int
  | mk i _ _ _ _ _ _ _ => i

def name : PrefabObjectDiff B → String
  | mk _ n _ _ _ _ _ _ => n

def componentDiffs : PrefabObjectDiff B → List (PrefabComponentDiff B)
  | mk _ _ cd _ _ _ _ _ => cd

def removedComponents : PrefabObjectDiff B → List Int
  | mk _ _ _ rc _ _ _ _ => rc

def addedComponents : PrefabObjectDiff B → List B
  | mk _ _ _ _ ac _ _ _ => ac

def childDiffs : PrefabObjectDiff B → List (PrefabObjectDiff B)
  | mk _ _ _ _ _ chd _ _ => chd

def removedChildren : PrefabObjectDiff B → List Int
  | mk _ _ _ _ _ _ rch _ => rch

def addedChildren : PrefabObjectDiff B → List B
  | mk _ _ _ _ _ _ _ ach => ach

/-- A freshly allocated diff node (`bs_shared_ptr_new<PrefabObjectDiff>()`). -/
def fresh : PrefabObjectDiff B := mk 0 "" [] [] [] [] [] []

def pushComponentDiff : PrefabObjectDiff B → PrefabComponentDiff B → PrefabObjectDiff B
  | mk i n cd rc ac chd rch ach, x => mk i n (cd ++ [x]) rc ac chd rch ach

def pushRemovedComponent : PrefabObjectDiff B → Int → PrefabObjectDiff B
  | mk i n cd rc ac chd rch ach, x => mk i n cd (rc ++ [x]) ac chd rch ach

def pushAddedComponent : PrefabObjectDiff B → B → PrefabObjectDiff B
  | mk i n cd rc ac chd rch ach, x => mk i n cd rc (ac ++ [x]) chd rch ach

def pushChildDiff : PrefabObjectDiff B → PrefabObjectDiff B → PrefabObjectDiff B
  | mk i n cd rc ac chd rch ach, x => mk i n cd rc ac (chd ++ [x]) rch ach

def pushRemovedChild : PrefabObjectDiff B → Int → PrefabObjectDiff B
  | mk i n cd rc ac chd rch ach, x => mk i n cd rc ac chd (rch ++ [x]) ach

def pushAddedChild : PrefabObjectDiff B → B → PrefabObjectDiff B
  | mk i n cd rc ac chd rch ach, x => mk i n cd rc ac chd rch (ach ++ [x])

/-- The final stamp: `output->name = ...; output->id = ...`. -/
def stamp : PrefabObjectDiff B → String → Int → PrefabObjectDiff B
  | mk _ _ cd rc ac chd rch ach, n, i => mk i n cd rc ac chd rch ach

end PrefabObjectDiff

/-- The idiom `if (output == nullptr) output = bs_shared_ptr_new<PrefabObjectDiff>();`
followed by a use of `output`. -/
def alloc {B : Type} : Option (PrefabObjectDiff B) → PrefabObjectDiff B
  | none => PrefabObjectDiff.fresh
  | some d => d

/-- Modelled from the spec: the object `PrefabDiff` (declared in the missing header), a
wrapper around the root diff node `mRoot`. -/
structure PrefabDiff (B : Type) where
  mRoot : Option (PrefabObjectDiff B)

/-! ## Diff generation -/

/-- Loop "Find added children" of `generateDiff`. -/
def addedChildrenLoop {B : Type} (env : Env B) (h : Heap) (prefabChildren : List SceneObject) :
    List SceneObject → Option (PrefabObjectDiff B) → Option (PrefabObjectDiff B)
  | [], output => output
  | instanceChild :: rest, output =>
    if instanceChild.dontSave then
      addedChildrenLoop env h prefabChildren rest output
    else
      let foundMatching : Bool :=
        if instanceChild.linkId ≠ -1 then
          prefabChildren.any (fun prefabChild => prefabChild.linkId == instanceChild.linkId)
        else false
      if !foundMatching then
        addedChildrenLoop env h prefabChildren rest
          (some ((alloc output).pushAddedChild (env.encodeSceneObject h instanceChild)))
      else
        addedChildrenLoop env h prefabChildren rest output

/-- Loop "Find modified and removed components" of `generateDiff`. -/
def componentLoop {B : Type} (env : Env B) (h : Heap) (instanceComponents : List Component) :
    List Component → Option (PrefabObjectDiff B) → Option (PrefabObjectDiff B)
  | [], output => output
  | prefabComponent :: rest, output =>
    match instanceComponents.find? (fun ic => prefabComponent.linkId == ic.linkId) with
    | some instanceComponent =>
      let encodedPrefab := env.encodeComponent h prefabComponent
      let encodedInstance := env.encodeComponent h instanceComponent
      match env.handlerGenerateDiff prefabComponent.rtti encodedPrefab encodedInstance with
      | some diff =>
        componentLoop env h instanceComponents rest
          (some ((alloc output).pushComponentDiff ⟨prefabComponent.linkId, diff⟩))
      | none => componentLoop env h instanceComponents rest output
    | none =>
      componentLoop env h instanceComponents rest
        (some ((alloc output).pushRemovedComponent prefabComponent.linkId))

/-- Loop "Find added components" of `generateDiff`. -/
def addedComponentsLoop {B : Type} (env : Env B) (h : Heap) (prefabComponents : List Component) :
    List Component → Option (PrefabObjectDiff B) → Option (PrefabObjectDiff B)
  | [], output => output
  | instanceComponent :: rest, output =>
    let foundMatching : Bool :=
      if instanceComponent.linkId ≠ -1 then
        prefabComponents.any (fun pc => pc.linkId == instanceComponent.linkId)
      else false
    if !foundMatching then
      addedComponentsLoop env h prefabComponents rest
        (some ((alloc output).pushAddedComponent (env.encodeComponent h instanceComponent)))
    else
      addedComponentsLoop env h prefabComponents rest output

mutual
/-- The function `PrefabDiff::generateDiff`; `none` is the null pointer. -/
def generateDiff {B : Type} (env : Env B) (h : Heap) :
    SceneObject → SceneObject → Option (PrefabObjectDiff B)
  | .mk prefabName _ _ _ _ prefabComponents prefabChildren, inst =>
    let output : Option (PrefabObjectDiff B) :=
      if prefabName ≠ inst.name then some PrefabObjectDiff.fresh else none
    let output := childLoop env h inst.children prefabChildren output
    let output := addedChildrenLoop env h prefabChildren inst.children output
    let output := componentLoop env h inst.components prefabComponents output
    let output := addedComponentsLoop env h prefabComponents inst.components output
    match output with
    | some d => some (d.stamp inst.name inst.linkId)
    | none => none
/-- Loop "Find modified and removed children" of `generateDiff`: the inner scan stops at the
first instance child with the link ID of the prefab child. -/
def childLoop {B : Type} (env : Env B) (h : Heap) (instanceChildren : List SceneObject) :
    List SceneObject → Option (PrefabObjectDiff B) → Option (PrefabObjectDiff B)
  | [], output => output
  | prefabChild :: rest, output =>
    match instanceChildren.find? (fun ic => prefabChild.linkId == ic.linkId) with
    | some instanceChild =>
      let childDiff : Option (PrefabObjectDiff B) :=
        if instanceChild.mPrefabLinkUUID = "" then generateDiff env h prefabChild instanceChild
        else none
      match childDiff with
      | some cd => childLoop env h instanceChildren rest (some ((alloc output).pushChildDiff cd))
      | none => childLoop env h instanceChildren rest output
    | none =>
      childLoop env h instanceChildren rest
        (some ((alloc output).pushRemovedChild prefabChild.linkId))
end

/-! ## Instance-ID rename and restore -/

/-- Entry of the work stack of `renameInstanceIds`. -/
structure StackEntry where
  so : SceneObject
  uuid : String

/-- Modelled from the spec: the record `RenamedGameObject` (declared in the missing header),
the instance-data block and the ID it held. -/
structure RenamedGameObject where
  instanceData : Nat
  originalId : Nat
deriving DecidableEq, Repr

/-- The inner map `UnorderedMap<UINT32, UINT64>`: link ID to instance ID. -/
abbrev IdMap := Int → Option Nat

/-- The map `linkToInstanceId`, keyed by the UUID of the prefab-link scope. -/
abbrev LinkToInstanceId := String → Option IdMap

/-- Assignment `idMap[key] = value`. -/
def IdMap.assign (m : IdMap) (key : Int) (value : Nat) : IdMap :=
  fun k => if k = key then some value else m k

/-- Assignment of a whole inner map under a scope key. -/
def LinkToInstanceId.assign (m : LinkToInstanceId) (key : String) (value : IdMap) :
    LinkToInstanceId :=
  fun k => if k = key then some value else m k

/-- The scope of the children and components of a stack entry. -/
def childParentUUID (current : StackEntry) : String :=
  if current.so.mPrefabLinkUUID = "" then current.uuid else current.so.mPrefabLinkUUID

/-- Number of scene objects of a tree: the number of iterations a tree walk needs. -/
def nodeCount : SceneObject → Nat
  | .mk _ _ _ _ _ _ children => 1 + nodeCountList children
where
  /-- Number of scene objects of a forest. -/
  nodeCountList : List SceneObject → Nat
    | [] => 0
    | c :: cs => nodeCount c + nodeCountList cs

/-- One iteration of the first loop of `renameInstanceIds` (the prefab walk): `operator[]`
creates the scope map when absent, components then children are entered, and every child is
pushed on the stack. -/
def prefabVisit (h : Heap) (current : StackEntry) (todo : List StackEntry)
    (linkToInstanceId : LinkToInstanceId) : LinkToInstanceId × List StackEntry :=
  let key := childParentUUID current
  let idMap : IdMap := (linkToInstanceId key).getD (fun _ => none)
  let idMap := current.so.components.foldl
    (fun (m : IdMap) component => m.assign component.linkId (h component.instanceData)) idMap
  let r := current.so.children.foldl
    (fun (st : IdMap × List StackEntry) child =>
      (st.1.assign child.linkId (h child.instanceData), (⟨child, key⟩ : StackEntry) :: st.2))
    (idMap, todo)
  (linkToInstanceId.assign key r.1, r.2)

/-- The first `while (!todo.empty())` loop of `renameInstanceIds`; the first argument bounds
the number of iterations. -/
def prefabWalk (h : Heap) : Nat → List StackEntry → LinkToInstanceId → LinkToInstanceId
  | 0, _, m => m
  | _ + 1, [], m => m
  | fuel + 1, current :: todo, m =>
    let r := prefabVisit h current todo m
    prefabWalk h fuel r.2 r.1

/-- The block that appends a `RenamedGameObject` for an instance-data block and then
overwrites the instance ID held there. -/
def renameSlot (instanceData : Nat) (newId : Nat) (st : Heap × List RenamedGameObject) :
    Heap × List RenamedGameObject :=
  (Function.update st.1 instanceData newId, st.2 ++ [⟨instanceData, st.1 instanceData⟩])

/-- Renaming of the components of the visited instance object (when the scope was found). -/
def renameComponents (idMap : IdMap) (components : List Component)
    (st : Heap × List RenamedGameObject) : Heap × List RenamedGameObject :=
  components.foldl
    (fun st component =>
      match idMap component.linkId with
      | some newId => renameSlot component.instanceData newId st
      | none => st)
    st

/-- Body of the loop over the children of the visited instance object. -/
def renameChild (iterFind : Option IdMap) (key : String)
    (st : (Heap × List RenamedGameObject) × List StackEntry) (child : SceneObject) :
    (Heap × List RenamedGameObject) × List StackEntry :=
  let st1 : Heap × List RenamedGameObject :=
    match iterFind with
    | some idMap =>
      if child.linkId ≠ -1 then
        match idMap child.linkId with
        | some newId => renameSlot child.instanceData newId st.1
        | none => st.1
      else st.1
    | none => st.1
  (st1, (⟨child, key⟩ : StackEntry) :: st.2)

/-- One iteration of the second loop of `renameInstanceIds` (the instance walk). -/
def instanceVisit (linkToInstanceId : LinkToInstanceId) (current : StackEntry)
    (todo : List StackEntry) (st : Heap × List RenamedGameObject) :
    (Heap × List RenamedGameObject) × List StackEntry :=
  let key := childParentUUID current
  let iterFind := linkToInstanceId key
  let st1 : Heap × List RenamedGameObject :=
    match iterFind with
    | some idMap => renameComponents idMap current.so.components st
    | none => st
  current.so.children.foldl (renameChild iterFind key) (st1, todo)

/-- The second `while (!todo.empty())` loop of `renameInstanceIds`. -/
def instanceWalk (linkToInstanceId : LinkToInstanceId) :
    Nat → List StackEntry → Heap × List RenamedGameObject → Heap × List RenamedGameObject
  | 0, _, st => st
  | _ + 1, [], st => st
  | fuel + 1, current :: todo, st =>
    let r := instanceVisit linkToInstanceId current todo st
    instanceWalk linkToInstanceId fuel r.2 r.1

/-- The function `PrefabDiff::renameInstanceIds`: returns the heap after the renames and the
output vector. Each walk pops one scene object per iteration, so the node count of the walked
tree bounds its iterations. -/
def renameInstanceIds (h : Heap) (prefab inst : SceneObject) (output : List RenamedGameObject) :
    Heap × List RenamedGameObject :=
  let linkToInstanceId :=
    prefabWalk h (nodeCount prefab) [⟨prefab, "root"⟩] (fun _ => none)
  let output := output ++ [⟨inst.instanceData, h inst.instanceData⟩]
  let h1 := Function.update h inst.instanceData (h prefab.instanceData)
  instanceWalk linkToInstanceId (nodeCount inst) [⟨inst, "root"⟩] (h1, output)

/-- The function `PrefabDiff::restoreInstanceIds`. -/
def restoreInstanceIds (renamedObjects : List RenamedGameObject) (h : Heap) : Heap :=
  renamedObjects.foldl (fun h renamedGO => Function.update h renamedGO.instanceData
    renamedGO.originalId) h

/-- The function `PrefabDiff::create`: the returned pointer (`none` is null) and the heap
after the call. -/
def create {B : Type} (env : Env B) (h : Heap) (prefab inst : SceneObject) :
    Option (PrefabDiff B) × Heap :=
  if prefab.mPrefabLinkUUID ≠ inst.mPrefabLinkUUID then (none, h)
  else
    let r := renameInstanceIds h prefab inst []
    let output : PrefabDiff B := ⟨generateDiff env r.1 prefab inst⟩
    let h2 := restoreInstanceIds r.2 r.1
    (some output, h2)

/-! ## Diff application -/

/-- Modelled from the spec: `Component::destroy` is not part of the sources. The scan of
`applyDiff` stops at the first component with the given link ID and destroys it, after which
it is no longer a live component of the object. -/
def destroyComponent (removedId : Int) (components : List Component) : List Component :=
  components.eraseP (fun component => removedId == component.linkId)

/-- Modelled from the spec: `SceneObject::destroy` is not part of the sources. The scan of
`applyDiff` stops at the first child with the given link ID and destroys it, after which it
is no longer a live child of the object. -/
def destroyChild (removedId : Int) (children : List SceneObject) : List SceneObject :=
  children.eraseP (fun child => removedId == child.linkId)

/-- Modelled from the spec: `SceneObject::addComponentInternal` is not part of the sources.
The component is attached to the object, and new components end up ordered after all
pre-existing ones. -/
def SceneObject.addComponentInternal (object : SceneObject) (component : Component) :
    SceneObject :=
  object.setComponents (object.components ++ [component])

/-- Modelled from the spec: `SceneObject::setParent` and the hook `instantiate` are not part
of the sources. The scene object is parented under `parent`, whose new state is returned, and
new children end up after the existing ones. -/
def SceneObject.setParent (sceneObject parent : SceneObject) : SceneObject :=
  parent.setChildren (parent.children ++ [sceneObject])

/-- Scan for the first component with the link ID of a component diff and hand the delta to
the diff handler of that component. -/
def applyComponentDiff {B : Type} (env : Env B) (componentDiff : PrefabComponentDiff B) :
    List Component → List Component
  | [] => []
  | component :: rest =>
    if componentDiff.id = component.linkId then
      env.handlerApplyDiff component componentDiff.data :: rest
    else component :: applyComponentDiff env componentDiff rest

/-- Scan for the first child with the given link ID: the children before it, the child, and
the children after it. -/
def findChild (id : Int) :
    List SceneObject → Option (List SceneObject × SceneObject × List SceneObject)
  | [] => none
  | child :: rest =>
    if id = child.linkId then some ([], child, rest)
    else
      match findChild id rest with
      | some r => some (child :: r.1, r.2.1, r.2.2)
      | none => none

mutual
/-- The function `PrefabDiff::applyDiff`: the target object after the call. -/
def applyDiff {B : Type} (env : Env B) : PrefabObjectDiff B → SceneObject → SceneObject
  | .mk _ name componentDiffs removedComponents addedComponents childDiffs removedChildren
      addedChildren, object =>
    let object := object.setName name
    let object := removedComponents.foldl
      (fun (o : SceneObject) removedId =>
        o.setComponents (destroyComponent removedId o.components)) object
    let object := removedChildren.foldl
      (fun (o : SceneObject) removedId =>
        o.setChildren (destroyChild removedId o.children)) object
    let object := addedComponents.foldl
      (fun (o : SceneObject) addedComponentData =>
        o.addComponentInternal (env.decodeComponent addedComponentData)) object
    let object := addedChildren.foldl
      (fun (o : SceneObject) addedChildData =>
        (env.decodeSceneObject addedChildData).setParent o) object
    let object := componentDiffs.foldl
      (fun (o : SceneObject) componentDiff =>
        o.setComponents (applyComponentDiff env componentDiff o.components)) object
    object.setChildren (applyChildDiffs env childDiffs object.children)
/-- The last loop of `applyDiff`: every child diff is applied to the first live child with
its link ID, or skipped when there is none. -/
def applyChildDiffs {B : Type} (env : Env B) :
    List (PrefabObjectDiff B) → List SceneObject → List SceneObject
  | [], children => children
  | childDiff :: rest, children =>
    match findChild childDiff.id children with
    | some r => applyChildDiffs env rest (r.1 ++ applyDiff env childDiff r.2.1 :: r.2.2)
    | none => applyChildDiffs env rest children
end

/-- Modelled from the spec: the notifications received by the deserialization session of
`GameObjectManager`, whose code is not part of the sources. -/
inductive SessionEvent where
  | startDeserialization
  | endDeserialization
deriving DecidableEq, Repr

/-- The method `PrefabDiff::apply`: the target object after the call and the notifications
sent, appended to those already sent. -/
def PrefabDiff.apply {B : Type} (env : Env B) (self : PrefabDiff B) (object : SceneObject)
    (log : List SessionEvent) : SceneObject × List SessionEvent :=
  match self.mRoot with
  | none => (object, log)
  | some root =>
    let log := log ++ [SessionEvent.startDeserialization]
    let object := applyDiff env root object
    let log := log ++ [SessionEvent.endDeserialization]
    (object, log)

/-! ## Descriptions used to state the properties of diff generation -/

namespace PrefabObjectDiff

variable {B : Type}

/-- Appends one list to each of the six lists of a diff node. -/
def extend : PrefabObjectDiff B → List (PrefabComponentDiff B) → List Int →
    List B → List (PrefabObjectDiff B) → List Int → List B → PrefabObjectDiff B
  | mk i n cd rc ac chd rch ach, cd', rc', ac', chd', rch', ach' =>
    mk i n (cd ++ cd') (rc ++ rc') (ac ++ ac') (chd ++ chd') (rch ++ rch') (ach ++ ach')

end PrefabObjectDiff

/-- Lazy allocation followed by appends: nothing happens when all six lists are empty. -/
def extendOpt {B : Type} (out : Option (PrefabObjectDiff B))
    (cd : List (PrefabComponentDiff B)) (rc : List Int) (ac : List B)
    (chd : List (PrefabObjectDiff B)) (rch : List Int) (ach : List B) :
    Option (PrefabObjectDiff B) :=
  if cd.isEmpty && rc.isEmpty && ac.isEmpty && chd.isEmpty && rch.isEmpty && ach.isEmpty then out
  else some ((alloc out).extend cd rc ac chd rch ach)

/-- The first instance child whose link ID is that of a prefab child (the inner scan of the
loop "Find modified and removed children"). -/
def matchedChild (instanceChildren : List SceneObject) (prefabChild : SceneObject) :
    Option SceneObject :=
  instanceChildren.find? (fun ic => prefabChild.linkId == ic.linkId)

/-- The child diff recorded for a prefab child, if any. -/
def childDiffOf {B : Type} (env : Env B) (h : Heap) (instanceChildren : List SceneObject)
    (prefabChild : SceneObject) : Option (PrefabObjectDiff B) :=
  match matchedChild instanceChildren prefabChild with
  | some ic => if ic.mPrefabLinkUUID = "" then generateDiff env h prefabChild ic else none
  | none => none

/-- Whether the loop "Find added children" serializes an instance child. -/
def isAddedChild (prefabChildren : List SceneObject) (ic : SceneObject) : Bool :=
  !ic.dontSave &&
    (ic.linkId == -1 || !prefabChildren.any (fun pc => pc.linkId == ic.linkId))

/-- The first instance component whose link ID is that of a prefab component. -/
def matchedComponent (instanceComponents : List Component) (prefabComponent : Component) :
    Option Component :=
  instanceComponents.find? (fun ic => prefabComponent.linkId == ic.linkId)

/-- The component diff recorded for a prefab component, if any. -/
def componentDiffOf {B : Type} (env : Env B) (h : Heap) (instanceComponents : List Component)
    (prefabComponent : Component) : Option (PrefabComponentDiff B) :=
  match matchedComponent instanceComponents prefabComponent with
  | some ic =>
    match env.handlerGenerateDiff prefabComponent.rtti (env.encodeComponent h prefabComponent)
        (env.encodeComponent h ic) with
    | some diff => some ⟨prefabComponent.linkId, diff⟩
    | none => none
  | none => none

/-- Whether the loop "Find added components" serializes an instance component. -/
def isAddedComponent (prefabComponents : List Component) (ic : Component) : Bool :=
  ic.linkId == -1 || !prefabComponents.any (fun pc => pc.linkId == ic.linkId)

/-! ## Instance-data blocks of a tree -/

/-- Addresses of the instance-data blocks below a scene object: those of its components and
of all its descendants with their components, the object's own block excluded. -/
def ownedBlocks : SceneObject → List Nat
  | .mk _ _ _ _ _ components children =>
    components.map Component.instanceData ++ blocksList children
where
  /-- Addresses of all instance-data blocks of a forest. -/
  blocksList : List SceneObject → List Nat
    | [] => []
    | c :: rest => (c.instanceData :: ownedBlocks c) ++ blocksList rest

/-- Addresses of the instance-data blocks of all game objects of a tree. Every game object
owns exactly one block, so in a scene tree this list has no duplicates. -/
def instanceDataBlocks (so : SceneObject) : List Nat :=
  so.instanceData :: ownedBlocks so

/-- Blocks that the instance walk may still write, given its work stack. -/
def pendingBlocks : List StackEntry → List Nat
  | [] => []
  | e :: rest => ownedBlocks e.so ++ pendingBlocks rest

/-- Blocks named by the records appended so far. -/
def written (st : Heap × List RenamedGameObject) : List Nat :=
  st.2.map RenamedGameObject.instanceData

/-- A rename that happens only when a new ID was found. -/
def condRename (a : Nat) (v : Option Nat) (st : Heap × List RenamedGameObject) :
    Heap × List RenamedGameObject :=
  match v with
  | some newId => renameSlot a newId st
  | none => st

/-- The new instance ID that the instance walk finds for a child, if any. -/
def childNewId (iterFind : Option IdMap) (child : SceneObject) : Option Nat :=
  match iterFind with
  | some idMap => if child.linkId ≠ -1 then idMap child.linkId else none
  | none => none

/-- Invariant of the rename pass with respect to the heap `h0` before it: restoring the
records made so far gives back `h0`, and blocks without a record are untouched. -/
def RestoresTo (h0 : Heap) (st : Heap × List RenamedGameObject) : Prop :=
  restoreInstanceIds st.2 st.1 = h0 ∧ ∀ a, a ∉ written st → st.1 a = h0 a

/-- The invariant together with the blocks `L` still to be visited: they are pairwise
distinct and none has a record yet. -/
def Good (h0 : Heap) (L : List Nat) (st : Heap × List RenamedGameObject) : Prop :=
  RestoresTo h0 st ∧ L.Nodup ∧ ∀ a ∈ L, a ∉ written st

/-! ## A concrete serializer, diff handler and scene used to evaluate the functions -/

/-- Serialized objects of the example serializer: a whole scene object, the fields of a
component together with the instance ID it had when encoded, or a component delta. -/
inductive Blob where
  | object (so : SceneObject)
  | component (linkId : Int) (rtti : Nat) (state : Nat) (instanceId : Nat)
  | delta (state : Nat)

/-- Example collaborators. The serializer stores a scene object as it is and a component by
its fields and current instance ID; a decoded component lives in a new block (address 0); the
diff handler reports a delta unless the two serialized forms agree. -/
def exampleEnv : Env Blob where
  encodeSceneObject := fun _ so => Blob.object so
  encodeComponent := fun h c => Blob.component c.linkId c.rtti c.state (h c.instanceData)
  decodeSceneObject := fun b =>
    match b with
    | Blob.object so => so
    | _ => SceneObject.mk "" (-1) 0 "" false [] []
  decodeComponent := fun b =>
    match b with
    | Blob.component l r s _ => ⟨l, 0, r, s⟩
    | _ => ⟨-1, 0, 0, 0⟩
  handlerGenerateDiff := fun _ a b =>
    match a, b with
    | Blob.component l r s i, Blob.component l' r' s' i' =>
      if l = l' ∧ r = r' ∧ s = s' ∧ i = i' then none else some (Blob.delta s')
    | _, _ => none
  handlerApplyDiff := fun c d =>
    match d with
    | Blob.delta s => ⟨c.linkId, c.instanceData, c.rtti, s⟩
    | _ => c

/-- Example heap: the block at address `a` holds instance ID `a + 100`. -/
def exampleHeap : Heap := fun a => a + 100

/-- Prefab child `A` with link ID 1. -/
def prefabA : SceneObject := SceneObject.mk "A" 1 2 "" false [] []

/-- Prefab child `B` with link ID 2. -/
def prefabB : SceneObject := SceneObject.mk "B" 2 3 "" false [] []

/-- The prefab `[A(link=1), B(link=2)]`. -/
def examplePrefab : SceneObject := SceneObject.mk "Root" 0 1 "" false [] [prefabA, prefabB]

/-- Instance child `A` with link ID 1. -/
def instanceA : SceneObject := SceneObject.mk "A" 1 12 "" false [] []

/-- Instance child `C`, authored on the instance: link ID -1. -/
def instanceC : SceneObject := SceneObject.mk "C" (-1) 13 "" false [] []

/-- The instance `[A(link=1), C(link=-1)]`. -/
def exampleInstance : SceneObject :=
  SceneObject.mk "Root" 0 11 "" false [] [instanceA, instanceC]

/-- An unmodified clone of the prefab `[A(link=1), B(link=2)]`, with its own blocks. -/
def exampleClone : SceneObject :=
  SceneObject.mk "Root" 0 21 "" false []
    [SceneObject.mk "A" 1 22 "" false [] [], SceneObject.mk "B" 2 23 "" false [] []]

/-- A tree of another prefab: its root carries a different prefab-link UUID. -/
def unrelatedTree : SceneObject := SceneObject.mk "Other" 0 31 "other-prefab" false [] []

/-- The removed-children list of an optional diff node; a null diff has none. -/
def removedChildrenOf {B : Type} : Option (PrefabObjectDiff B) → List Int
  | none => []
  | some d => d.removedChildren

/-- The added-children list of an optional diff node; a null diff has none. -/
def addedChildrenOf {B : Type} : Option (PrefabObjectDiff B) → List B
  | none => []
  | some d => d.addedChildren

/-- The child-diff list of an optional diff node; a null diff has none. -/
def childDiffsOfNode {B : Type} : Option (PrefabObjectDiff B) → List (PrefabObjectDiff B)
  | none => []
  | some d => d.childDiffs

/-! ## Descriptions used to state the properties of diff application -/

/-- The component list after the removal loop over `removedComponents`. -/
def removeComponents (removedComponents : List Int) (components : List Component) :
    List Component :=
  removedComponents.foldl (fun cs removedId => destroyComponent removedId cs) components

/-- The child list after the removal loop over `removedChildren`. -/
def removeChildren (removedChildren : List Int) (children : List SceneObject) :
    List SceneObject :=
  removedChildren.foldl (fun ch removedId => destroyChild removedId ch) children

/-- The component list after the loop over `componentDiffs`. -/
def applyComponentDiffs {B : Type} (env : Env B) (componentDiffs : List (PrefabComponentDiff B))
    (components : List Component) : List Component :=
  componentDiffs.foldl (fun cs componentDiff => applyComponentDiff env componentDiff cs)
    components

/-- Target without components, used to evaluate `applyDiff`. -/
def bareTarget : SceneObject := SceneObject.mk "Root" 0 1 "" false [] []

/-- A diff that adds a component with link ID 5 and also carries a delta for link ID 5. -/
def addThenPatch : PrefabObjectDiff Blob :=
  PrefabObjectDiff.mk 0 "Root" [⟨5, Blob.delta 9⟩] [] [Blob.component 5 0 1 150] [] [] []

/-- The diff `addThenPatch` with its component-diff entry deleted. -/
def addOnly : PrefabObjectDiff Blob :=
  PrefabObjectDiff.mk 0 "Root" [] [] [Blob.component 5 0 1 150] [] [] []

/-- Target with one child of link ID 7. -/
def reuseTarget : SceneObject :=
  SceneObject.mk "Root" 0 1 "" false [] [SceneObject.mk "Old" 7 2 "" false [] []]

/-- A diff that removes the child with link ID 7 and adds a child that reuses link ID 7. -/
def reuseDiff : PrefabObjectDiff Blob :=
  PrefabObjectDiff.mk 0 "Root" [] [] [] [] [7]
    [Blob.object (SceneObject.mk "New" 7 40 "" false [] [])]

/-! ## Clones and link-ID discipline -/

/-- Number of scene objects still to be popped, given a work stack. -/
def stackCount : List StackEntry → Nat
  | [] => 0
  | e :: rest => nodeCount e.so + stackCount rest

/-! ## Descriptions used for the stamp, the component diffs and lazy allocation -/

/-- The component-diff list of an optional diff node; a null diff has none. -/
def componentDiffsOfNode {B : Type} :
    Option (PrefabObjectDiff B) → List (PrefabComponentDiff B)
  | none => []
  | some d => d.componentDiffs

/-- No node of a diff tree generated against the prefab object `P` is empty: the node's name
differs from the name of the prefab object it was generated against or one of its six lists is
non-empty, and the same holds for every child diff against a child of `P` with the link ID of
that child diff. -/
def NonEmptyAgainst {B : Type} : SceneObject → PrefabObjectDiff B → Prop
  | P, .mk _ n cd rc ac chd rch ach =>
    (n ≠ P.name ∨ cd ≠ [] ∨ rc ≠ [] ∨ ac ≠ [] ∨ chd ≠ [] ∨ rch ≠ [] ∨ ach ≠ []) ∧
    listAgainst P.children chd
where
  /-- Every diff of a list is non-empty against some prefab child with its link ID. -/
  listAgainst {B : Type} : List SceneObject → List (PrefabObjectDiff B) → Prop
    | _, [] => True
    | pcs, cd :: rest =>
      (∃ pc ∈ pcs, pc.linkId = cd.id ∧ NonEmptyAgainst pc cd) ∧ listAgainst pcs rest

/-- Prefab with a component without link (link ID -1, state 1) and a child without link. -/
def looseLinkPrefab : SceneObject :=
  SceneObject.mk "Root" 0 1 "" false [⟨-1, 5, 0, 1⟩] [SceneObject.mk "X" (-1) 2 "" false [] []]

/-- Instance with a component without link (state 2) and a renamed child without link. -/
def looseLinkInstance : SceneObject :=
  SceneObject.mk "Root" 0 11 "" false [⟨-1, 15, 0, 2⟩]
    [SceneObject.mk "Y" (-1) 12 "" false [] []]

/-- Prefab with three components: link IDs 3, 4 and 6. -/
def threeComponentPrefab : SceneObject :=
  SceneObject.mk "Root" 0 1 "" false [⟨3, 5, 0, 70⟩, ⟨4, 6, 0, 80⟩, ⟨6, 7, 0, 90⟩] []

/-- Instance of `threeComponentPrefab`: component 3 is unchanged, component 4 has a new state
and component 6 is gone. The instance-data blocks already hold the prefab's instance IDs. -/
def threeComponentInstance : SceneObject :=
  SceneObject.mk "Root" 0 1 "" false [⟨3, 5, 0, 70⟩, ⟨4, 6, 0, 81⟩] []

/-- Instance of the example prefab whose child `A` was renamed. -/
def renamedChildInstance : SceneObject :=
  SceneObject.mk "Root" 0 11 "" false []
    [SceneObject.mk "A2" 1 12 "" false [] [], SceneObject.mk "B" 2 13 "" false [] []]

/-- A component as left by zero or more applications of the diff handler: the same live
component, patched in place. -/
inductive PatchedBy {B : Type} (env : Env B) : Component → Component → Prop where
  | refl (c : Component) : PatchedBy env c c
  | step (c c' : Component) (data : B) :
      PatchedBy env c c' → PatchedBy env c (env.handlerApplyDiff c' data)

/-- Target with two components and two children, used to evaluate additions. -/
def populatedTarget : SceneObject :=
  SceneObject.mk "Root" 0 1 "" false [⟨3, 5, 0, 70⟩, ⟨4, 6, 0, 80⟩]
    [SceneObject.mk "A" 1 2 "" false [] [], SceneObject.mk "B" 2 3 "" false [] []]

/-- A diff that removes component 3 and child 1, adds two components and two children, and
patches component 4. -/
def mixedDiff : PrefabObjectDiff Blob :=
  PrefabObjectDiff.mk 0 "Root" [⟨4, Blob.delta 81⟩] [3]
    [Blob.component 8 0 10 0, Blob.component 9 0 11 0] [] [1]
    [Blob.object (SceneObject.mk "N1" (-1) 40 "" false [] []),
     Blob.object (SceneObject.mk "N2" (-1) 41 "" false [] [])]

/-! ## Diff application with the order of its operations -/

/-- Operations performed during `apply`, in the order performed: the notifications to the
deserialization session and the mutations of the target tree (each with the link ID or name
it concerns). -/
inductive ApplyEvent where
  | session (e : SessionEvent)
  | setName (name : String)
  | destroyComponent (linkId : Int)
  | destroyChild (linkId : Int)
  | addComponentInternal (linkId : Int)
  | setParent (linkId : Int)
  | handlerApplyDiff (linkId : Int)
deriving DecidableEq, Repr

/-- Whether an operation is a notification to the deserialization session. -/
def ApplyEvent.isSession : ApplyEvent → Bool
  | ApplyEvent.session _ => true
  | _ => false

mutual
/-- The function `PrefabDiff::applyDiff` again, this time returning with the target the
operations performed, appended to `trace` in program order. A `destroy` or a handler call is
performed only when the scan finds a game object with the link ID. -/
def applyDiffTraced {B : Type} (env : Env B) :
    PrefabObjectDiff B → SceneObject → List ApplyEvent → SceneObject × List ApplyEvent
  | .mk _ name componentDiffs removedComponents addedComponents childDiffs removedChildren
      addedChildren, object, trace =>
    let st : SceneObject × List ApplyEvent :=
      (object.setName name, trace ++ [ApplyEvent.setName name])
    let st := removedComponents.foldl
      (fun (st : SceneObject × List ApplyEvent) removedId =>
        if st.1.components.any (fun component => removedId == component.linkId) then
          (st.1.setComponents (destroyComponent removedId st.1.components),
            st.2 ++ [ApplyEvent.destroyComponent removedId])
        else st) st
    let st := removedChildren.foldl
      (fun (st : SceneObject × List ApplyEvent) removedId =>
        if st.1.children.any (fun child => removedId == child.linkId) then
          (st.1.setChildren (destroyChild removedId st.1.children),
            st.2 ++ [ApplyEvent.destroyChild removedId])
        else st) st
    let st := addedComponents.foldl
      (fun (st : SceneObject × List ApplyEvent) addedComponentData =>
        (st.1.addComponentInternal (env.decodeComponent addedComponentData),
          st.2 ++ [ApplyEvent.addComponentInternal
            (env.decodeComponent addedComponentData).linkId])) st
    let st := addedChildren.foldl
      (fun (st : SceneObject × List ApplyEvent) addedChildData =>
        ((env.decodeSceneObject addedChildData).setParent st.1,
          st.2 ++ [ApplyEvent.setParent (env.decodeSceneObject addedChildData).linkId])) st
    let st := componentDiffs.foldl
      (fun (st : SceneObject × List ApplyEvent) componentDiff =>
        if st.1.components.any (fun component => componentDiff.id == component.linkId) then
          (st.1.setComponents (applyComponentDiff env componentDiff st.1.components),
            st.2 ++ [ApplyEvent.handlerApplyDiff componentDiff.id])
        else st) st
    let r := applyChildDiffsTraced env childDiffs st.1.children st.2
    (st.1.setChildren r.1, r.2)
/-- The last loop of `applyDiff`, with the operations performed. -/
def applyChildDiffsTraced {B : Type} (env : Env B) :
    List (PrefabObjectDiff B) → List SceneObject → List ApplyEvent →
      List SceneObject × List ApplyEvent
  | [], children, trace => (children, trace)
  | childDiff :: rest, children, trace =>
    match findChild childDiff.id children with
    | some r =>
      let c := applyDiffTraced env childDiff r.2.1 trace
      applyChildDiffsTraced env rest (r.1 ++ c.1 :: r.2.2) c.2
    | none => applyChildDiffsTraced env rest children trace
end

/-- The method `PrefabDiff::apply` again, with the operations performed in program order. -/
def PrefabDiff.applyTraced {B : Type} (env : Env B) (self : PrefabDiff B)
    (object : SceneObject) (trace : List ApplyEvent) : SceneObject × List ApplyEvent :=
  match self.mRoot with
  | none => (object, trace)
  | some root =>
    let trace := trace ++ [ApplyEvent.session SessionEvent.startDeserialization]
    let r := applyDiffTraced env root object trace
    (r.1, r.2 ++ [ApplyEvent.session SessionEvent.endDeserialization])

/-- A trace that continues another one with mutations of the target only. -/
def Extends (trace trace' : List ApplyEvent) : Prop :=
  ∃ evs, trace' = trace ++ evs ∧ ∀ e ∈ evs, e.isSession = false



/-! ## Game objects below a root, by prefab-link scope -/

/-- A game object below the root of a tree, as the walks of `renameInstanceIds` see it: the
prefab-link scope it is entered or looked up in (the `childParentUUID` of its parent object),
whether it is a scene object or a component, its link ID and its instance-data block. -/
structure Entity where
  key : String
  isNode : Bool
  linkId : Int
  block : Nat
deriving DecidableEq, Repr

/-- The components and the children of a visited stack entry. -/
def directEntities (current : StackEntry) : List Entity :=
  current.so.components.map
      (fun c => (⟨childParentUUID current, false, c.linkId, c.instanceData⟩ : Entity)) ++
    current.so.children.map
      (fun c => (⟨childParentUUID current, true, c.linkId, c.instanceData⟩ : Entity))

/-- All game objects strictly below a scene object whose inherited scope is `uuid`: its
components and children, then the game objects below each child. -/
def entitiesBelow : String → SceneObject → List Entity
  | uuid, .mk n l a u f cs ch =>
    directEntities ⟨SceneObject.mk n l a u f cs ch, uuid⟩ ++
      belowList (if u = "" then uuid else u) ch
where
  /-- The game objects below each scene object of a list, all with the same inherited scope. -/
  belowList : String → List SceneObject → List Entity
    | _, [] => []
    | key, c :: rest => entitiesBelow key c ++ belowList key rest

/-- The game objects still to be visited by a walk, given its work stack. -/
def pendingEntities : List StackEntry → List Entity
  | [] => []
  | e :: rest => entitiesBelow e.uuid e.so ++ pendingEntities rest

/-- The instance ID found for a link ID in a scope of `linkToInstanceId`, if any. -/
def lookupId (m : LinkToInstanceId) (key : String) (linkId : Int) : Option Nat :=
  match m key with
  | some idMap => idMap linkId
  | none => none

/-- The new instance ID that the instance walk finds for a game object: a scene object with
link ID -1 is never looked up. -/
def newId (m : LinkToInstanceId) (e : Entity) : Option Nat :=
  if e.isNode = true ∧ e.linkId = -1 then none else lookupId m e.key e.linkId

/-- The renames of a list of game objects in order. -/
def renameAll (m : LinkToInstanceId) (es : List Entity)
    (st : Heap × List RenamedGameObject) : Heap × List RenamedGameObject :=
  es.foldl (fun st e => condRename e.block (newId m e) st) st

/-- The game objects in the order in which a walk of `renameInstanceIds` visits them: the
components and children of the popped scene object, then whatever the stack yields after the
children were pushed. -/
def walkOrder : Nat → List StackEntry → List Entity
  | 0, _ => []
  | _ + 1, [] => []
  | fuel + 1, current :: todo =>
    directEntities current ++
      walkOrder fuel ((current.so.children.map
        (fun c => (⟨c, childParentUUID current⟩ : StackEntry))).reverse ++ todo)

/-- The lookups of a `linkToInstanceId` map after the game objects of a list were entered in
order: a later entry for the same scope and link ID replaces an earlier one. -/
def recordAll (h : Heap) (es : List Entity) (f : String → Int → Option Nat) :
    String → Int → Option Nat :=
  es.foldl
    (fun f e => fun k l => if k = e.key ∧ l = e.linkId then some (h e.block) else f k l) f

/-- Two states of the rename pass, started from the heaps `h1` and `h2`, that made the same
records: the blocks with a record hold the same ID in both, the others still hold their
original IDs. -/
def Sim (h1 h2 : Heap) (sA sB : Heap × List RenamedGameObject) : Prop :=
  written sA = written sB ∧
    ∀ a, (a ∈ written sA → sA.1 a = sB.1 a) ∧ (a ∉ written sA → sA.1 a = h1 a ∧ sB.1 a = h2 a)

/-- Prefab whose root has a component and a child that share link ID 1. -/
def collidingPrefab : SceneObject :=
  SceneObject.mk "Root" 0 1 "" false [⟨1, 5, 0, 70⟩] [SceneObject.mk "A" 1 2 "" false [] []]

/-- Instance of `collidingPrefab`, with its own blocks. -/
def collidingInstance : SceneObject :=
  SceneObject.mk "Root" 0 11 "" false [⟨1, 15, 0, 70⟩]
    [SceneObject.mk "A" 1 12 "" false [] []]

/-- Instance whose root has no link (link ID -1), with a child of link ID 1. -/
def unlinkedRootInstance : SceneObject :=
  SceneObject.mk "Root" (-1) 11 "" false [] [SceneObject.mk "A" 1 12 "" false [] []]

/-- The example heap with other instance IDs for the instance root (block 11) and for the
instance child `A` (block 12). -/
def otherIdsHeap : Heap :=
  Function.update (Function.update exampleHeap 11 999) 12 998

/-- Correspondence through the same sequence of child link IDs: a game object below the
prefab object `P` and a game object below the instance object `I` correspond when they are
components, or children, of `P` and `I` with the same link ID, or when they correspond below
a child of `P` and a child of `I` that have the same link ID. The objects on the way carry the
same nested-prefab UUID on both sides, so that both game objects lie in the same scope;
`uuid` is the scope inherited by `P` and `I`. -/
inductive Corresponds : String → SceneObject → SceneObject → Entity → Entity → Prop where
  | component (uuid : String) (P I : SceneObject) (pc ic : Component) :
      P.mPrefabLinkUUID = I.mPrefabLinkUUID → pc ∈ P.components → ic ∈ I.components →
      pc.linkId = ic.linkId →
      Corresponds uuid P I
        ⟨childParentUUID ⟨P, uuid⟩, false, pc.linkId, pc.instanceData⟩
        ⟨childParentUUID ⟨I, uuid⟩, false, ic.linkId, ic.instanceData⟩
  | child (uuid : String) (P I : SceneObject) (pc ic : SceneObject) :
      P.mPrefabLinkUUID = I.mPrefabLinkUUID → pc ∈ P.children → ic ∈ I.children →
      pc.linkId = ic.linkId →
      Corresponds uuid P I
        ⟨childParentUUID ⟨P, uuid⟩, true, pc.linkId, pc.instanceData⟩
        ⟨childParentUUID ⟨I, uuid⟩, true, ic.linkId, ic.instanceData⟩
  | descend (uuid : String) (P I : SceneObject) (pc ic : SceneObject) (e' e : Entity) :
      P.mPrefabLinkUUID = I.mPrefabLinkUUID → pc ∈ P.children → ic ∈ I.children →
      pc.linkId = ic.linkId →
      Corresponds (childParentUUID ⟨P, uuid⟩) pc ic e' e →
      Corresponds uuid P I e' e

/-- The added-components list of an optional diff node; a null diff has none. -/
def addedComponentsOf {B : Type} : Option (PrefabObjectDiff B) → List B
  | none => []
  | some d => d.addedComponents

/-- An instance of a prefab without children and components: one child flagged
do-not-persist and one component, both authored on the instance (link ID -1). -/
def flaggedInstance : SceneObject :=
  SceneObject.mk "Root" 0 11 "" false [⟨-1, 15, 0, 70⟩]
    [SceneObject.mk "Gizmo" (-1) 12 "" true [] []]

/-- The prefab of `flaggedInstance`: a root without children and components. -/
def barePrefab : SceneObject := SceneObject.mk "Root" 0 1 "" false [] []

/-! ## Dynamic library manager (`BsDynLibManager.cpp`) -/

/-- Conversion of a string length (`size_t`) to `int`, as in `const int length =
filename.length()`: the value modulo 2^32 read as a two's-complement number. It is the
length itself for a string shorter than 2^31 characters. -/
def intOfSize (n : Nat) : Int :=
  ((n : Int) + 2147483648) % 4294967296 - 2147483648

/-- The call `s.substr(pos)` of the standard string: the characters of `s` from position
`pos` to the end. At its only call `pos` is `length - ext_length` behind the guard
`length > ext_length`, a position inside the string (the extension being shorter than 2^31
characters), so the call does not throw. -/
def substr (s : String) (pos : Nat) : String :=
  ⟨s.data.drop pos⟩

/-- The local `filename` of `DynLibManager::load` after "Add the extension if necessary":
the key under which the library is looked up and entered. `dynLibExtension` is the platform
constant `DynLib::extension`, whose definition is not part of the sources. -/
def fileName (dynLibExtension : String) (name : String) : String :=
  let filename := name
  let length : Int := intOfSize filename.length
  let extension := "." ++ dynLibExtension
  let ext_length : Int := intOfSize extension.length
  if length ≤ ext_length ∨ substr filename (length - ext_length).toNat ≠ extension then
    filename ++ extension
  else
    filename

/-- Modelled from the spec: class `DynLib` is not part of the sources. A library object keeps
a file name, which `getName` returns. -/
structure DynLib where
  mName : String
deriving DecidableEq, Repr

/-- The accessor `DynLib::getName`. -/
def DynLib.getName (lib : DynLib) : String := lib.mName

/-- What `DynLibManager` uses and the sources do not hold: the constant `DynLib::extension`,
the constructor `DynLib(filename)` (`none` when it throws, `some` of the constructed object
otherwise) and the allocator `bs_alloc<DynLib>()`, which picks the address of the new object
given the objects alive. -/
structure DynLibEnv where
  extension : String
  newDynLib : String → Option DynLib
  bs_alloc : (Nat → Option DynLib) → Nat

/-- The map `mLoadedLibraries` from file names to library pointers, as the list of its
entries. The order of the entries stands for nothing: the functions below only look up,
assign and erase by key. -/
abbrev LibraryMap := List (String × Nat)

/-- The lookup `mLoadedLibraries.find(key)`: the pointer of the entry found, `none` for the
end iterator. -/
def LibraryMap.find (m : LibraryMap) (key : String) : Option Nat :=
  (List.find? (fun e => e.1 == key) m).map Prod.snd

/-- The assignment `mLoadedLibraries[key] = value`: the entry of the key is replaced when
there is one, and a new entry is made otherwise. -/
def LibraryMap.assign (m : LibraryMap) (key : String) (value : Nat) : LibraryMap :=
  if (LibraryMap.find m key).isSome then
    m.map (fun e => if e.1 = key then (key, value) else e)
  else
    m ++ [(key, value)]

/-- The call `mLoadedLibraries.erase(iterFind)` on the entry found for a key. -/
def LibraryMap.erase (m : LibraryMap) (key : String) : LibraryMap :=
  m.filter (fun e => e.1 != key)

/-- The state that `DynLibManager` works on: its member `mLoadedLibraries` and the `DynLib`
objects alive on the heap, by address. -/
structure DynLibManager where
  mLoadedLibraries : LibraryMap
  objects : Nat → Option DynLib

/-- The function `DynLibManager::load`: the pointer returned and the state after the call,
`none` when the constructor of `DynLib` throws. -/
def DynLibManager.load (env : DynLibEnv) (mgr : DynLibManager) (name : String) :
    Option (Nat × DynLibManager) :=
  let filename := fileName env.extension name
  match LibraryMap.find mgr.mLoadedLibraries filename with
  | some lib => some (lib, mgr)
  | none =>
    match env.newDynLib filename with
    | none => none
    | some object =>
      let newLib := env.bs_alloc mgr.objects
      some (newLib,
        ⟨LibraryMap.assign mgr.mLoadedLibraries filename newLib,
          Function.update mgr.objects newLib (some object)⟩)

/-- The function `DynLibManager::unload`: the entry of the name of the library is erased when
there is one, and the object is deleted. The call is undefined (`none`) on a pointer to no
object alive. -/
def DynLibManager.unload (mgr : DynLibManager) (lib : Nat) : Option DynLibManager :=
  match mgr.objects lib with
  | none => none
  | some object =>
    some ⟨LibraryMap.erase mgr.mLoadedLibraries object.getName,
      Function.update mgr.objects lib none⟩

/-- The states of a manager that starts with an empty map (its constructor) and then serves
calls of `load` and `unload`. -/
inductive Reachable (env : DynLibEnv) : DynLibManager → Prop where
  | init (objects : Nat → Option DynLib) : Reachable env ⟨[], objects⟩
  | load (mgr mgr1 : DynLibManager) (name : String) (lib : Nat) :
      Reachable env mgr → DynLibManager.load env mgr name = some (lib, mgr1) →
      Reachable env mgr1
  | unload (mgr mgr1 : DynLibManager) (lib : Nat) :
      Reachable env mgr → DynLibManager.unload mgr lib = some mgr1 → Reachable env mgr1

/-- Example collaborators on a platform whose libraries end in `.dll`: every library can be
constructed, and new objects get the addresses 1, 2, ... in turn. -/
def exampleDynLibEnv : DynLibEnv where
  extension := "dll"
  newDynLib := fun filename => some ⟨filename⟩
  bs_alloc := fun objects => if (objects 1).isNone then 1 else 2

/-- A manager that has loaded nothing. -/
def emptyManager : DynLibManager := ⟨[], fun _ => none⟩

/-- The manager after `load("Foo")` on `emptyManager` with the example collaborators. -/
def fooManager : DynLibManager :=
  ⟨[("Foo.dll", 1)], Function.update (fun _ => none) 1 (some ⟨"Foo.dll"⟩)⟩

/-- The manager after `load("Bar")` on `fooManager` with the example collaborators. -/
def fooBarManager : DynLibManager :=
  ⟨[("Foo.dll", 1), ("Bar.dll", 2)],
    Function.update (Function.update (fun _ => none) 1 (some ⟨"Foo.dll"⟩)) 2
      (some ⟨"Bar.dll"⟩)⟩

/-- A later state of a manager: reached through calls of `load` only, none of `unload`. -/
inductive LoadsTo (env : DynLibEnv) : DynLibManager → DynLibManager → Prop where
  | refl (mgr : DynLibManager) : LoadsTo env mgr mgr
  | step (mgr mgr1 mgr2 : DynLibManager) (name : String) (lib : Nat) :
      LoadsTo env mgr mgr1 → DynLibManager.load env mgr1 name = some (lib, mgr2) →
      LoadsTo env mgr mgr2

/-- What holds of the map of a manager in every state: no two entries have the same key, and
every key is the file name that `load` makes of some name. -/
def MapInvariant (env : DynLibEnv) (m : LibraryMap) : Prop :=
  (m.map Prod.fst).Nodup ∧ ∀ key ∈ m.map Prod.fst, ∃ name, key = fileName env.extension name

/-! ## Descriptions used to state the order of the operations of `applyDiff` -/

/-- The link IDs for which the loop over `removedComponents` finds a component and destroys
it, in the order of the loop. -/
def destroyedComponentIds : List Int → List Component → List Int
  | [], _ => []
  | removedId :: rest, components =>
    if components.any (fun component => removedId == component.linkId) then
      removedId :: destroyedComponentIds rest (destroyComponent removedId components)
    else
      destroyedComponentIds rest components

/-- The link IDs for which the loop over `removedChildren` finds a child and destroys it, in
the order of the loop. -/
def destroyedChildIds : List Int → List SceneObject → List Int
  | [], _ => []
  | removedId :: rest, children =>
    if children.any (fun child => removedId == child.linkId) then
      removedId :: destroyedChildIds rest (destroyChild removedId children)
    else
      destroyedChildIds rest children

/-- The ids for which the loop over `componentDiffs` finds a component and calls its diff
handler, in the order of the loop. -/
def patchedComponentIds {B : Type} (env : Env B) :
    List (PrefabComponentDiff B) → List Component → List Int
  | [], _ => []
  | componentDiff :: rest, components =>
    if components.any (fun component => componentDiff.id == component.linkId) then
      componentDiff.id :: patchedComponentIds env rest
        (applyComponentDiff env componentDiff components)
    else
      patchedComponentIds env rest components

section GenerateDiff

variable {B : Type}

@[simp] theorem SceneObject.name_mk (n : String) (l : Int) (a : Nat) (u : String) (f : Bool)
    (cs : List Component) (ch : List SceneObject) :
    (SceneObject.mk n l a u f cs ch).name = n := rfl

@[simp] theorem SceneObject.linkId_mk (n : String) (l : Int) (a : Nat) (u : String) (f : Bool)
    (cs : List Component) (ch : List SceneObject) :
    (SceneObject.mk n l a u f cs ch).linkId = l := rfl

@[simp] theorem SceneObject.instanceData_mk (n : String) (l : Int) (a : Nat) (u : String)
    (f : Bool) (cs : List Component) (ch : List SceneObject) :
    (SceneObject.mk n l a u f cs ch).instanceData = a := rfl

@[simp] theorem SceneObject.mPrefabLinkUUID_mk (n : String) (l : Int) (a : Nat) (u : String)
    (f : Bool) (cs : List Component) (ch : List SceneObject) :
    (SceneObject.mk n l a u f cs ch).mPrefabLinkUUID = u := rfl

@[simp] theorem SceneObject.dontSave_mk (n : String) (l : Int) (a : Nat) (u : String) (f : Bool)
    (cs : List Component) (ch : List SceneObject) :
    (SceneObject.mk n l a u f cs ch).dontSave = f := rfl

@[simp] theorem SceneObject.components_mk (n : String) (l : Int) (a : Nat) (u : String)
    (f : Bool) (cs : List Component) (ch : List SceneObject) :
    (SceneObject.mk n l a u f cs ch).components = cs := rfl

@[simp] theorem SceneObject.children_mk (n : String) (l : Int) (a : Nat) (u : String) (f : Bool)
    (cs : List Component) (ch : List SceneObject) :
    (SceneObject.mk n l a u f cs ch).children = ch := rfl

theorem extendOpt_nil (out : Option (PrefabObjectDiff B)) :
    extendOpt out [] [] [] [] [] [] = out := by
  simp [extendOpt]

theorem alloc_some (d : PrefabObjectDiff B) : alloc (some d) = d := rfl

theorem extendOpt_pushChildDiff (out : Option (PrefabObjectDiff B)) (x : PrefabObjectDiff B)
    (chd : List (PrefabObjectDiff B)) (rch : List Int) :
    extendOpt (some ((alloc out).pushChildDiff x)) [] [] [] chd rch []
      = extendOpt out [] [] [] (x :: chd) rch [] := by
  cases h : alloc out
  cases chd <;> cases rch <;>
    simp [extendOpt, alloc_some, h, PrefabObjectDiff.extend, PrefabObjectDiff.pushChildDiff]

theorem extendOpt_pushRemovedChild (out : Option (PrefabObjectDiff B)) (x : Int)
    (chd : List (PrefabObjectDiff B)) (rch : List Int) :
    extendOpt (some ((alloc out).pushRemovedChild x)) [] [] [] chd rch []
      = extendOpt out [] [] [] chd (x :: rch) [] := by
  cases h : alloc out
  cases chd <;> cases rch <;>
    simp [extendOpt, alloc_some, h, PrefabObjectDiff.extend, PrefabObjectDiff.pushRemovedChild]

theorem childLoop_eq (env : Env B) (h : Heap) (ics pcs : List SceneObject)
    (out : Option (PrefabObjectDiff B)) :
    childLoop env h ics pcs out =
      extendOpt out [] [] [] (pcs.filterMap (childDiffOf env h ics))
        ((pcs.filter (fun pc => (matchedChild ics pc).isNone)).map SceneObject.linkId) [] := by
  induction pcs generalizing out with
  | nil => simp [childLoop, extendOpt_nil]
  | cons pc rest ih =>
    rw [childLoop]
    cases hm : ics.find? (fun ic => pc.linkId == ic.linkId) with
    | none =>
      have h1 : childDiffOf env h ics pc = none := by simp [childDiffOf, matchedChild, hm]
      have h2 : (matchedChild ics pc).isNone = true := by simp [matchedChild, hm]
      simp only [ih, List.filterMap_cons, h1, List.filter_cons, h2, if_true, List.map_cons,
        extendOpt_pushRemovedChild]
    | some ic =>
      have h2 : (matchedChild ics pc).isNone = false := by simp [matchedChild, hm]
      by_cases hu : ic.mPrefabLinkUUID = ""
      · cases hg : generateDiff env h pc ic with
        | none =>
          have h1 : childDiffOf env h ics pc = none := by
            simp [childDiffOf, matchedChild, hm, hu, hg]
          simp [ih, List.filterMap_cons, h1, List.filter_cons, h2, hu, hg]
        | some cd =>
          have h1 : childDiffOf env h ics pc = some cd := by
            simp [childDiffOf, matchedChild, hm, hu, hg]
          simp [ih, List.filterMap_cons, h1, List.filter_cons, h2, hu, hg,
            extendOpt_pushChildDiff]
      · have h1 : childDiffOf env h ics pc = none := by
          simp [childDiffOf, matchedChild, hm, hu]
        simp [ih, List.filterMap_cons, h1, List.filter_cons, h2, hu]

theorem extendOpt_pushAddedChild (out : Option (PrefabObjectDiff B)) (x : B) (ach : List B) :
    extendOpt (some ((alloc out).pushAddedChild x)) [] [] [] [] [] ach
      = extendOpt out [] [] [] [] [] (x :: ach) := by
  cases h : alloc out
  cases ach <;>
    simp [extendOpt, alloc_some, h, PrefabObjectDiff.extend, PrefabObjectDiff.pushAddedChild]

theorem extendOpt_pushComponentDiff (out : Option (PrefabObjectDiff B))
    (x : PrefabComponentDiff B) (cd : List (PrefabComponentDiff B)) (rc : List Int) :
    extendOpt (some ((alloc out).pushComponentDiff x)) cd rc [] [] [] []
      = extendOpt out (x :: cd) rc [] [] [] [] := by
  cases h : alloc out
  cases cd <;> cases rc <;>
    simp [extendOpt, alloc_some, h, PrefabObjectDiff.extend, PrefabObjectDiff.pushComponentDiff]

theorem extendOpt_pushRemovedComponent (out : Option (PrefabObjectDiff B)) (x : Int)
    (cd : List (PrefabComponentDiff B)) (rc : List Int) :
    extendOpt (some ((alloc out).pushRemovedComponent x)) cd rc [] [] [] []
      = extendOpt out cd (x :: rc) [] [] [] [] := by
  cases h : alloc out
  cases cd <;> cases rc <;>
    simp [extendOpt, alloc_some, h, PrefabObjectDiff.extend,
      PrefabObjectDiff.pushRemovedComponent]

theorem extendOpt_pushAddedComponent (out : Option (PrefabObjectDiff B)) (x : B)
    (ac : List B) :
    extendOpt (some ((alloc out).pushAddedComponent x)) [] [] ac [] [] []
      = extendOpt out [] [] (x :: ac) [] [] [] := by
  cases h : alloc out
  cases ac <;>
    simp [extendOpt, alloc_some, h, PrefabObjectDiff.extend, PrefabObjectDiff.pushAddedComponent]

theorem addedChildrenLoop_eq (env : Env B) (h : Heap) (pcs ics : List SceneObject)
    (out : Option (PrefabObjectDiff B)) :
    addedChildrenLoop env h pcs ics out =
      extendOpt out [] [] [] [] []
        ((ics.filter (isAddedChild pcs)).map (env.encodeSceneObject h)) := by
  induction ics generalizing out with
  | nil => simp [addedChildrenLoop, extendOpt_nil]
  | cons ic rest ih =>
    rw [addedChildrenLoop]
    by_cases hd : ic.dontSave = true
    · have h1 : isAddedChild pcs ic = false := by simp [isAddedChild, hd]
      simp only [hd, if_true, ih, List.filter_cons, h1, Bool.false_eq_true, if_false]
    · by_cases hl : ic.linkId = -1
      · have h1 : isAddedChild pcs ic = true := by simp [isAddedChild, hd, hl]
        simp [hd, hl, ih, List.filter_cons, h1, extendOpt_pushAddedChild]
      · by_cases hm : pcs.any (fun pc => pc.linkId == ic.linkId) = true
        · have h1 : isAddedChild pcs ic = false := by
            simp only [isAddedChild, hm]; simp [hl]
          simp [hd, hl, hm, ih, List.filter_cons, h1]
        · have h1 : isAddedChild pcs ic = true := by
            simp only [isAddedChild, hm]; simp [hd]
          simp [hd, hl, hm, ih, List.filter_cons, h1, extendOpt_pushAddedChild]

theorem componentLoop_eq (env : Env B) (h : Heap) (ics pcs : List Component)
    (out : Option (PrefabObjectDiff B)) :
    componentLoop env h ics pcs out =
      extendOpt out (pcs.filterMap (componentDiffOf env h ics))
        ((pcs.filter (fun pc => (matchedComponent ics pc).isNone)).map Component.linkId)
        [] [] [] [] := by
  induction pcs generalizing out with
  | nil => simp [componentLoop, extendOpt_nil]
  | cons pc rest ih =>
    rw [componentLoop]
    cases hm : ics.find? (fun ic => pc.linkId == ic.linkId) with
    | none =>
      have h1 : componentDiffOf env h ics pc = none := by
        simp [componentDiffOf, matchedComponent, hm]
      have h2 : (matchedComponent ics pc).isNone = true := by simp [matchedComponent, hm]
      simp only [ih, List.filterMap_cons, h1, List.filter_cons, h2, if_true, List.map_cons,
        extendOpt_pushRemovedComponent]
    | some ic =>
      have h2 : (matchedComponent ics pc).isNone = false := by simp [matchedComponent, hm]
      cases hg : env.handlerGenerateDiff pc.rtti (env.encodeComponent h pc)
          (env.encodeComponent h ic) with
      | none =>
        have h1 : componentDiffOf env h ics pc = none := by
          simp [componentDiffOf, matchedComponent, hm, hg]
        simp [ih, List.filterMap_cons, h1, List.filter_cons, h2, hg]
      | some diff =>
        have h1 : componentDiffOf env h ics pc = some ⟨pc.linkId, diff⟩ := by
          simp [componentDiffOf, matchedComponent, hm, hg]
        simp [ih, List.filterMap_cons, h1, List.filter_cons, h2, hg,
          extendOpt_pushComponentDiff]

theorem addedComponentsLoop_eq (env : Env B) (h : Heap) (pcs ics : List Component)
    (out : Option (PrefabObjectDiff B)) :
    addedComponentsLoop env h pcs ics out =
      extendOpt out [] []
        ((ics.filter (isAddedComponent pcs)).map (env.encodeComponent h)) [] [] [] := by
  induction ics generalizing out with
  | nil => simp [addedComponentsLoop, extendOpt_nil]
  | cons ic rest ih =>
    rw [addedComponentsLoop]
    by_cases hl : ic.linkId = -1
    · have h1 : isAddedComponent pcs ic = true := by simp [isAddedComponent, hl]
      simp [hl, ih, List.filter_cons, h1, extendOpt_pushAddedComponent]
    · by_cases hm : pcs.any (fun pc => pc.linkId == ic.linkId) = true
      · have h1 : isAddedComponent pcs ic = false := by
          simp only [isAddedComponent, hm]; simp [hl]
        simp [hl, hm, ih, List.filter_cons, h1]
      · have h1 : isAddedComponent pcs ic = true := by
          simp only [isAddedComponent, hm]; simp
        simp [hl, hm, ih, List.filter_cons, h1, extendOpt_pushAddedComponent]

theorem extend_extend (d : PrefabObjectDiff B) (a a' : List (PrefabComponentDiff B))
    (b b' : List Int) (c c' : List B) (e e' : List (PrefabObjectDiff B)) (f f' : List Int)
    (g g' : List B) :
    (d.extend a b c e f g).extend a' b' c' e' f' g'
      = d.extend (a ++ a') (b ++ b') (c ++ c') (e ++ e') (f ++ f') (g ++ g') := by
  cases d; simp [PrefabObjectDiff.extend]

theorem extend_nil (d : PrefabObjectDiff B) : d.extend [] [] [] [] [] [] = d := by
  cases d; simp [PrefabObjectDiff.extend]

theorem extendOpt_extendOpt (out : Option (PrefabObjectDiff B))
    (a a' : List (PrefabComponentDiff B))
    (b b' : List Int) (c c' : List B) (e e' : List (PrefabObjectDiff B)) (f f' : List Int)
    (g g' : List B) :
    extendOpt (extendOpt out a b c e f g) a' b' c' e' f' g'
      = extendOpt out (a ++ a') (b ++ b') (c ++ c') (e ++ e') (f ++ f') (g ++ g') := by
  by_cases h1 : (a.isEmpty && b.isEmpty && c.isEmpty && e.isEmpty && f.isEmpty && g.isEmpty)
      = true
  · simp only [Bool.and_eq_true, List.isEmpty_iff] at h1
    obtain ⟨⟨⟨⟨⟨rfl, rfl⟩, rfl⟩, rfl⟩, rfl⟩, rfl⟩ := h1
    simp [extendOpt_nil]
  · by_cases h2 : (a'.isEmpty && b'.isEmpty && c'.isEmpty && e'.isEmpty && f'.isEmpty
        && g'.isEmpty) = true
    · simp only [Bool.and_eq_true, List.isEmpty_iff] at h2
      obtain ⟨⟨⟨⟨⟨rfl, rfl⟩, rfl⟩, rfl⟩, rfl⟩, rfl⟩ := h2
      simp [extendOpt_nil]
    · have h3 : ¬ ((a ++ a').isEmpty && (b ++ b').isEmpty && (c ++ c').isEmpty
          && (e ++ e').isEmpty && (f ++ f').isEmpty && (g ++ g').isEmpty) = true := by
        intro h3
        apply h1
        simp only [Bool.and_eq_true, List.isEmpty_iff, List.append_eq_nil] at h3 ⊢
        tauto
      simp [extendOpt, h1, h2, h3, alloc_some, extend_extend]

theorem stamp_extendOpt (b : Prop) [Decidable b] (cd : List (PrefabComponentDiff B))
    (rc : List Int) (ac : List B) (chd : List (PrefabObjectDiff B)) (rch : List Int)
    (ach : List B) (n : String) (i : Int) :
    (match extendOpt (if ¬ b then some PrefabObjectDiff.fresh else none) cd rc ac chd rch ach
      with
      | some d => some (d.stamp n i)
      | none => none)
    = if b ∧ (cd.isEmpty && rc.isEmpty && ac.isEmpty && chd.isEmpty && rch.isEmpty
          && ach.isEmpty) = true then none
      else some (PrefabObjectDiff.mk i n cd rc ac chd rch ach) := by
  by_cases hb : b <;>
  by_cases he : (cd.isEmpty && rc.isEmpty && ac.isEmpty && chd.isEmpty && rch.isEmpty
          && ach.isEmpty) = true
  · simp [extendOpt, hb, he]
  · simp [extendOpt, alloc, PrefabObjectDiff.fresh, PrefabObjectDiff.extend,
      PrefabObjectDiff.stamp, hb, he]
  · have he2 := he
    simp only [Bool.and_eq_true, List.isEmpty_iff] at he2
    obtain ⟨⟨⟨⟨⟨rfl, rfl⟩, rfl⟩, rfl⟩, rfl⟩, rfl⟩ := he2
    simp [extendOpt, alloc, PrefabObjectDiff.fresh, PrefabObjectDiff.stamp, hb]
  · simp [extendOpt, alloc, PrefabObjectDiff.fresh, PrefabObjectDiff.extend,
      PrefabObjectDiff.stamp, hb, he]

/-- Closed form of `generateDiff`: the six lists are computed independently of one another,
a node exists exactly when the names differ or a list is non-empty, and it is stamped with
the link ID and the name of the instance object. -/
theorem generateDiff_eq (env : Env B) (h : Heap) (P I : SceneObject) :
    generateDiff env h P I =
      (if P.name = I.name ∧
          ((P.components.filterMap (componentDiffOf env h I.components)).isEmpty
          && ((P.components.filter (fun pc => (matchedComponent I.components pc).isNone)).map
                Component.linkId).isEmpty
          && ((I.components.filter (isAddedComponent P.components)).map
                (env.encodeComponent h)).isEmpty
          && (P.children.filterMap (childDiffOf env h I.children)).isEmpty
          && ((P.children.filter (fun pc => (matchedChild I.children pc).isNone)).map
                SceneObject.linkId).isEmpty
          && ((I.children.filter (isAddedChild P.children)).map
                (env.encodeSceneObject h)).isEmpty) = true
       then none
       else some (PrefabObjectDiff.mk I.linkId I.name
          (P.components.filterMap (componentDiffOf env h I.components))
          ((P.components.filter (fun pc => (matchedComponent I.components pc).isNone)).map
            Component.linkId)
          ((I.components.filter (isAddedComponent P.components)).map (env.encodeComponent h))
          (P.children.filterMap (childDiffOf env h I.children))
          ((P.children.filter (fun pc => (matchedChild I.children pc).isNone)).map
            SceneObject.linkId)
          ((I.children.filter (isAddedChild P.children)).map (env.encodeSceneObject h)))) := by
  cases P with
  | mk pn pl pa pu pf pcs pch =>
    simp only [generateDiff, childLoop_eq, addedChildrenLoop_eq, componentLoop_eq,
      addedComponentsLoop_eq, extendOpt_extendOpt, SceneObject.name_mk,
      SceneObject.components_mk, SceneObject.children_mk, List.nil_append, List.append_nil]
    exact stamp_extendOpt _ _ _ _ _ _ _ _ _

end GenerateDiff

/-! ## Rename and restore -/

section RenameRestore

theorem restore_append (l1 l2 : List RenamedGameObject) (h : Heap) :
    restoreInstanceIds (l1 ++ l2) h = restoreInstanceIds l2 (restoreInstanceIds l1 h) := by
  simp [restoreInstanceIds, List.foldl_append]

theorem restore_update_of_not_mem (l : List RenamedGameObject) (h : Heap) (a v : Nat)
    (ha : a ∉ l.map RenamedGameObject.instanceData) :
    restoreInstanceIds l (Function.update h a v)
      = Function.update (restoreInstanceIds l h) a v := by
  induction l generalizing h with
  | nil => rfl
  | cons r rest ih =>
    simp only [List.map_cons, List.mem_cons, not_or] at ha
    have hne : a ≠ r.instanceData := ha.1
    show restoreInstanceIds rest (Function.update (Function.update h a v) r.instanceData
        r.originalId) = Function.update (restoreInstanceIds rest
          (Function.update h r.instanceData r.originalId)) a v
    rw [Function.update_comm hne, ih _ ha.2]

theorem written_renameSlot (a v : Nat) (st : Heap × List RenamedGameObject) :
    written (renameSlot a v st) = written st ++ [a] := by
  simp [written, renameSlot]

theorem restoresTo_renameSlot (h0 : Heap) (a v : Nat) (st : Heap × List RenamedGameObject)
    (hi : RestoresTo h0 st) (ha : a ∉ written st) : RestoresTo h0 (renameSlot a v st) := by
  obtain ⟨h1, h2⟩ := hi
  constructor
  · show restoreInstanceIds (st.2 ++ [⟨a, st.1 a⟩]) (Function.update st.1 a v) = h0
    rw [restore_append, restore_update_of_not_mem _ _ _ _ ha, h1]
    show Function.update (Function.update h0 a v) a (st.1 a) = h0
    rw [Function.update_idem, h2 a ha, Function.update_eq_self]
  · intro b hb
    rw [written_renameSlot, List.mem_append, not_or, List.mem_singleton] at hb
    show Function.update st.1 a v b = h0 b
    rw [Function.update_noteq hb.2, h2 b hb.1]

theorem good_condRename (h0 : Heap) (a : Nat) (v : Option Nat) (L : List Nat)
    (st : Heap × List RenamedGameObject) (hg : Good h0 (a :: L) st) :
    Good h0 L (condRename a v st) := by
  obtain ⟨hi, hnd, hw⟩ := hg
  rw [List.nodup_cons] at hnd
  cases v with
  | none => exact ⟨hi, hnd.2, fun b hb => hw b (List.mem_cons_of_mem _ hb)⟩
  | some x =>
    refine ⟨restoresTo_renameSlot h0 a x st hi (hw a (List.mem_cons_self _ _)), hnd.2, ?_⟩
    intro b hb
    show b ∉ written (renameSlot a x st)
    rw [written_renameSlot, List.mem_append, not_or, List.mem_singleton]
    refine ⟨hw b (List.mem_cons_of_mem _ hb), ?_⟩
    rintro rfl
    exact hnd.1 hb

theorem good_perm (h0 : Heap) (L L' : List Nat) (st : Heap × List RenamedGameObject)
    (hp : L.Perm L') (hg : Good h0 L st) : Good h0 L' st :=
  ⟨hg.1, hp.nodup_iff.mp hg.2.1, fun a ha => hg.2.2 a (hp.mem_iff.mpr ha)⟩

theorem good_renameComponents (h0 : Heap) (idMap : IdMap) (cs : List Component)
    (L : List Nat) (st : Heap × List RenamedGameObject)
    (hg : Good h0 (cs.map Component.instanceData ++ L) st) :
    Good h0 L (renameComponents idMap cs st) := by
  induction cs generalizing st with
  | nil => simpa [renameComponents] using hg
  | cons c rest ih =>
    have hstep := good_condRename h0 c.instanceData (idMap c.linkId) _ st hg
    have := ih _ hstep
    simpa [renameComponents, condRename] using this

theorem good_drop (h0 : Heap) (L1 L2 : List Nat) (st : Heap × List RenamedGameObject)
    (hg : Good h0 (L1 ++ L2) st) : Good h0 L2 st :=
  ⟨hg.1, (List.nodup_append.mp hg.2.1).2.1, fun a ha => hg.2.2 a (List.mem_append_right _ ha)⟩

theorem renameChild_fst (iterFind : Option IdMap) (key : String)
    (st : (Heap × List RenamedGameObject) × List StackEntry) (child : SceneObject) :
    renameChild iterFind key st child =
      (condRename child.instanceData (childNewId iterFind child) st.1,
       (⟨child, key⟩ : StackEntry) :: st.2) := by
  cases iterFind with
  | none => rfl
  | some idMap =>
    by_cases hl : child.linkId = -1
    · simp [renameChild, condRename, childNewId, hl]
    · cases hv : idMap child.linkId <;> simp [renameChild, condRename, childNewId, hl, hv]

theorem good_renameChildren (h0 : Heap) (iterFind : Option IdMap) (key : String)
    (ch : List SceneObject) (todo : List StackEntry) (st : Heap × List RenamedGameObject)
    (hg : Good h0 (ownedBlocks.blocksList ch ++ pendingBlocks todo) st) :
    Good h0 (pendingBlocks (ch.foldl (renameChild iterFind key) (st, todo)).2)
      (ch.foldl (renameChild iterFind key) (st, todo)).1 := by
  induction ch generalizing st todo with
  | nil => simpa [ownedBlocks.blocksList] using hg
  | cons c rest ih =>
    rw [List.foldl_cons, renameChild_fst]
    apply ih
    have h1 : Good h0 (c.instanceData ::
        (ownedBlocks c ++ (ownedBlocks.blocksList rest ++ pendingBlocks todo))) st := by
      simpa [ownedBlocks.blocksList, List.append_assoc] using hg
    have h2 := good_condRename h0 c.instanceData (childNewId iterFind c) _ st h1
    refine good_perm h0 _ _ _ ?_ h2
    show (ownedBlocks c ++ (ownedBlocks.blocksList rest ++ pendingBlocks todo)).Perm
      (ownedBlocks.blocksList rest ++ (ownedBlocks c ++ pendingBlocks todo))
    rw [← List.append_assoc, ← List.append_assoc]
    exact List.Perm.append_right _ List.perm_append_comm

theorem good_instanceVisit (h0 : Heap) (m : LinkToInstanceId) (current : StackEntry)
    (todo : List StackEntry) (st : Heap × List RenamedGameObject)
    (hg : Good h0 (pendingBlocks (current :: todo)) st) :
    Good h0 (pendingBlocks (instanceVisit m current todo st).2)
      (instanceVisit m current todo st).1 := by
  obtain ⟨so, uuid⟩ := current
  cases so with
  | mk n l a u f cs ch =>
    have hg' : Good h0 (cs.map Component.instanceData ++
        (ownedBlocks.blocksList ch ++ pendingBlocks todo)) st := by
      simpa [pendingBlocks, ownedBlocks, List.append_assoc] using hg
    unfold instanceVisit
    apply good_renameChildren
    cases hm : m (childParentUUID ⟨SceneObject.mk n l a u f cs ch, uuid⟩) with
    | none => exact good_drop h0 _ _ st hg'
    | some idMap => exact good_renameComponents h0 idMap cs _ st hg'

theorem good_instanceWalk (h0 : Heap) (m : LinkToInstanceId) (fuel : Nat)
    (todo : List StackEntry) (st : Heap × List RenamedGameObject)
    (hg : Good h0 (pendingBlocks todo) st) :
    RestoresTo h0 (instanceWalk m fuel todo st) := by
  induction fuel generalizing todo st with
  | zero => exact hg.1
  | succ n ih =>
    cases todo with
    | nil => exact hg.1
    | cons current rest =>
      rw [instanceWalk]
      exact ih _ _ (good_instanceVisit h0 m current rest st hg)

theorem restoresTo_renameInstanceIds (h : Heap) (prefab inst : SceneObject)
    (hw : (instanceDataBlocks inst).Nodup) :
    RestoresTo h (renameInstanceIds h prefab inst []) := by
  unfold renameInstanceIds
  apply good_instanceWalk
  have h0 : Good h (instanceDataBlocks inst) (h, []) :=
    ⟨⟨rfl, fun _ _ => rfl⟩, hw, fun a _ => by simp [written]⟩
  have h1 := good_condRename h inst.instanceData (some (h prefab.instanceData)) _ _ h0
  simpa [pendingBlocks, condRename, renameSlot] using h1

end RenameRestore

/-! ## Contract of `create` and of the rename/restore pair -/

section Create

variable {B : Type}

theorem generateDiff_eq_none_iff (env : Env B) (h : Heap) (P I : SceneObject) :
    generateDiff env h P I = none ↔
      P.name = I.name ∧
      (∀ pc ∈ P.components, componentDiffOf env h I.components pc = none) ∧
      (∀ pc ∈ P.components, (matchedComponent I.components pc).isNone = false) ∧
      (∀ ic ∈ I.components, isAddedComponent P.components ic = false) ∧
      (∀ pc ∈ P.children, childDiffOf env h I.children pc = none) ∧
      (∀ pc ∈ P.children, (matchedChild I.children pc).isNone = false) ∧
      (∀ ic ∈ I.children, isAddedChild P.children ic = false) := by
  rw [generateDiff_eq]
  simp only [ite_eq_left_iff, not_and, reduceCtorEq, imp_false, not_not, Classical.not_imp,
    Bool.and_eq_true, List.isEmpty_iff, List.map_eq_nil_iff, List.filter_eq_nil_iff,
    List.filterMap_eq_nil_iff, Bool.not_eq_true]
  tauto

theorem create_fst_eq (env : Env B) (h : Heap) (prefab inst : SceneObject)
    (hu : prefab.mPrefabLinkUUID = inst.mPrefabLinkUUID) :
    (create env h prefab inst).1
      = some ⟨generateDiff env (renameInstanceIds h prefab inst []).1 prefab inst⟩ := by
  simp [create, hu]

/-- C1. `create` returns null exactly when the prefab-link UUIDs of the two roots differ; when
they are equal it returns a `PrefabDiff` whose root is the result of `generateDiff` on the two
roots (computed on the renamed heap), and that root is null exactly when nothing differs: equal
names, nothing removed, nothing added, and no component or child delta. -/
theorem create_contract (env : Env B) (h : Heap) (prefab inst : SceneObject) :
    ((create env h prefab inst).1 = none ↔ prefab.mPrefabLinkUUID ≠ inst.mPrefabLinkUUID) ∧
    (prefab.mPrefabLinkUUID = inst.mPrefabLinkUUID →
      ∃ d : PrefabDiff B, (create env h prefab inst).1 = some d ∧
        d.mRoot = generateDiff env (renameInstanceIds h prefab inst []).1 prefab inst ∧
        (d.mRoot = none ↔
          prefab.name = inst.name ∧
          (∀ pc ∈ prefab.components, componentDiffOf env
            (renameInstanceIds h prefab inst []).1 inst.components pc = none) ∧
          (∀ pc ∈ prefab.components, (matchedComponent inst.components pc).isNone = false) ∧
          (∀ ic ∈ inst.components, isAddedComponent prefab.components ic = false) ∧
          (∀ pc ∈ prefab.children, childDiffOf env
            (renameInstanceIds h prefab inst []).1 inst.children pc = none) ∧
          (∀ pc ∈ prefab.children, (matchedChild inst.children pc).isNone = false) ∧
          (∀ ic ∈ inst.children, isAddedChild prefab.children ic = false))) := by
  constructor
  · by_cases hu : prefab.mPrefabLinkUUID = inst.mPrefabLinkUUID <;> simp [create, hu]
  · intro hu
    exact ⟨⟨generateDiff env (renameInstanceIds h prefab inst []).1 prefab inst⟩,
      create_fst_eq env h prefab inst hu, rfl, generateDiff_eq_none_iff env _ prefab inst⟩

/-- Witness of C1 on the example prefab and instance, whose roots carry the same UUID. -/
theorem create_contract_witness :
    examplePrefab.mPrefabLinkUUID = exampleInstance.mPrefabLinkUUID ∧
    ∃ d : PrefabDiff Blob,
      (create exampleEnv exampleHeap examplePrefab exampleInstance).1 = some d ∧
      d.mRoot = generateDiff exampleEnv
        (renameInstanceIds exampleHeap examplePrefab exampleInstance []).1
        examplePrefab exampleInstance :=
  ⟨rfl, by
    obtain ⟨d, h1, h2, _⟩ :=
      (create_contract exampleEnv exampleHeap examplePrefab exampleInstance).2 rfl
    exact ⟨d, h1, h2⟩⟩

/-- C2. On an instance tree in which every scene object and component occurs once (the
instance-data blocks are pairwise distinct), `renameInstanceIds` followed by
`restoreInstanceIds` on the records it produced gives back the heap from before the rename:
every block, in particular that of every node and component of the instance tree, holds its
original instance ID. -/
theorem rename_restore_identity (h : Heap) (prefab inst : SceneObject)
    (hw : (instanceDataBlocks inst).Nodup) :
    restoreInstanceIds (renameInstanceIds h prefab inst []).2
        (renameInstanceIds h prefab inst []).1 = h ∧
    ∀ a ∈ instanceDataBlocks inst,
      restoreInstanceIds (renameInstanceIds h prefab inst []).2
        (renameInstanceIds h prefab inst []).1 a = h a := by
  have hr := (restoresTo_renameInstanceIds h prefab inst hw).1
  exact ⟨hr, fun a _ => by rw [hr]⟩

/-- Witness of C2 on the example prefab and instance. -/
theorem rename_restore_identity_witness :
    (instanceDataBlocks exampleInstance).Nodup ∧
    restoreInstanceIds (renameInstanceIds exampleHeap examplePrefab exampleInstance []).2
        (renameInstanceIds exampleHeap examplePrefab exampleInstance []).1 = exampleHeap :=
  ⟨by decide, (rename_restore_identity exampleHeap examplePrefab exampleInstance
    (by decide)).1⟩

/-- C3. When the root UUIDs are equal and the instance tree is a tree of game objects each
owning its instance-data block, the heap after `create` is the heap before it, whatever the
produced diff root is: every node and component of the instance tree and of the prefab tree
has the instance ID it had before the call. -/
theorem create_preserves_instance_ids (env : Env B) (h : Heap) (prefab inst : SceneObject)
    (hu : prefab.mPrefabLinkUUID = inst.mPrefabLinkUUID)
    (hw : (instanceDataBlocks inst).Nodup) :
    (create env h prefab inst).2 = h ∧
    (∀ a ∈ instanceDataBlocks inst, (create env h prefab inst).2 a = h a) ∧
    (∀ a ∈ instanceDataBlocks prefab, (create env h prefab inst).2 a = h a) := by
  have hr := (restoresTo_renameInstanceIds h prefab inst hw).1
  have hc : (create env h prefab inst).2 = h := by simp [create, hu, hr]
  exact ⟨hc, fun a _ => by rw [hc], fun a _ => by rw [hc]⟩

/-- Witness of C3: once with a non-null diff root (the example instance) and once with a null
diff root (an unmodified clone of the prefab). -/
theorem create_preserves_instance_ids_witness :
    ((instanceDataBlocks exampleInstance).Nodup ∧
      ((create exampleEnv exampleHeap examplePrefab exampleInstance).1.bind
        PrefabDiff.mRoot).isSome = true ∧
      (create exampleEnv exampleHeap examplePrefab exampleInstance).2 = exampleHeap) ∧
    ((instanceDataBlocks exampleClone).Nodup ∧
      ((create exampleEnv exampleHeap examplePrefab exampleClone).1.bind
        PrefabDiff.mRoot).isSome = false ∧
      (create exampleEnv exampleHeap examplePrefab exampleClone).2 = exampleHeap) :=
  ⟨⟨by decide, rfl,
    (create_preserves_instance_ids exampleEnv exampleHeap examplePrefab exampleInstance rfl
      (by decide)).1⟩,
   ⟨by decide, rfl,
    (create_preserves_instance_ids exampleEnv exampleHeap examplePrefab exampleClone rfl
      (by decide)).1⟩⟩

end Create

/-! ## Characterisation of diff application -/

section ApplyDiff

variable {B : Type}

theorem foldl_setComponents {α : Type} (f : α → List Component → List Component)
    (xs : List α) (o : SceneObject) :
    xs.foldl (fun (o : SceneObject) x => o.setComponents (f x o.components)) o
      = o.setComponents (xs.foldl (fun cs x => f x cs) o.components) := by
  induction xs generalizing o with
  | nil => cases o; rfl
  | cons x rest ih =>
    rw [List.foldl_cons, ih]
    cases o; rfl

theorem foldl_setChildren {α : Type} (f : α → List SceneObject → List SceneObject)
    (xs : List α) (o : SceneObject) :
    xs.foldl (fun (o : SceneObject) x => o.setChildren (f x o.children)) o
      = o.setChildren (xs.foldl (fun ch x => f x ch) o.children) := by
  induction xs generalizing o with
  | nil => cases o; rfl
  | cons x rest ih =>
    rw [List.foldl_cons, ih]
    cases o; rfl

theorem foldl_append_singleton {α β : Type} (g : α → β) (xs : List α) (l : List β) :
    xs.foldl (fun l x => l ++ [g x]) l = l ++ xs.map g := by
  induction xs generalizing l with
  | nil => simp
  | cons x rest ih => simp [ih]

/-- Closed form of `applyDiff`: the name is set; removals act on the original lists, the
decoded additions are appended after the survivors, and only then are the component deltas
and the child diffs applied. -/
theorem applyDiff_eq (env : Env B) (d : PrefabObjectDiff B) (T : SceneObject) :
    applyDiff env d T =
      SceneObject.mk d.name T.linkId T.instanceData T.mPrefabLinkUUID T.dontSave
        (applyComponentDiffs env d.componentDiffs
          (removeComponents d.removedComponents T.components
            ++ d.addedComponents.map env.decodeComponent))
        (applyChildDiffs env d.childDiffs
          (removeChildren d.removedChildren T.children
            ++ d.addedChildren.map env.decodeSceneObject)) := by
  cases d with
  | mk i n cd rc ac chd rch ach =>
    cases T with
    | mk tn tl ta tu tf tcs tch =>
      rw [applyDiff]
      simp only [SceneObject.addComponentInternal, SceneObject.setParent]
      simp only [foldl_setComponents (fun x cs => destroyComponent x cs),
        foldl_setChildren (fun x ch => destroyChild x ch),
        foldl_setComponents (fun x cs => cs ++ [env.decodeComponent x]),
        foldl_setChildren (fun x ch => ch ++ [env.decodeSceneObject x]),
        foldl_setComponents (fun x cs => applyComponentDiff env x cs),
        foldl_append_singleton]
      simp [SceneObject.setName, SceneObject.setComponents, SceneObject.setChildren,
        SceneObject.components, SceneObject.children, SceneObject.linkId,
        SceneObject.instanceData, SceneObject.mPrefabLinkUUID, SceneObject.dontSave,
        PrefabObjectDiff.name, PrefabObjectDiff.componentDiffs,
        PrefabObjectDiff.removedComponents, PrefabObjectDiff.addedComponents,
        PrefabObjectDiff.childDiffs, PrefabObjectDiff.removedChildren,
        PrefabObjectDiff.addedChildren, applyComponentDiffs, removeComponents, removeChildren]

theorem applyDiff_linkId (env : Env B) (d : PrefabObjectDiff B) (T : SceneObject) :
    (applyDiff env d T).linkId = T.linkId := by
  rw [applyDiff_eq]; rfl

theorem applyDiff_instanceData (env : Env B) (d : PrefabObjectDiff B) (T : SceneObject) :
    (applyDiff env d T).instanceData = T.instanceData := by
  rw [applyDiff_eq]; rfl

theorem findChild_eq_none_iff (id : Int) (L : List SceneObject) :
    findChild id L = none ↔ ∀ c ∈ L, c.linkId ≠ id := by
  induction L with
  | nil => simp [findChild]
  | cons c rest ih =>
    rw [findChild]
    by_cases hc : id = c.linkId
    · simp [hc]
    · cases hf : findChild id rest with
      | none =>
        have := ih.mp hf
        simp only [hc, if_false, List.mem_cons, forall_eq_or_imp, true_iff]
        exact ⟨fun h => hc h.symm, this⟩
      | some r =>
        simp only [hc, if_false, reduceCtorEq, List.mem_cons, forall_eq_or_imp, false_iff,
          not_and]
        intro _ hall
        rw [ih.mpr hall] at hf
        cases hf

theorem findChild_some (id : Int) (L pre post : List SceneObject) (c : SceneObject)
    (hf : findChild id L = some (pre, c, post)) :
    L = pre ++ c :: post ∧ c.linkId = id ∧ ∀ x ∈ pre, x.linkId ≠ id := by
  induction L generalizing pre with
  | nil => simp [findChild] at hf
  | cons x rest ih =>
    rw [findChild] at hf
    by_cases hc : id = x.linkId
    · simp only [hc, if_true, Option.some.injEq, Prod.mk.injEq] at hf
      obtain ⟨rfl, rfl, rfl⟩ := hf
      simp [hc]
    · cases hr : findChild id rest with
      | none => simp [hc, hr] at hf
      | some r =>
        obtain ⟨p, c', q⟩ := r
        simp only [hc, if_false, hr, Option.some.injEq, Prod.mk.injEq] at hf
        obtain ⟨rfl, rfl, rfl⟩ := hf
        obtain ⟨h1, h2, h3⟩ := ih p hr
        refine ⟨by rw [h1]; rfl, h2, ?_⟩
        intro y hy
        rcases List.mem_cons.mp hy with rfl | hy
        · exact fun h => hc h.symm
        · exact h3 y hy

theorem findChild_append_of_mem (id : Int) (L1 L2 : List SceneObject)
    (hm : id ∈ L1.map SceneObject.linkId) :
    ∃ pre c post, findChild id L1 = some (pre, c, post) ∧
      findChild id (L1 ++ L2) = some (pre, c, post ++ L2) := by
  induction L1 with
  | nil => simp at hm
  | cons x rest ih =>
    by_cases hc : id = x.linkId
    · exact ⟨[], x, rest, by simp [findChild, hc], by simp [findChild, hc]⟩
    · have hm' : id ∈ rest.map SceneObject.linkId := by
        simp only [List.map_cons, List.mem_cons] at hm
        rcases hm with h | h
        · exact absurd h hc
        · exact h
      obtain ⟨pre, c, post, h1, h2⟩ := ih hm'
      exact ⟨x :: pre, c, post, by simp [findChild, hc, h1], by simp [findChild, hc, h2]⟩

theorem applyChildDiffs_map_linkId (env : Env B) (cds : List (PrefabObjectDiff B))
    (L : List SceneObject) :
    (applyChildDiffs env cds L).map SceneObject.linkId = L.map SceneObject.linkId := by
  induction cds generalizing L with
  | nil => rw [applyChildDiffs]
  | cons cd rest ih =>
    rw [applyChildDiffs]
    cases hf : findChild cd.id L with
    | none => exact ih L
    | some r =>
      obtain ⟨pre, c, post⟩ := r
      obtain ⟨h1, _, _⟩ := findChild_some _ _ _ _ _ hf
      simp only [ih]
      rw [h1]
      simp [applyDiff_linkId]

theorem applyChildDiffs_map_instanceData (env : Env B) (cds : List (PrefabObjectDiff B))
    (L : List SceneObject) :
    (applyChildDiffs env cds L).map SceneObject.instanceData
      = L.map SceneObject.instanceData := by
  induction cds generalizing L with
  | nil => rw [applyChildDiffs]
  | cons cd rest ih =>
    rw [applyChildDiffs]
    cases hf : findChild cd.id L with
    | none => exact ih L
    | some r =>
      obtain ⟨pre, c, post⟩ := r
      obtain ⟨h1, _, _⟩ := findChild_some _ _ _ _ _ hf
      simp only [ih]
      rw [h1]
      simp [applyDiff_instanceData]

theorem applyChildDiffs_append (env : Env B) (cds1 cds2 : List (PrefabObjectDiff B))
    (L : List SceneObject) :
    applyChildDiffs env (cds1 ++ cds2) L
      = applyChildDiffs env cds2 (applyChildDiffs env cds1 L) := by
  induction cds1 generalizing L with
  | nil => rw [List.nil_append, applyChildDiffs]
  | cons cd rest ih =>
    rw [List.cons_append, applyChildDiffs, applyChildDiffs]
    cases hf : findChild cd.id L with
    | none => exact ih L
    | some r => exact ih _

theorem applyChildDiffs_append_right (env : Env B) (cds : List (PrefabObjectDiff B))
    (L1 L2 : List SceneObject)
    (hids : ∀ cd ∈ cds, cd.id ∈ L1.map SceneObject.linkId) :
    applyChildDiffs env cds (L1 ++ L2) = applyChildDiffs env cds L1 ++ L2 := by
  induction cds generalizing L1 with
  | nil => rw [applyChildDiffs, applyChildDiffs]
  | cons cd rest ih =>
    obtain ⟨pre, c, post, h1, h2⟩ :=
      findChild_append_of_mem cd.id L1 L2 (hids cd (List.mem_cons_self _ _))
    rw [applyChildDiffs, applyChildDiffs, h1, h2]
    simp only
    have hL1 := (findChild_some _ _ _ _ _ h1).1
    have hids' : ∀ cd' ∈ rest, cd'.id ∈ (pre ++ applyDiff env cd c :: post).map
        SceneObject.linkId := by
      intro cd' hcd'
      have := hids cd' (List.mem_cons_of_mem _ hcd')
      rw [hL1] at this
      simpa [applyDiff_linkId] using this
    have := ih (pre ++ applyDiff env cd c :: post) hids'
    simpa [List.append_assoc] using this

end ApplyDiff

/-! ## The lists produced by `generateDiff` -/

section GeneratedLists

variable {B : Type}

theorem matchedChild_isNone_iff (ics : List SceneObject) (pc : SceneObject) :
    (matchedChild ics pc).isNone = true ↔ ∀ ic ∈ ics, ic.linkId ≠ pc.linkId := by
  simp only [matchedChild, Option.isNone_iff_eq_none, List.find?_eq_none, beq_iff_eq]
  exact ⟨fun h ic hic e => h ic hic e.symm, fun h ic hic e => h ic hic e.symm⟩

theorem matchedChild_some (ics : List SceneObject) (pc c : SceneObject)
    (hm : matchedChild ics pc = some c) : c ∈ ics ∧ c.linkId = pc.linkId := by
  unfold matchedChild at hm
  have h1 := List.mem_of_find?_eq_some hm
  have h2 := List.find?_some hm
  simp only [beq_iff_eq] at h2
  exact ⟨h1, h2.symm⟩

theorem isAddedChild_iff (pcs : List SceneObject) (ic : SceneObject) :
    isAddedChild pcs ic = true ↔
      ic.dontSave = false ∧ (ic.linkId = -1 ∨ ∀ pc ∈ pcs, pc.linkId ≠ ic.linkId) := by
  simp [isAddedChild]

theorem removedChildrenOf_generateDiff (env : Env B) (h : Heap) (P I : SceneObject) :
    removedChildrenOf (generateDiff env h P I) =
      (P.children.filter (fun pc => (matchedChild I.children pc).isNone)).map
        SceneObject.linkId := by
  rw [generateDiff_eq]
  split
  · rename_i hc
    simp only [Bool.and_eq_true, List.isEmpty_iff] at hc
    rw [hc.2.1.2]; rfl
  · rfl

theorem addedChildrenOf_generateDiff (env : Env B) (h : Heap) (P I : SceneObject) :
    addedChildrenOf (generateDiff env h P I) =
      (I.children.filter (isAddedChild P.children)).map (env.encodeSceneObject h) := by
  rw [generateDiff_eq]
  split
  · rename_i hc
    simp only [Bool.and_eq_true, List.isEmpty_iff] at hc
    rw [hc.2.2]; rfl
  · rfl

theorem childDiffsOfNode_generateDiff (env : Env B) (h : Heap) (P I : SceneObject) :
    childDiffsOfNode (generateDiff env h P I) =
      P.children.filterMap (childDiffOf env h I.children) := by
  rw [generateDiff_eq]
  split
  · rename_i hc
    simp only [Bool.and_eq_true, List.isEmpty_iff] at hc
    rw [hc.2.1.1.2]; rfl
  · rfl

theorem generateDiff_some_stamp (env : Env B) (h : Heap) (P I : SceneObject)
    (d : PrefabObjectDiff B) (hd : generateDiff env h P I = some d) :
    d.id = I.linkId ∧ d.name = I.name := by
  rw [generateDiff_eq] at hd
  split at hd
  · cases hd
  · cases hd; exact ⟨rfl, rfl⟩

theorem childDiffOf_some (env : Env B) (h : Heap) (ics : List SceneObject)
    (pc : SceneObject) (d : PrefabObjectDiff B) (hd : childDiffOf env h ics pc = some d) :
    ∃ ic, matchedChild ics pc = some ic ∧ ic.mPrefabLinkUUID = "" ∧
      generateDiff env h pc ic = some d ∧ d.id = pc.linkId := by
  unfold childDiffOf at hd
  cases hm : matchedChild ics pc with
  | none => simp [hm] at hd
  | some ic =>
    simp only [hm] at hd
    by_cases hu : ic.mPrefabLinkUUID = ""
    · simp only [hu, if_true] at hd
      refine ⟨ic, rfl, hu, hd, ?_⟩
      rw [(generateDiff_some_stamp env h pc ic d hd).1]
      exact (matchedChild_some ics pc ic hm).2
    · simp [hu] at hd

/-- C5. The `removedChildren` list of `generateDiff(P, I)` (empty when the result is null) is
the list of link IDs of the children of `P` for which no child of `I` has the same link ID,
in the order of the children of `P`; on `P = [A(1), B(2)]`, `I = [A(1), C(-1)]` it is `[2]`. -/
theorem generateDiff_removedChildren :
    (∀ (B : Type) (env : Env B) (h : Heap) (P I : SceneObject),
      removedChildrenOf (generateDiff env h P I) =
        (P.children.filter
          (fun pc => decide (∀ ic ∈ I.children, ic.linkId ≠ pc.linkId))).map
            SceneObject.linkId) ∧
    removedChildrenOf
      (generateDiff exampleEnv exampleHeap examplePrefab exampleInstance) = [2] := by
  refine ⟨?_, rfl⟩
  intro B env h P I
  rw [removedChildrenOf_generateDiff]
  congr 1
  apply List.filter_congr
  intro pc _
  rw [Bool.eq_iff_iff, matchedChild_isNone_iff, decide_eq_true_iff]

theorem addedChildrenOf_generateDiff_filter (env : Env B) (h : Heap) (P I : SceneObject) :
    addedChildrenOf (generateDiff env h P I) =
      (I.children.filter (fun c => !c.dontSave &&
        (decide (c.linkId = -1) || decide (∀ pc ∈ P.children, pc.linkId ≠ c.linkId)))).map
          (env.encodeSceneObject h) := by
  have hf : I.children.filter (isAddedChild P.children) =
      I.children.filter (fun c => !c.dontSave &&
          (decide (c.linkId = -1) || decide (∀ pc ∈ P.children, pc.linkId ≠ c.linkId))) := by
    apply List.filter_congr
    intro c _
    rw [Bool.eq_iff_iff, isAddedChild_iff]
    simp
  rw [addedChildrenOf_generateDiff, hf]

/-- C6. The `addedChildren` list of `generateDiff(P, I)` is the list of serializations of
the children of `I`, in their order, that are not flagged do-not-persist and that have link
ID -1 or a link ID carried by no child of `P`; an instance child with link ID -1 that is not
flagged do-not-persist is always among them. -/
theorem generateDiff_addedChildren (env : Env B) (h : Heap) (P I : SceneObject) :
    addedChildrenOf (generateDiff env h P I) =
        (I.children.filter (fun c => !c.dontSave &&
          (decide (c.linkId = -1) || decide (∀ pc ∈ P.children, pc.linkId ≠ c.linkId)))).map
            (env.encodeSceneObject h) ∧
    ∀ c ∈ I.children, c.linkId = -1 → c.dontSave = false →
      env.encodeSceneObject h c ∈ addedChildrenOf (generateDiff env h P I) := by
  refine ⟨addedChildrenOf_generateDiff_filter env h P I, ?_⟩
  intro c hc hl hs
  rw [addedChildrenOf_generateDiff]
  apply List.mem_map_of_mem
  rw [List.mem_filter, isAddedChild_iff]
  exact ⟨hc, hs, Or.inl hl⟩

/-- Witness of C6: the instance child `C` of the example has link ID -1 and is added. -/
theorem generateDiff_addedChildren_witness :
    instanceC ∈ exampleInstance.children ∧ instanceC.linkId = -1 ∧
    instanceC.dontSave = false ∧
    exampleEnv.encodeSceneObject exampleHeap instanceC ∈
      addedChildrenOf (generateDiff exampleEnv exampleHeap examplePrefab exampleInstance) :=
  ⟨List.Mem.tail _ (List.Mem.head _), rfl, rfl,
    (generateDiff_addedChildren exampleEnv exampleHeap examplePrefab exampleInstance).2
      instanceC (List.Mem.tail _ (List.Mem.head _)) rfl rfl⟩

/-- Nested-prefab opacity for link IDs other than -1. If an instance child `c` with a link
ID other than -1 carries a non-empty nested-prefab UUID and is the child of `I` matched by
link ID to a child of `P`, then
`generateDiff(P, I)` has no `childDiffs` entry with the link ID of `c`, the link ID of `c` is
not in `removedChildren`, and no instance child serialized into `addedChildren` has the link
ID of `c`. -/
theorem nested_prefab_opacity (env : Env B) (h : Heap) (P I pc c : SceneObject)
    (hpc : pc ∈ P.children) (hm : matchedChild I.children pc = some c)
    (hu : c.mPrefabLinkUUID ≠ "") (hl : c.linkId ≠ -1) :
    (∀ d ∈ childDiffsOfNode (generateDiff env h P I), d.id ≠ c.linkId) ∧
    c.linkId ∉ removedChildrenOf (generateDiff env h P I) ∧
    addedChildrenOf (generateDiff env h P I) =
      (I.children.filter (fun x => !x.dontSave &&
          (decide (x.linkId = -1) || decide (∀ p ∈ P.children, p.linkId ≠ x.linkId)))).map
            (env.encodeSceneObject h) ∧
    ∀ x ∈ I.children.filter (fun x => !x.dontSave &&
          (decide (x.linkId = -1) || decide (∀ p ∈ P.children, p.linkId ≠ x.linkId))),
      x.linkId ≠ c.linkId := by
  obtain ⟨hcI, hcl⟩ := matchedChild_some _ _ _ hm
  refine ⟨?_, ?_, addedChildrenOf_generateDiff_filter env h P I, ?_⟩
  · intro d hd hid
    rw [childDiffsOfNode_generateDiff, List.mem_filterMap] at hd
    obtain ⟨pc', _, hpc'⟩ := hd
    obtain ⟨ic, hm', hu', _, hid'⟩ := childDiffOf_some env h _ _ _ hpc'
    have hsame : matchedChild I.children pc' = matchedChild I.children pc := by
      unfold matchedChild
      rw [show pc'.linkId = pc.linkId by rw [← hid', hid, hcl]]
    rw [hsame, hm] at hm'
    cases hm'
    exact hu hu'
  · rw [removedChildrenOf_generateDiff, List.mem_map]
    rintro ⟨pc', hpc', hid⟩
    rw [List.mem_filter, matchedChild_isNone_iff] at hpc'
    exact hpc'.2 c hcI hid.symm
  · intro x hx hxl
    simp only [List.mem_filter, Bool.and_eq_true, Bool.not_eq_true', Bool.or_eq_true,
      decide_eq_true_eq] at hx
    rcases hx.2.2 with h1 | h2
    · exact hl (hxl ▸ h1)
    · exact h2 pc hpc (by rw [hxl, hcl])

/-- Example of nested-prefab opacity: a nested prefab instance with link ID 1 matched to the
prefab child `A`. -/
theorem nested_prefab_opacity_witness :
    prefabA ∈ examplePrefab.children ∧
    matchedChild [SceneObject.mk "A2" 1 12 "nested-prefab" false [] []] prefabA
      = some (SceneObject.mk "A2" 1 12 "nested-prefab" false [] []) ∧
    (∀ d ∈ childDiffsOfNode (generateDiff exampleEnv exampleHeap examplePrefab
        (SceneObject.mk "Root" 0 11 "" false []
          [SceneObject.mk "A2" 1 12 "nested-prefab" false [] []])),
      d.id ≠ 1) :=
  ⟨List.Mem.head _, rfl,
    (nested_prefab_opacity exampleEnv exampleHeap examplePrefab
      (SceneObject.mk "Root" 0 11 "" false []
        [SceneObject.mk "A2" 1 12 "nested-prefab" false [] []])
      prefabA (SceneObject.mk "A2" 1 12 "nested-prefab" false [] [])
      (List.Mem.head _) rfl (by decide) (by decide)).1⟩

end GeneratedLists

/-! ## Properties of diff application -/

section ApplyProperties

variable {B : Type}

theorem applyComponentDiff_of_no_match (env : Env B) (e : PrefabComponentDiff B)
    (cs : List Component) (hn : ∀ c ∈ cs, c.linkId ≠ e.id) :
    applyComponentDiff env e cs = cs := by
  induction cs with
  | nil => rfl
  | cons c rest ih =>
    have hc : ¬ e.id = c.linkId := fun h => hn c (List.mem_cons_self _ _) h.symm
    rw [applyComponentDiff, if_neg hc, ih (fun x hx => hn x (List.mem_cons_of_mem _ hx))]

theorem applyComponentDiffs_append (env : Env B) (l1 l2 : List (PrefabComponentDiff B))
    (cs : List Component) :
    applyComponentDiffs env (l1 ++ l2) cs
      = applyComponentDiffs env l2 (applyComponentDiffs env l1 cs) := by
  simp [applyComponentDiffs, List.foldl_append]

theorem applyComponentDiffs_skip (env : Env B) (e : PrefabComponentDiff B)
    (post : List (PrefabComponentDiff B)) (cs : List Component)
    (hn : ∀ c ∈ cs, c.linkId ≠ e.id) :
    applyComponentDiffs env (e :: post) cs = applyComponentDiffs env post cs := by
  show applyComponentDiffs env post (applyComponentDiff env e cs) = _
  rw [applyComponentDiff_of_no_match env e cs hn]

theorem applyChildDiffs_skip (env : Env B) (e : PrefabObjectDiff B)
    (post : List (PrefabObjectDiff B)) (L : List SceneObject)
    (hn : ∀ c ∈ L, c.linkId ≠ e.id) :
    applyChildDiffs env (e :: post) L = applyChildDiffs env post L := by
  rw [applyChildDiffs, (findChild_eq_none_iff e.id L).mpr hn]

/-- C9 as stated fails: the target has no component with link ID 5, yet the component-diff
entry with id 5 is not skipped, because the component decoded from `addedComponents` carries
link ID 5 when the entry is processed; deleting the entry changes the result. -/
theorem applyDiff_forgiving_counterexample :
    (∀ c ∈ bareTarget.components, c.linkId ≠ 5) ∧
    (applyDiff exampleEnv addThenPatch bareTarget).components = [⟨5, 0, 0, 9⟩] ∧
    (applyDiff exampleEnv addOnly bareTarget).components = [⟨5, 0, 0, 1⟩] ∧
    applyDiff exampleEnv addThenPatch bareTarget ≠ applyDiff exampleEnv addOnly bareTarget := by
  refine ⟨by decide, rfl, rfl, ?_⟩
  intro he
  have hc := congrArg SceneObject.components he
  exact absurd hc (by decide)

/-- C9, amended. `applyDiff` is total, and an entry of `componentDiffs` (of `childDiffs`) whose
id is the link ID of no component (child) live on the target when the entry is processed is
skipped: the result is that of the diff with the entry deleted. For a component entry the
live components are those left by the removals, followed by the decoded added components, as
modified by the entries before it; for a child entry the live children are those left by the
removals followed by the decoded added children. -/
theorem applyDiff_forgiving (env : Env B) (i : Int) (n : String)
    (cd : List (PrefabComponentDiff B)) (rc : List Int) (ac : List B)
    (chd : List (PrefabObjectDiff B)) (rch : List Int) (ach : List B) (T : SceneObject) :
    (∀ (pre post : List (PrefabComponentDiff B)) (e : PrefabComponentDiff B),
      cd = pre ++ e :: post →
      (∀ c ∈ applyComponentDiffs env pre
          (removeComponents rc T.components ++ ac.map env.decodeComponent),
        c.linkId ≠ e.id) →
      applyDiff env (PrefabObjectDiff.mk i n cd rc ac chd rch ach) T
        = applyDiff env (PrefabObjectDiff.mk i n (pre ++ post) rc ac chd rch ach) T) ∧
    (∀ (pre post : List (PrefabObjectDiff B)) (e : PrefabObjectDiff B),
      chd = pre ++ e :: post →
      (∀ c ∈ removeChildren rch T.children ++ ach.map env.decodeSceneObject,
        c.linkId ≠ e.id) →
      applyDiff env (PrefabObjectDiff.mk i n cd rc ac chd rch ach) T
        = applyDiff env (PrefabObjectDiff.mk i n cd rc ac (pre ++ post) rch ach) T) := by
  constructor
  · intro pre post e hcd hn
    subst hcd
    rw [applyDiff_eq, applyDiff_eq]
    simp only [PrefabObjectDiff.componentDiffs, PrefabObjectDiff.removedComponents,
      PrefabObjectDiff.addedComponents, PrefabObjectDiff.name, PrefabObjectDiff.childDiffs,
      PrefabObjectDiff.removedChildren, PrefabObjectDiff.addedChildren]
    rw [applyComponentDiffs_append, applyComponentDiffs_append,
      applyComponentDiffs_skip env e post _ hn]
  · intro pre post e hchd hn
    subst hchd
    rw [applyDiff_eq, applyDiff_eq]
    simp only [PrefabObjectDiff.componentDiffs, PrefabObjectDiff.removedComponents,
      PrefabObjectDiff.addedComponents, PrefabObjectDiff.name, PrefabObjectDiff.childDiffs,
      PrefabObjectDiff.removedChildren, PrefabObjectDiff.addedChildren]
    rw [applyChildDiffs_append, applyChildDiffs_append]
    congr 1
    apply applyChildDiffs_skip
    intro c hc
    have hmem : c.linkId ∈ (applyChildDiffs env pre
        (removeChildren rch T.children ++ ach.map env.decodeSceneObject)).map
          SceneObject.linkId := List.mem_map_of_mem _ hc
    rw [applyChildDiffs_map_linkId, List.mem_map] at hmem
    obtain ⟨c', hc', he⟩ := hmem
    rw [← he]
    exact hn c' hc'

/-- Witness of C9, amended: on a target without components, a component entry with id 5 is
skipped when nothing with link ID 5 is added. -/
theorem applyDiff_forgiving_witness :
    (∀ c ∈ applyComponentDiffs exampleEnv []
        (removeComponents [] bareTarget.components
          ++ ([] : List Blob).map exampleEnv.decodeComponent), c.linkId ≠ 5) ∧
    applyDiff exampleEnv
        (PrefabObjectDiff.mk 0 "Renamed" [⟨5, Blob.delta 9⟩] [] [] [] [] []) bareTarget
      = applyDiff exampleEnv (PrefabObjectDiff.mk 0 "Renamed" [] [] [] [] [] []) bareTarget :=
  ⟨by decide,
    (applyDiff_forgiving exampleEnv 0 "Renamed" [⟨5, Blob.delta 9⟩] [] [] [] [] []
      bareTarget).1 [] [] ⟨5, Blob.delta 9⟩ rfl (by decide)⟩

theorem destroyChild_cons (k : Int) (c : SceneObject) (rest : List SceneObject) :
    destroyChild k (c :: rest) = if k = c.linkId then rest else c :: destroyChild k rest := by
  unfold destroyChild
  rw [List.eraseP_cons]
  by_cases hk : k = c.linkId
  · simp [hk]
  · have hb : (k == c.linkId) = false := by rw [beq_eq_false_iff_ne]; exact hk
    simp [hk, hb]

theorem filter_destroyChild_of_unique (k : Int) (L : List SceneObject)
    (h1 : (L.filter (fun c => c.linkId == k)).length = 1) :
    (destroyChild k L).filter (fun c => c.linkId == k) = [] := by
  induction L with
  | nil => simp at h1
  | cons c rest ih =>
    rw [destroyChild_cons]
    by_cases hk : k = c.linkId
    · rw [if_pos hk]
      rw [List.filter_cons] at h1
      simp only [hk, beq_self_eq_true, if_true, List.length_cons, add_left_eq_self,
        List.length_eq_zero] at h1
      rw [hk]; exact h1
    · rw [if_neg hk]
      have hk' : (c.linkId == k) = false := by
        rw [beq_eq_false_iff_ne]; exact fun h => hk h.symm
      rw [List.filter_cons, hk'] at h1
      rw [List.filter_cons, hk']
      exact ih h1

theorem applyChildDiffs_filter_ne (env : Env B) (k : Int) (cds : List (PrefabObjectDiff B))
    (L : List SceneObject) (hk : ∀ cd ∈ cds, cd.id ≠ k) :
    (applyChildDiffs env cds L).filter (fun c => c.linkId == k)
      = L.filter (fun c => c.linkId == k) := by
  induction cds generalizing L with
  | nil => rw [applyChildDiffs]
  | cons cd rest ih =>
    rw [applyChildDiffs]
    have hrest : ∀ cd' ∈ rest, cd'.id ≠ k := fun cd' h => hk cd' (List.mem_cons_of_mem _ h)
    cases hf : findChild cd.id L with
    | none => exact ih L hrest
    | some r =>
      obtain ⟨pre, c, post⟩ := r
      obtain ⟨h1, h2, _⟩ := findChild_some _ _ _ _ _ hf
      simp only
      rw [ih _ hrest, h1]
      have hne : cd.id ≠ k := hk cd (List.mem_cons_self _ _)
      have e1 : ((applyDiff env cd c).linkId == k) = false := by
        rw [beq_eq_false_iff_ne, applyDiff_linkId, h2]; exact hne
      have e2 : (c.linkId == k) = false := by
        rw [beq_eq_false_iff_ne, h2]; exact hne
      simp [List.filter_append, List.filter_cons, e1, e2]

theorem applyChildDiffs_map_identity (env : Env B) (cds : List (PrefabObjectDiff B))
    (L : List SceneObject) :
    (applyChildDiffs env cds L).map (fun c => (c.linkId, c.instanceData))
      = L.map (fun c => (c.linkId, c.instanceData)) := by
  induction cds generalizing L with
  | nil => rw [applyChildDiffs]
  | cons cd rest ih =>
    rw [applyChildDiffs]
    cases hf : findChild cd.id L with
    | none => exact ih L
    | some r =>
      obtain ⟨pre, c, post⟩ := r
      obtain ⟨h1, _, _⟩ := findChild_some _ _ _ _ _ hf
      simp only [ih]
      rw [h1]
      simp [applyDiff_linkId, applyDiff_instanceData]

theorem filter_linkId_map_instanceData (k : Int) (L : List SceneObject) :
    (L.filter (fun c => c.linkId == k)).map SceneObject.instanceData
      = (L.map (fun c => (c.linkId, c.instanceData))).filterMap
          (fun p => if p.1 = k then some p.2 else none) := by
  induction L with
  | nil => rfl
  | cons c rest ih =>
    by_cases hk : c.linkId = k
    · simp [List.filter_cons, hk, ih]
    · have hb : (c.linkId == k) = false := by rw [beq_eq_false_iff_ne]; exact hk
      simp [List.filter_cons, hk, hb, ih]

end ApplyProperties

/-! ## Round trip of `create` and `apply` at one level -/

section RoundTrip

variable {B : Type}

theorem destroyChild_eq_filter (k : Int) (L : List SceneObject)
    (hnd : (L.map SceneObject.linkId).Nodup) :
    destroyChild k L = L.filter (fun c => c.linkId != k) := by
  induction L with
  | nil => rfl
  | cons c rest ih =>
    rw [List.map_cons, List.nodup_cons] at hnd
    rw [destroyChild_cons]
    by_cases hk : k = c.linkId
    · have hc : (c.linkId != k) = false := by simp [hk]
      rw [if_pos hk, List.filter_cons, hc]
      symm
      simp only [Bool.false_eq_true, if_false]
      rw [List.filter_eq_self]
      intro x hx
      simp only [bne_iff_ne, ne_eq]
      intro hxk
      exact hnd.1 (by rw [← hk, ← hxk]; exact List.mem_map_of_mem _ hx)
    · have hc : (c.linkId != k) = true := by
        simp only [bne_iff_ne, ne_eq]; exact fun h => hk h.symm
      rw [if_neg hk, List.filter_cons, hc, ih hnd.2]
      rfl

theorem nodup_map_filter (p : SceneObject → Bool) (L : List SceneObject)
    (hnd : (L.map SceneObject.linkId).Nodup) :
    ((L.filter p).map SceneObject.linkId).Nodup :=
  hnd.sublist ((List.filter_sublist L).map _)

theorem removeChildren_eq_filter (ids : List Int) (L : List SceneObject)
    (hnd : (L.map SceneObject.linkId).Nodup) :
    removeChildren ids L = L.filter (fun c => decide (c.linkId ∉ ids)) := by
  induction ids generalizing L with
  | nil => simp [removeChildren]
  | cons k rest ih =>
    have hstep : removeChildren (k :: rest) L = removeChildren rest (destroyChild k L) := rfl
    rw [hstep, destroyChild_eq_filter k L hnd, ih _ (nodup_map_filter _ L hnd),
      List.filter_filter]
    apply List.filter_congr
    intro c _
    simp only [List.mem_cons, not_or, bne_iff_ne, ne_eq, Bool.decide_and, Bool.and_comm,
      Bool.decide_eq_true, decide_not]
    rfl

theorem removeChildren_generated (P I : SceneObject)
    (hnd : (P.children.map SceneObject.linkId).Nodup) :
    removeChildren
        ((P.children.filter (fun pc => (matchedChild I.children pc).isNone)).map
          SceneObject.linkId) P.children
      = P.children.filter (fun pc => decide (∃ ic ∈ I.children, ic.linkId = pc.linkId)) := by
  rw [removeChildren_eq_filter _ _ hnd]
  apply List.filter_congr
  intro c _
  rw [Bool.eq_iff_iff, decide_eq_true_iff, decide_eq_true_iff, List.mem_map]
  constructor
  · intro hno
    by_contra hex
    apply hno
    refine ⟨c, ?_, rfl⟩
    rw [List.mem_filter, matchedChild_isNone_iff]
    refine ⟨by assumption, ?_⟩
    intro ic hic he
    exact hex ⟨ic, hic, he⟩
  · rintro ⟨ic, hic, he⟩ ⟨c', hc', he'⟩
    rw [List.mem_filter, matchedChild_isNone_iff] at hc'
    exact hc'.2 ic hic (by rw [he, he'])

/-- C7. Round trip at one level. When the roots carry the same UUID, the children of the
prefab have pairwise distinct link IDs and decoding inverts encoding, `create(P, I)` is
non-null and applying it to a copy of `P` yields a node with the name of `I` whose child
list is: the children of `P` that have a child of `I` with the same link ID, in the order of
`P` (same objects, same link IDs; their content is subject to the recursive child diffs),
followed by the decoded copies of the children of `I` recorded as added, in the order of
`I`. -/
theorem create_apply_round_trip (env : Env B) (h : Heap) (P I : SceneObject)
    (hu : P.mPrefabLinkUUID = I.mPrefabLinkUUID)
    (hP : (P.children.map SceneObject.linkId).Nodup)
    (hdec : ∀ (h' : Heap) (c : SceneObject),
      env.decodeSceneObject (env.encodeSceneObject h' c) = c) :
    ∃ d : PrefabDiff B, (create env h P I).1 = some d ∧
      (d.apply env P []).1.name = I.name ∧
      ∃ kept : List SceneObject,
        (d.apply env P []).1.children =
          kept ++ I.children.filter (fun c => !c.dontSave &&
            (decide (c.linkId = -1) || decide (∀ pc ∈ P.children, pc.linkId ≠ c.linkId))) ∧
        kept.map SceneObject.linkId =
          (P.children.filter
            (fun pc => decide (∃ ic ∈ I.children, ic.linkId = pc.linkId))).map
              SceneObject.linkId ∧
        kept.map SceneObject.instanceData =
          (P.children.filter
            (fun pc => decide (∃ ic ∈ I.children, ic.linkId = pc.linkId))).map
              SceneObject.instanceData := by
  obtain ⟨d, hd, hroot⟩ : ∃ d : PrefabDiff B, (create env h P I).1 = some d ∧
      d.mRoot = generateDiff env (renameInstanceIds h P I []).1 P I :=
    ⟨_, create_fst_eq env h P I hu, rfl⟩
  refine ⟨d, hd, ?_⟩
  generalize (renameInstanceIds h P I []).1 = h1 at hroot
  have hadded := addedChildrenOf_generateDiff_filter env h1 P I
  have hremoved := removedChildrenOf_generateDiff env h1 P I
  have hchd := childDiffsOfNode_generateDiff env h1 P I
  have hkept := removeChildren_generated P I hP
  cases hg : generateDiff env h1 P I with
  | none =>
    have hnone := (generateDiff_eq_none_iff env h1 P I).mp hg
    rw [hg] at hadded hremoved
    have hr : d.mRoot = none := by rw [hroot, hg]
    have hap : (d.apply env P []).1 = P := by simp [PrefabDiff.apply, hr]
    rw [hap]
    refine ⟨hnone.1, P.children, ?_, ?_, ?_⟩
    · have : I.children.filter (fun c => !c.dontSave &&
          (decide (c.linkId = -1) || decide (∀ pc ∈ P.children, pc.linkId ≠ c.linkId)))
          = [] := by
        have := hadded.symm
        simpa [addedChildrenOf] using this
      rw [this, List.append_nil]
    · rw [← hkept, ← hremoved]; rfl
    · rw [← hkept, ← hremoved]; rfl
  | some g =>
    have hst := generateDiff_some_stamp env h1 P I g hg
    rw [hg] at hadded hremoved hchd
    have hr : d.mRoot = some g := by rw [hroot, hg]
    have hap : (d.apply env P []).1 = applyDiff env g P := by simp [PrefabDiff.apply, hr]
    rw [hap, applyDiff_eq]
    refine ⟨hst.2, ?_⟩
    simp only [SceneObject.children_mk]
    have ha : g.addedChildren.map env.decodeSceneObject =
        I.children.filter (fun c => !c.dontSave &&
          (decide (c.linkId = -1) || decide (∀ pc ∈ P.children, pc.linkId ≠ c.linkId))) := by
      have : g.addedChildren = _ := hadded
      rw [this, List.map_map]
      conv_rhs => rw [← List.map_id (List.filter _ _)]
      apply List.map_congr_left
      intro c _
      exact hdec h1 c
    have hrm : removeChildren g.removedChildren P.children =
        P.children.filter (fun pc => decide (∃ ic ∈ I.children, ic.linkId = pc.linkId)) := by
      have : g.removedChildren = _ := hremoved
      rw [this, hkept]
    have hids : ∀ cd ∈ g.childDiffs, cd.id ∈ (P.children.filter
        (fun pc => decide (∃ ic ∈ I.children, ic.linkId = pc.linkId))).map
          SceneObject.linkId := by
      intro cd hcd
      have hc : g.childDiffs = _ := hchd
      rw [hc, List.mem_filterMap] at hcd
      obtain ⟨pc, hpc, hcdpc⟩ := hcd
      obtain ⟨ic, hm, _, _, hid⟩ := childDiffOf_some env h1 _ _ _ hcdpc
      obtain ⟨hic, hl⟩ := matchedChild_some _ _ _ hm
      rw [hid]
      apply List.mem_map_of_mem
      rw [List.mem_filter, decide_eq_true_iff]
      exact ⟨hpc, ic, hic, hl⟩
    rw [ha, hrm, applyChildDiffs_append_right env _ _ _ hids]
    exact ⟨_, rfl, applyChildDiffs_map_linkId env _ _,
      applyChildDiffs_map_instanceData env _ _⟩

/-- Witness of C7: for `P = [A(1), B(2)]` and `I = [A(1), C(-1)]` the result has the children
`[A, C]`, with `B` removed. -/
theorem create_apply_round_trip_witness :
    examplePrefab.mPrefabLinkUUID = exampleInstance.mPrefabLinkUUID ∧
    (examplePrefab.children.map SceneObject.linkId).Nodup ∧
    (∀ (h' : Heap) (c : SceneObject),
      exampleEnv.decodeSceneObject (exampleEnv.encodeSceneObject h' c) = c) ∧
    (∃ d : PrefabDiff Blob,
      (create exampleEnv exampleHeap examplePrefab exampleInstance).1 = some d ∧
      (d.apply exampleEnv examplePrefab []).1.name = exampleInstance.name) ∧
    (create exampleEnv exampleHeap examplePrefab exampleInstance).1.map
        (fun d => (d.apply exampleEnv examplePrefab []).1.children)
      = some [prefabA, instanceC] :=
  ⟨rfl, by decide, fun _ _ => rfl, by
    obtain ⟨d, h1, h2, _⟩ :=
      create_apply_round_trip exampleEnv exampleHeap examplePrefab exampleInstance rfl
        (by decide) (fun _ _ => rfl)
    exact ⟨d, h1, h2⟩, rfl⟩

end RoundTrip

/-! ## No-diff stability -/

section NoDiff

variable {B : Type}

theorem nodeCount_lt_of_mem (T c : SceneObject) (hc : c ∈ T.children) :
    nodeCount c < nodeCount T := by
  cases T with
  | mk n l a u f cs ch =>
    rw [SceneObject.children_mk] at hc
    rw [nodeCount]
    have : ∀ (L : List SceneObject), c ∈ L → nodeCount c ≤ nodeCount.nodeCountList L := by
      intro L hL
      induction L with
      | nil => cases hL
      | cons x rest ih =>
        rw [nodeCount.nodeCountList]
        rcases List.mem_cons.mp hL with rfl | h
        · omega
        · have := ih h; omega
    have := this ch hc
    omega

end NoDiff

/-! ## The walks of `renameInstanceIds` run to completion -/

section Fuel

theorem nodeCount_pos (so : SceneObject) : 0 < nodeCount so := by
  cases so; rw [nodeCount]; omega

theorem stackCount_push (key : String) (ch : List SceneObject) (todo : List StackEntry) :
    stackCount ((ch.map (fun c => (⟨c, key⟩ : StackEntry))).reverse ++ todo)
      = nodeCount.nodeCountList ch + stackCount todo := by
  induction ch generalizing todo with
  | nil => simp [nodeCount.nodeCountList]
  | cons c rest ih =>
    have := ih ((⟨c, key⟩ : StackEntry) :: todo)
    simp only [List.map_cons, List.reverse_cons, List.append_assoc, List.singleton_append]
    rw [this, stackCount, nodeCount.nodeCountList]
    dsimp only
    omega

theorem foldl_renameChild_snd (iterFind : Option IdMap) (key : String)
    (ch : List SceneObject) (st : Heap × List RenamedGameObject) (todo : List StackEntry) :
    (ch.foldl (renameChild iterFind key) (st, todo)).2
      = (ch.map (fun c => (⟨c, key⟩ : StackEntry))).reverse ++ todo := by
  induction ch generalizing st todo with
  | nil => rfl
  | cons c rest ih =>
    rw [List.foldl_cons, renameChild_fst, ih]
    simp

theorem foldl_push_snd (g : IdMap → SceneObject → IdMap) (key : String)
    (ch : List SceneObject) (idMap : IdMap) (todo : List StackEntry) :
    (ch.foldl (fun (st : IdMap × List StackEntry) child =>
        (g st.1 child, (⟨child, key⟩ : StackEntry) :: st.2)) (idMap, todo)).2
      = (ch.map (fun c => (⟨c, key⟩ : StackEntry))).reverse ++ todo := by
  induction ch generalizing idMap todo with
  | nil => rfl
  | cons c rest ih =>
    rw [List.foldl_cons, ih]
    simp

theorem instanceVisit_snd (m : LinkToInstanceId) (current : StackEntry)
    (todo : List StackEntry) (st : Heap × List RenamedGameObject) :
    (instanceVisit m current todo st).2
      = (current.so.children.map
          (fun c => (⟨c, childParentUUID current⟩ : StackEntry))).reverse ++ todo := by
  unfold instanceVisit
  exact foldl_renameChild_snd _ _ _ _ _

theorem prefabVisit_snd (h : Heap) (current : StackEntry) (todo : List StackEntry)
    (m : LinkToInstanceId) :
    (prefabVisit h current todo m).2
      = (current.so.children.map
          (fun c => (⟨c, childParentUUID current⟩ : StackEntry))).reverse ++ todo := by
  unfold prefabVisit
  exact foldl_push_snd (fun (im : IdMap) child => im.assign child.linkId (h child.instanceData))
    (childParentUUID current) current.so.children _ todo

theorem stackCount_after_visit (current : StackEntry) (todo : List StackEntry) :
    stackCount ((current.so.children.map
        (fun c => (⟨c, childParentUUID current⟩ : StackEntry))).reverse ++ todo) + 1
      = stackCount (current :: todo) := by
  rw [stackCount_push, stackCount]
  obtain ⟨so, uuid⟩ := current
  cases so
  simp only [SceneObject.children_mk]
  rw [nodeCount]
  omega

/-- The instance walk has popped every scene object once its bound reaches the number of
scene objects on the stack: more iterations change nothing. -/
theorem instanceWalk_fuel (m : LinkToInstanceId) (fuel extra : Nat)
    (todo : List StackEntry) (st : Heap × List RenamedGameObject)
    (hf : stackCount todo ≤ fuel) :
    instanceWalk m (fuel + extra) todo st = instanceWalk m fuel todo st := by
  induction fuel generalizing todo st with
  | zero =>
    cases todo with
    | nil => cases extra <;> rfl
    | cons e rest =>
      have := nodeCount_pos e.so
      rw [stackCount] at hf
      omega
  | succ n ih =>
    cases todo with
    | nil => rw [show n + 1 + extra = (n + extra) + 1 by omega]; rfl
    | cons e rest =>
      rw [show n + 1 + extra = (n + extra) + 1 by omega, instanceWalk, instanceWalk]
      apply ih
      have := stackCount_after_visit e rest
      rw [instanceVisit_snd]
      omega

/-- The prefab walk has popped every scene object once its bound reaches the number of scene
objects on the stack: more iterations change nothing. -/
theorem prefabWalk_fuel (h : Heap) (fuel extra : Nat) (todo : List StackEntry)
    (m : LinkToInstanceId) (hf : stackCount todo ≤ fuel) :
    prefabWalk h (fuel + extra) todo m = prefabWalk h fuel todo m := by
  induction fuel generalizing todo m with
  | zero =>
    cases todo with
    | nil => cases extra <;> rfl
    | cons e rest =>
      have := nodeCount_pos e.so
      rw [stackCount] at hf
      omega
  | succ n ih =>
    cases todo with
    | nil => rw [show n + 1 + extra = (n + extra) + 1 by omega]; rfl
    | cons e rest =>
      rw [show n + 1 + extra = (n + extra) + 1 by omega, prefabWalk, prefabWalk]
      apply ih
      have := stackCount_after_visit e rest
      rw [prefabVisit_snd]
      omega

/-- The bounds used by `renameInstanceIds` are enough for both walks: with any larger bounds
the result is the same. -/
theorem renameInstanceIds_fuel (h : Heap) (prefab inst : SceneObject)
    (output : List RenamedGameObject) (extra1 extra2 : Nat) :
    instanceWalk
        (prefabWalk h (nodeCount prefab + extra1) [⟨prefab, "root"⟩] (fun _ => none))
        (nodeCount inst + extra2) [⟨inst, "root"⟩]
        (Function.update h inst.instanceData (h prefab.instanceData),
          output ++ [⟨inst.instanceData, h inst.instanceData⟩])
      = renameInstanceIds h prefab inst output := by
  rw [prefabWalk_fuel h _ _ _ _ (by simp [stackCount]),
    instanceWalk_fuel _ _ _ _ _ (by simp [stackCount])]
  rfl

end Fuel

/-! ## Stamp, component diffs and lazy allocation -/

section StampAndLaziness

variable {B : Type}

theorem componentDiffsOfNode_generateDiff (env : Env B) (h : Heap) (P I : SceneObject) :
    componentDiffsOfNode (generateDiff env h P I) =
      P.components.filterMap (componentDiffOf env h I.components) := by
  rw [generateDiff_eq]
  split
  · rename_i hc
    simp only [Bool.and_eq_true, List.isEmpty_iff] at hc
    rw [hc.2.1.1.1.1.1]; rfl
  · rfl

theorem findChild_of_matchedChild (ics : List SceneObject) (pc ic : SceneObject)
    (hm : matchedChild ics pc = some ic) :
    ∃ pre post, findChild pc.linkId ics = some (pre, ic, post) := by
  induction ics with
  | nil => simp [matchedChild] at hm
  | cons x rest ih =>
    unfold matchedChild at hm
    rw [List.find?_cons] at hm
    by_cases hx : pc.linkId = x.linkId
    · have hb : (pc.linkId == x.linkId) = true := by rw [beq_iff_eq]; exact hx
      rw [hb] at hm
      have hxi : x = ic := Option.some.inj hm
      subst hxi
      exact ⟨[], rest, by rw [findChild, if_pos hx]⟩
    · have hb : (pc.linkId == x.linkId) = false := by rw [beq_eq_false_iff_ne]; exact hx
      rw [hb] at hm
      obtain ⟨pre, post, hf⟩ := ih hm
      exact ⟨x :: pre, post, by rw [findChild, if_neg hx, hf]⟩

theorem listAgainst_iff (pcs : List SceneObject) (chd : List (PrefabObjectDiff B)) :
    NonEmptyAgainst.listAgainst pcs chd ↔
      ∀ cd ∈ chd, ∃ pc ∈ pcs, pc.linkId = cd.id ∧ NonEmptyAgainst pc cd := by
  induction chd with
  | nil => simp [NonEmptyAgainst.listAgainst]
  | cons cd rest ih => simp [NonEmptyAgainst.listAgainst, ih]

theorem nonEmptyAgainst_generateDiff (env : Env B) (h : Heap) :
    ∀ (n : Nat) (P I : SceneObject) (d : PrefabObjectDiff B), nodeCount P ≤ n →
      generateDiff env h P I = some d → NonEmptyAgainst P d := by
  intro n
  induction n with
  | zero =>
    intro P I d hn
    have := nodeCount_pos P
    omega
  | succ n ih =>
    intro P I d hn hd
    rw [generateDiff_eq] at hd
    split at hd
    · cases hd
    · rename_i hc
      cases hd
      rw [NonEmptyAgainst, listAgainst_iff]
      constructor
      · by_contra hall
        simp only [not_or, not_not] at hall
        apply hc
        obtain ⟨h1, h2, h3, h4, h5, h6, h7⟩ := hall
        exact ⟨h1.symm, by simp [h2, h3, h4, h5, h6, h7]⟩
      · intro cd hcd
        rw [List.mem_filterMap] at hcd
        obtain ⟨pc, hpc, hcdpc⟩ := hcd
        obtain ⟨ic, _, _, hg, hid⟩ := childDiffOf_some env h _ _ _ hcdpc
        refine ⟨pc, hpc, hid.symm, ih pc ic cd ?_ hg⟩
        have := nodeCount_lt_of_mem P pc hpc
        omega

/-- C14. `apply` on a diff whose root is null is a no-op: the target (name, children,
components) is returned as it was, no notification is added to those of the deserialization
session, and no operation at all is performed. -/
theorem apply_null_root (env : Env B) (object : SceneObject) (log : List SessionEvent)
    (trace : List ApplyEvent) :
    (PrefabDiff.apply env ⟨none⟩ object log).1 = object ∧
    (PrefabDiff.apply env ⟨none⟩ object log).2 = log ∧
    (PrefabDiff.apply env ⟨none⟩ object []).2 = [] ∧
    PrefabDiff.applyTraced env ⟨none⟩ object trace = (object, trace) ∧
    (PrefabDiff.applyTraced env ⟨none⟩ object []).2 = [] :=
  ⟨rfl, rfl, rfl, rfl, rfl⟩

/-- C17. The `componentDiffs` list of `generateDiff(P, I)` (empty when the result is null)
has, in the order of the components of `P`, one entry for each component of `P` whose first
link-ID-equal component of `I` exists and for which the diff handler of the prefab component's
type returns a delta on the two serialized forms: the entry carries the component's link ID
and that delta. Nothing is recorded when the handler returns null or no component matches. -/
theorem generateDiff_componentDiffs (env : Env B) (h : Heap) (P I : SceneObject) :
    componentDiffsOfNode (generateDiff env h P I) =
      P.components.filterMap (fun pc =>
        match I.components.find? (fun ic => pc.linkId == ic.linkId) with
        | some ic =>
          match env.handlerGenerateDiff pc.rtti (env.encodeComponent h pc)
              (env.encodeComponent h ic) with
          | some delta => some ⟨pc.linkId, delta⟩
          | none => none
        | none => none) := by
  rw [componentDiffsOfNode_generateDiff]
  rfl

/-- C18. A non-null diff node returned by `generateDiff(P, I)` has the link ID and the name of
`I`, whether or not the names of `P` and `I` differ. Every entry of its `childDiffs` is the
diff of a prefab child against an instance child, carries the link ID and name of that
instance child, and the scan of `applyDiff` for that id over the children of `I` stops at
that very child; over the children of `P` it finds a child too. -/
theorem generateDiff_stamp (env : Env B) (h : Heap) (P I : SceneObject)
    (d : PrefabObjectDiff B) (hd : generateDiff env h P I = some d) :
    d.id = I.linkId ∧ d.name = I.name ∧
    ∀ cd ∈ d.childDiffs, ∃ pc ∈ P.children, ∃ ic ∈ I.children,
      generateDiff env h pc ic = some cd ∧ cd.id = ic.linkId ∧ cd.name = ic.name ∧
      (∃ pre post, findChild cd.id I.children = some (pre, ic, post)) ∧
      (findChild cd.id P.children).isSome = true := by
  obtain ⟨h1, h2⟩ := generateDiff_some_stamp env h P I d hd
  refine ⟨h1, h2, ?_⟩
  intro cd hcd
  have hchd := childDiffsOfNode_generateDiff env h P I
  rw [hd] at hchd
  have hc : d.childDiffs = _ := hchd
  rw [hc, List.mem_filterMap] at hcd
  obtain ⟨pc, hpc, hcdpc⟩ := hcd
  obtain ⟨ic, hm, _, hg, hid⟩ := childDiffOf_some env h _ _ _ hcdpc
  obtain ⟨hic, hl⟩ := matchedChild_some _ _ _ hm
  obtain ⟨s1, s2⟩ := generateDiff_some_stamp env h pc ic cd hg
  refine ⟨pc, hpc, ic, hic, hg, s1, s2, ?_, ?_⟩
  · rw [hid]
    exact findChild_of_matchedChild _ _ _ hm
  · cases hf : findChild cd.id P.children with
    | none =>
      have := (findChild_eq_none_iff _ _).mp hf pc hpc
      exact absurd hid.symm this
    | some r => rfl

/-- Witness of C18: the names of the roots are equal, the child `A` was renamed; the root
diff node is stamped with the root's link ID and name, its child diff with those of the
instance child. -/
theorem generateDiff_stamp_witness :
    generateDiff exampleEnv exampleHeap examplePrefab renamedChildInstance
      = some (PrefabObjectDiff.mk 0 "Root" [] [] []
          [PrefabObjectDiff.mk 1 "A2" [] [] [] [] [] []] [] []) ∧
    (PrefabObjectDiff.mk 0 "Root" [] [] []
          [PrefabObjectDiff.mk 1 "A2" [] [] [] [] [] []] [] [] :
            PrefabObjectDiff Blob).id = renamedChildInstance.linkId ∧
    (PrefabObjectDiff.mk 0 "Root" [] [] []
          [PrefabObjectDiff.mk 1 "A2" [] [] [] [] [] []] [] [] :
            PrefabObjectDiff Blob).name = renamedChildInstance.name :=
  ⟨rfl,
    (generateDiff_stamp exampleEnv exampleHeap examplePrefab renamedChildInstance _ rfl).1,
    (generateDiff_stamp exampleEnv exampleHeap examplePrefab renamedChildInstance _ rfl).2.1⟩

/-- C13. Lazy allocation: `generateDiff(P, I)` is null exactly when `P` and `I` have the same
name and the six lists it would fill are all empty; when it is not null its lists are those
six lists, and no node of the generated diff tree is empty. (An entry of `childDiffs` is
pushed only under the test `childDiff != nullptr`, so the list holds diff nodes only.) -/
theorem generateDiff_lazy (env : Env B) (h : Heap) (P I : SceneObject) :
    (generateDiff env h P I = none ↔
      P.name = I.name ∧
      P.components.filterMap (componentDiffOf env h I.components) = [] ∧
      (P.components.filter (fun pc => decide (∀ ic ∈ I.components, ic.linkId ≠ pc.linkId))).map
        Component.linkId = [] ∧
      (I.components.filter (fun ic => decide (ic.linkId = -1) ||
        decide (∀ pc ∈ P.components, pc.linkId ≠ ic.linkId))).map (env.encodeComponent h)
          = [] ∧
      P.children.filterMap (childDiffOf env h I.children) = [] ∧
      (P.children.filter (fun pc => decide (∀ ic ∈ I.children, ic.linkId ≠ pc.linkId))).map
        SceneObject.linkId = [] ∧
      (I.children.filter (fun c => !c.dontSave &&
        (decide (c.linkId = -1) || decide (∀ pc ∈ P.children, pc.linkId ≠ c.linkId)))).map
          (env.encodeSceneObject h) = []) ∧
    (∀ d, generateDiff env h P I = some d →
      d.componentDiffs = P.components.filterMap (componentDiffOf env h I.components) ∧
      d.childDiffs = P.children.filterMap (childDiffOf env h I.children) ∧
      NonEmptyAgainst P d) := by
  constructor
  · rw [generateDiff_eq_none_iff]
    simp only [List.filterMap_eq_nil_iff, List.map_eq_nil_iff, List.filter_eq_nil_iff,
      decide_eq_true_eq, Bool.or_eq_true, Bool.and_eq_true, Bool.not_eq_true',
      Bool.not_eq_true]
    have e1 : ∀ pc, (matchedComponent I.components pc).isNone = false ↔
        ¬ ∀ ic ∈ I.components, ic.linkId ≠ pc.linkId := by
      intro pc
      simp only [matchedComponent, Option.isNone_eq_false_iff, List.find?_isSome,
        beq_iff_eq, ne_eq, not_forall, not_not, exists_prop]
      exact ⟨fun ⟨x, hx, e⟩ => ⟨x, hx, e.symm⟩, fun ⟨x, hx, e⟩ => ⟨x, hx, e.symm⟩⟩
    have e2 : ∀ pc, (matchedChild I.children pc).isNone = false ↔
        ¬ ∀ ic ∈ I.children, ic.linkId ≠ pc.linkId := by
      intro pc
      rw [← matchedChild_isNone_iff, Bool.not_eq_true]
    have e3 : ∀ ic, isAddedComponent P.components ic = false ↔
        ¬ (ic.linkId = -1 ∨ ∀ pc ∈ P.components, pc.linkId ≠ ic.linkId) := by
      intro ic
      simp [isAddedComponent]
    have e4 : ∀ ic, isAddedChild P.children ic = false ↔
        ¬ (ic.dontSave = false ∧ (ic.linkId = -1 ∨ ∀ pc ∈ P.children, pc.linkId ≠ ic.linkId))
        := by
      intro ic
      rw [← isAddedChild_iff, Bool.not_eq_true]
    simp only [e1, e2, e3, e4]
  · intro d hd
    have h1 := componentDiffsOfNode_generateDiff env h P I
    have h2 := childDiffsOfNode_generateDiff env h P I
    rw [hd] at h1 h2
    exact ⟨h1, h2, nonEmptyAgainst_generateDiff env h (nodeCount P) P I d (le_refl _) hd⟩

/-- Witness of C13: the diff of the example prefab against the instance with a renamed child
is not null, and neither its root node nor its child diff is empty. -/
theorem generateDiff_lazy_witness :
    generateDiff exampleEnv exampleHeap examplePrefab renamedChildInstance
      = some (PrefabObjectDiff.mk 0 "Root" [] [] []
          [PrefabObjectDiff.mk 1 "A2" [] [] [] [] [] []] [] []) ∧
    NonEmptyAgainst examplePrefab
      (PrefabObjectDiff.mk 0 "Root" [] [] []
        [PrefabObjectDiff.mk 1 "A2" [] [] [] [] [] []] [] [] : PrefabObjectDiff Blob) :=
  ⟨rfl,
    ((generateDiff_lazy exampleEnv exampleHeap examplePrefab renamedChildInstance).2 _
      rfl).2.2⟩

/-- C12, evaluation at the failing input. The prefab has a component and a child with link ID
-1 and so has the instance (component with another state, child with another name). The scans
"Find modified and removed" treat each pair as matched: a component diff and a child diff with
id -1 are produced and nothing is recorded as removed, while the loops "Find added" record
the same instance component and child as added. -/
theorem unlinked_entries_are_matched :
    generateDiff exampleEnv exampleHeap looseLinkPrefab looseLinkInstance
      = some (PrefabObjectDiff.mk 0 "Root"
          [⟨-1, Blob.delta 2⟩] [] [Blob.component (-1) 0 2 115]
          [PrefabObjectDiff.mk (-1) "Y" [] [] [] [] [] []] []
          [Blob.object (SceneObject.mk "Y" (-1) 12 "" false [] [])]) ∧
    removedChildrenOf
      (generateDiff exampleEnv exampleHeap looseLinkPrefab looseLinkInstance) = [] ∧
    (childDiffsOfNode
      (generateDiff exampleEnv exampleHeap looseLinkPrefab looseLinkInstance)).map
        PrefabObjectDiff.id = [-1] ∧
    (componentDiffsOfNode
      (generateDiff exampleEnv exampleHeap looseLinkPrefab looseLinkInstance)).map
        PrefabComponentDiff.id = [-1] :=
  ⟨rfl, rfl, rfl, rfl⟩

end StampAndLaziness

/-! ## Position of added components and children -/

section AddedLast

variable {B : Type}

theorem applyComponentDiff_patched (env : Env B) (e : PrefabComponentDiff B)
    (cs : List Component) :
    List.Forall₂ (PatchedBy env) cs (applyComponentDiff env e cs) := by
  induction cs with
  | nil => exact List.Forall₂.nil
  | cons c rest ih =>
    rw [applyComponentDiff]
    split
    · exact List.Forall₂.cons (PatchedBy.step c c e.data (PatchedBy.refl c))
        (List.forall₂_same.mpr (fun x _ => PatchedBy.refl x))
    · exact List.Forall₂.cons (PatchedBy.refl c) ih

theorem patchedBy_trans (env : Env B) (a b c : Component) (h1 : PatchedBy env a b)
    (h2 : PatchedBy env b c) : PatchedBy env a c := by
  induction h2 with
  | refl => exact h1
  | step c' data _ ih => exact PatchedBy.step a c' data ih

theorem forall₂_patched_trans (env : Env B) (l1 l2 l3 : List Component)
    (h1 : List.Forall₂ (PatchedBy env) l1 l2) (h2 : List.Forall₂ (PatchedBy env) l2 l3) :
    List.Forall₂ (PatchedBy env) l1 l3 := by
  induction h1 generalizing l3 with
  | nil => cases h2; exact List.Forall₂.nil
  | cons hab _ ih =>
    cases h2 with
    | cons hbc hrest => exact List.Forall₂.cons (patchedBy_trans env _ _ _ hab hbc) (ih _ hrest)

theorem applyComponentDiffs_patched (env : Env B) (cds : List (PrefabComponentDiff B))
    (cs : List Component) :
    List.Forall₂ (PatchedBy env) cs (applyComponentDiffs env cds cs) := by
  induction cds generalizing cs with
  | nil => exact List.forall₂_same.mpr (fun x _ => PatchedBy.refl x)
  | cons e rest ih =>
    exact forall₂_patched_trans env _ _ _ (applyComponentDiff_patched env e cs) (ih _)

theorem removeComponents_sublist (ids : List Int) (cs : List Component) :
    (removeComponents ids cs).Sublist cs := by
  induction ids generalizing cs with
  | nil => exact List.Sublist.refl _
  | cons k rest ih =>
    exact (ih (destroyComponent k cs)).trans (List.eraseP_sublist cs)

theorem removeChildren_sublist (ids : List Int) (ch : List SceneObject) :
    (removeChildren ids ch).Sublist ch := by
  induction ids generalizing ch with
  | nil => exact List.Sublist.refl _
  | cons k rest ih =>
    exact (ih (destroyChild k ch)).trans (List.eraseP_sublist ch)

/-- C11. After `applyDiff(d, T)` the created components and children come after all
pre-existing ones. The child list is, object by object (same link ID, same instance data),
the pre-existing children that survive the removals, in their original relative order,
followed by the children decoded from `d.addedChildren` in the order of that list; the
component list is, component by component (each possibly patched in place by the diff
handler), the surviving pre-existing components followed by the components decoded from
`d.addedComponents` in the order of that list. Without child diffs and component diffs the
lists are exactly those. -/
theorem applyDiff_added_last (env : Env B) (d : PrefabObjectDiff B) (T : SceneObject) :
    ((applyDiff env d T).children.map (fun c => (c.linkId, c.instanceData)) =
      (removeChildren d.removedChildren T.children
        ++ d.addedChildren.map env.decodeSceneObject).map
          (fun c => (c.linkId, c.instanceData))) ∧
    (removeChildren d.removedChildren T.children).Sublist T.children ∧
    List.Forall₂ (PatchedBy env)
      (removeComponents d.removedComponents T.components
        ++ d.addedComponents.map env.decodeComponent)
      (applyDiff env d T).components ∧
    (removeComponents d.removedComponents T.components).Sublist T.components ∧
    (d.childDiffs = [] → (applyDiff env d T).children =
      removeChildren d.removedChildren T.children
        ++ d.addedChildren.map env.decodeSceneObject) ∧
    (d.componentDiffs = [] → (applyDiff env d T).components =
      removeComponents d.removedComponents T.components
        ++ d.addedComponents.map env.decodeComponent) := by
  rw [applyDiff_eq]
  refine ⟨applyChildDiffs_map_identity env _ _, removeChildren_sublist _ _,
    applyComponentDiffs_patched env _ _, removeComponents_sublist _ _, ?_, ?_⟩
  · intro hc
    rw [hc, SceneObject.children_mk, applyChildDiffs]
  · intro hc
    rw [hc, SceneObject.components_mk]
    rfl

/-- Witness of C11: component 3 and child 1 are removed, the survivors keep their place and
the two added components and the two added children follow in the order of the diff. -/
theorem applyDiff_added_last_witness :
    (mixedDiff.childDiffs = [] ∧
      (applyDiff exampleEnv mixedDiff populatedTarget).children =
        [SceneObject.mk "B" 2 3 "" false [] [], SceneObject.mk "N1" (-1) 40 "" false [] [],
         SceneObject.mk "N2" (-1) 41 "" false [] []]) ∧
    (applyDiff exampleEnv mixedDiff populatedTarget).components =
      [⟨4, 6, 0, 81⟩, ⟨8, 0, 0, 10⟩, ⟨9, 0, 0, 11⟩] :=
  ⟨⟨rfl, (applyDiff_added_last exampleEnv mixedDiff populatedTarget).2.2.2.2.1 rfl⟩, rfl⟩

end AddedLast

/-! ## The deserialization session brackets the mutations -/

section Session

variable {B : Type}

theorem extends_refl (tr : List ApplyEvent) : Extends tr tr :=
  ⟨[], by simp, fun _ h => by cases h⟩

theorem extends_trans (a b c : List ApplyEvent) (h1 : Extends a b) (h2 : Extends b c) :
    Extends a c := by
  obtain ⟨e1, rfl, p1⟩ := h1
  obtain ⟨e2, rfl, p2⟩ := h2
  refine ⟨e1 ++ e2, by simp, ?_⟩
  intro e he
  rcases List.mem_append.mp he with h | h
  · exact p1 e h
  · exact p2 e h

theorem extends_snoc (tr : List ApplyEvent) (e : ApplyEvent) (he : e.isSession = false) :
    Extends tr (tr ++ [e]) :=
  ⟨[e], rfl, fun x hx => by rw [List.mem_singleton.mp hx]; exact he⟩

theorem foldl_traced {α : Type}
    (step : SceneObject × List ApplyEvent → α → SceneObject × List ApplyEvent)
    (g : SceneObject → α → SceneObject)
    (h1 : ∀ st x, (step st x).1 = g st.1 x) (h2 : ∀ st x, Extends st.2 (step st x).2)
    (xs : List α) (st : SceneObject × List ApplyEvent) :
    (xs.foldl step st).1 = xs.foldl g st.1 ∧ Extends st.2 (xs.foldl step st).2 := by
  induction xs generalizing st with
  | nil => exact ⟨rfl, extends_refl _⟩
  | cons x rest ih =>
    obtain ⟨i1, i2⟩ := ih (step st x)
    rw [List.foldl_cons, List.foldl_cons, i1, h1]
    exact ⟨rfl, extends_trans _ _ _ (h2 st x) i2⟩

theorem setComponents_self (o : SceneObject) : o.setComponents o.components = o := by
  cases o; rfl

theorem setChildren_self (o : SceneObject) : o.setChildren o.children = o := by
  cases o; rfl

theorem destroyComponent_of_no_match (k : Int) (cs : List Component)
    (hn : cs.any (fun c => k == c.linkId) = false) : destroyComponent k cs = cs := by
  unfold destroyComponent
  apply List.eraseP_of_forall_not
  intro c hc hk
  rw [List.any_eq_false] at hn
  exact hn c hc hk

theorem destroyChild_of_no_match (k : Int) (ch : List SceneObject)
    (hn : ch.any (fun c => k == c.linkId) = false) : destroyChild k ch = ch := by
  unfold destroyChild
  apply List.eraseP_of_forall_not
  intro c hc hk
  rw [List.any_eq_false] at hn
  exact hn c hc hk

theorem applyComponentDiff_of_not_any (env : Env B) (e : PrefabComponentDiff B)
    (cs : List Component) (hn : cs.any (fun c => e.id == c.linkId) = false) :
    applyComponentDiff env e cs = cs := by
  apply applyComponentDiff_of_no_match
  intro c hc he
  rw [List.any_eq_false] at hn
  exact hn c hc (by rw [beq_iff_eq]; exact he.symm)

mutual
theorem applyDiffTraced_spec (env : Env B) :
    ∀ (d : PrefabObjectDiff B) (T : SceneObject) (tr : List ApplyEvent),
      (applyDiffTraced env d T tr).1 = applyDiff env d T ∧
      ∃ evs, (applyDiffTraced env d T tr).2 = tr ++ ApplyEvent.setName d.name :: evs ∧
        ∀ e ∈ evs, e.isSession = false
  | .mk i n cd rc ac chd rch ach, T, tr => by
    rw [applyDiffTraced, applyDiff]
    simp only
    have s1 := foldl_traced
      (fun (st : SceneObject × List ApplyEvent) removedId =>
        if st.1.components.any (fun component => removedId == component.linkId) then
          (st.1.setComponents (destroyComponent removedId st.1.components),
            st.2 ++ [ApplyEvent.destroyComponent removedId])
        else st)
      (fun (o : SceneObject) removedId =>
        o.setComponents (destroyComponent removedId o.components))
      (by
        intro st x
        by_cases hc : st.1.components.any (fun component => x == component.linkId) = true
        · simp [hc]
        · rw [Bool.not_eq_true] at hc
          simp [hc, destroyComponent_of_no_match x _ hc, setComponents_self])
      (by
        intro st x
        by_cases hc : st.1.components.any (fun component => x == component.linkId) = true
        · simp only [hc, if_true]; exact extends_snoc _ _ rfl
        · simp only [hc]; exact extends_refl _)
      rc (T.setName n, tr ++ [ApplyEvent.setName n])
    have s2 := foldl_traced
      (fun (st : SceneObject × List ApplyEvent) removedId =>
        if st.1.children.any (fun child => removedId == child.linkId) then
          (st.1.setChildren (destroyChild removedId st.1.children),
            st.2 ++ [ApplyEvent.destroyChild removedId])
        else st)
      (fun (o : SceneObject) removedId =>
        o.setChildren (destroyChild removedId o.children))
      (by
        intro st x
        by_cases hc : st.1.children.any (fun child => x == child.linkId) = true
        · simp [hc]
        · rw [Bool.not_eq_true] at hc
          simp [hc, destroyChild_of_no_match x _ hc, setChildren_self])
      (by
        intro st x
        by_cases hc : st.1.children.any (fun child => x == child.linkId) = true
        · simp only [hc, if_true]; exact extends_snoc _ _ rfl
        · simp only [hc]; exact extends_refl _)
      rch
    have s3 := foldl_traced
      (fun (st : SceneObject × List ApplyEvent) addedComponentData =>
        (st.1.addComponentInternal (env.decodeComponent addedComponentData),
          st.2 ++ [ApplyEvent.addComponentInternal
            (env.decodeComponent addedComponentData).linkId]))
      (fun (o : SceneObject) addedComponentData =>
        o.addComponentInternal (env.decodeComponent addedComponentData))
      (fun _ _ => rfl) (fun _ _ => extends_snoc _ _ rfl) ac
    have s4 := foldl_traced
      (fun (st : SceneObject × List ApplyEvent) addedChildData =>
        ((env.decodeSceneObject addedChildData).setParent st.1,
          st.2 ++ [ApplyEvent.setParent (env.decodeSceneObject addedChildData).linkId]))
      (fun (o : SceneObject) addedChildData =>
        (env.decodeSceneObject addedChildData).setParent o)
      (fun _ _ => rfl) (fun _ _ => extends_snoc _ _ rfl) ach
    have s5 := foldl_traced
      (fun (st : SceneObject × List ApplyEvent) componentDiff =>
        if st.1.components.any (fun component => componentDiff.id == component.linkId) then
          (st.1.setComponents (applyComponentDiff env componentDiff st.1.components),
            st.2 ++ [ApplyEvent.handlerApplyDiff componentDiff.id])
        else st)
      (fun (o : SceneObject) componentDiff =>
        o.setComponents (applyComponentDiff env componentDiff o.components))
      (by
        intro st x
        by_cases hc : st.1.components.any (fun component => x.id == component.linkId) = true
        · simp [hc]
        · rw [Bool.not_eq_true] at hc
          simp [hc, applyComponentDiff_of_not_any env x _ hc, setComponents_self])
      (by
        intro st x
        by_cases hc : st.1.components.any (fun component => x.id == component.linkId) = true
        · simp only [hc, if_true]; exact extends_snoc _ _ rfl
        · simp only [hc]; exact extends_refl _)
      cd
    generalize hst1 : List.foldl _ (T.setName n, tr ++ [ApplyEvent.setName n]) rc = st1 at s1 ⊢
    have s2' := s2 st1
    generalize hst2 : List.foldl _ st1 rch = st2 at s2' ⊢
    have s3' := s3 st2
    generalize hst3 : List.foldl _ st2 ac = st3 at s3' ⊢
    have s4' := s4 st3
    generalize hst4 : List.foldl _ st3 ach = st4 at s4' ⊢
    have s5' := s5 st4
    generalize hst5 : List.foldl _ st4 cd = st5 at s5' ⊢
    obtain ⟨c1, c2⟩ := applyChildDiffsTraced_spec env chd st5.1.children st5.2
    rw [c1]
    constructor
    · rw [s5'.1, s4'.1, s3'.1, s2'.1, s1.1]
    · have hall := extends_trans _ _ _ (extends_trans _ _ _ (extends_trans _ _ _
        (extends_trans _ _ _ (extends_trans _ _ _ s1.2 s2'.2) s3'.2) s4'.2) s5'.2) c2
      obtain ⟨evs, he, hp⟩ := hall
      exact ⟨evs, by rw [he]; simp [PrefabObjectDiff.name], hp⟩
theorem applyChildDiffsTraced_spec (env : Env B) :
    ∀ (cds : List (PrefabObjectDiff B)) (L : List SceneObject) (tr : List ApplyEvent),
      (applyChildDiffsTraced env cds L tr).1 = applyChildDiffs env cds L ∧
      Extends tr (applyChildDiffsTraced env cds L tr).2
  | [], L, tr => by
    rw [applyChildDiffsTraced, applyChildDiffs]
    exact ⟨rfl, extends_refl _⟩
  | cd :: rest, L, tr => by
    rw [applyChildDiffsTraced, applyChildDiffs]
    cases hf : findChild cd.id L with
    | none => exact applyChildDiffsTraced_spec env rest L tr
    | some r =>
      simp only
      obtain ⟨a1, evs, a2, a3⟩ := applyDiffTraced_spec env cd r.2.1 tr
      rw [a1]
      obtain ⟨b1, b2⟩ := applyChildDiffsTraced_spec env rest
        (r.1 ++ applyDiff env cd r.2.1 :: r.2.2) (applyDiffTraced env cd r.2.1 tr).2
      refine ⟨b1, extends_trans _ _ _ ?_ b2⟩
      refine ⟨ApplyEvent.setName cd.name :: evs, a2, ?_⟩
      intro e he
      rcases List.mem_cons.mp he with rfl | h
      · rfl
      · exact a3 e h
end

end Session

section SessionClaims

variable {B : Type}

/-- C20. For a diff with a non-null root, the operations of `apply` in program order are: one
begin notification, then the mutations of the target tree (at least the renaming of the
target, none of them a notification), then one end notification; the target obtained is that
of `applyDiff`, and the session receives exactly the begin and the end notification. On the
example that reuses link ID 7 the operations are: begin, set name, destroy child 7, parent the
new child 7, end. -/
theorem apply_session_bracket :
    (∀ (B : Type) (env : Env B) (root : PrefabObjectDiff B) (object : SceneObject),
      (∃ muts : List ApplyEvent,
        (PrefabDiff.applyTraced env ⟨some root⟩ object []).2 =
          ApplyEvent.session SessionEvent.startDeserialization ::
            (muts ++ [ApplyEvent.session SessionEvent.endDeserialization]) ∧
        muts ≠ [] ∧ ∀ e ∈ muts, e.isSession = false) ∧
      (PrefabDiff.applyTraced env ⟨some root⟩ object []).1 = applyDiff env root object ∧
      PrefabDiff.apply env ⟨some root⟩ object [] =
        (applyDiff env root object,
          [SessionEvent.startDeserialization, SessionEvent.endDeserialization])) ∧
    (PrefabDiff.applyTraced exampleEnv ⟨some reuseDiff⟩ reuseTarget []).2 =
      [ApplyEvent.session SessionEvent.startDeserialization, ApplyEvent.setName "Root",
        ApplyEvent.destroyChild 7, ApplyEvent.setParent 7,
        ApplyEvent.session SessionEvent.endDeserialization] := by
  refine ⟨?_, rfl⟩
  intro B env root object
  obtain ⟨h1, evs, h2, h3⟩ := applyDiffTraced_spec env root object
    ([] ++ [ApplyEvent.session SessionEvent.startDeserialization])
  refine ⟨⟨ApplyEvent.setName root.name :: evs, ?_, by simp, ?_⟩, h1, rfl⟩
  · show (applyDiffTraced env root object
      ([] ++ [ApplyEvent.session SessionEvent.startDeserialization])).2 ++ _ = _
    rw [h2]
    simp
  · intro e he
    rcases List.mem_cons.mp he with rfl | h
    · rfl
    · exact h3 e h

end SessionClaims

/-! ## The walks of `renameInstanceIds` as a list of game objects -/

section WalkOrder

theorem entitiesBelow_eq (uuid : String) (so : SceneObject) :
    entitiesBelow uuid so =
      directEntities ⟨so, uuid⟩ ++
        entitiesBelow.belowList (childParentUUID ⟨so, uuid⟩) so.children := by
  cases so
  rw [entitiesBelow]
  rfl

theorem pendingEntities_append (l1 l2 : List StackEntry) :
    pendingEntities (l1 ++ l2) = pendingEntities l1 ++ pendingEntities l2 := by
  induction l1 with
  | nil => rfl
  | cons e rest ih => simp [pendingEntities, ih]

theorem pendingEntities_reverse (l : List StackEntry) :
    (pendingEntities l.reverse).Perm (pendingEntities l) := by
  induction l with
  | nil => exact List.Perm.refl _
  | cons e rest ih =>
    rw [List.reverse_cons, pendingEntities_append]
    simp only [pendingEntities, List.append_nil]
    exact (List.Perm.append_right _ ih).trans List.perm_append_comm

theorem pendingEntities_map (key : String) (ch : List SceneObject) :
    pendingEntities (ch.map (fun c => (⟨c, key⟩ : StackEntry)))
      = entitiesBelow.belowList key ch := by
  induction ch with
  | nil => rfl
  | cons c rest ih =>
    rw [List.map_cons, pendingEntities, ih, entitiesBelow.belowList]

/-- The game objects pending before a visit are those visited plus those pending after. -/
theorem pendingEntities_visit (current : StackEntry) (todo : List StackEntry) :
    (directEntities current ++
      pendingEntities ((current.so.children.map
        (fun c => (⟨c, childParentUUID current⟩ : StackEntry))).reverse ++ todo)).Perm
      (pendingEntities (current :: todo)) := by
  rw [pendingEntities, pendingEntities_append, entitiesBelow_eq, List.append_assoc]
  apply List.Perm.append_left
  apply List.Perm.append_right
  have := pendingEntities_reverse
    (current.so.children.map (fun c => (⟨c, childParentUUID current⟩ : StackEntry)))
  rw [pendingEntities_map] at this
  exact this

theorem renameAll_append (m : LinkToInstanceId) (l1 l2 : List Entity)
    (st : Heap × List RenamedGameObject) :
    renameAll m (l1 ++ l2) st = renameAll m l2 (renameAll m l1 st) := by
  simp [renameAll, List.foldl_append]

theorem renameComponents_eq (m : LinkToInstanceId) (key : String) (cs : List Component)
    (st : Heap × List RenamedGameObject) :
    (match m key with
      | some idMap => renameComponents idMap cs st
      | none => st)
      = renameAll m (cs.map (fun c => (⟨key, false, c.linkId, c.instanceData⟩ : Entity)))
          st := by
  induction cs generalizing st with
  | nil => cases m key <;> rfl
  | cons c rest ih =>
    cases hm : m key with
    | none =>
      have := ih st
      rw [hm] at this
      simp only [List.map_cons, renameAll, List.foldl_cons]
      have hn : newId m ⟨key, false, c.linkId, c.instanceData⟩ = none := by
        simp [newId, lookupId, hm]
      rw [hn]
      exact this
    | some idMap =>
      have := ih (condRename c.instanceData (idMap c.linkId) st)
      rw [hm] at this
      simp only [List.map_cons, renameAll, List.foldl_cons]
      have hn : newId m ⟨key, false, c.linkId, c.instanceData⟩ = idMap c.linkId := by
        simp [newId, lookupId, hm]
      rw [hn]
      simp only [renameComponents, List.foldl_cons] at this ⊢
      exact this

theorem childNewId_eq (m : LinkToInstanceId) (key : String) (c : SceneObject) :
    childNewId (m key) c = newId m ⟨key, true, c.linkId, c.instanceData⟩ := by
  unfold childNewId newId lookupId
  cases m key with
  | none => simp
  | some idMap =>
    by_cases hl : c.linkId = -1 <;> simp [hl]

theorem foldl_renameChild_fst (m : LinkToInstanceId) (key : String) (ch : List SceneObject)
    (st : Heap × List RenamedGameObject) (todo : List StackEntry) :
    (ch.foldl (renameChild (m key) key) (st, todo)).1
      = renameAll m (ch.map (fun c => (⟨key, true, c.linkId, c.instanceData⟩ : Entity)))
          st := by
  induction ch generalizing st todo with
  | nil => rfl
  | cons c rest ih =>
    rw [List.foldl_cons, renameChild_fst, ih, childNewId_eq]
    rfl

theorem instanceVisit_fst (m : LinkToInstanceId) (current : StackEntry)
    (todo : List StackEntry) (st : Heap × List RenamedGameObject) :
    (instanceVisit m current todo st).1 = renameAll m (directEntities current) st := by
  unfold instanceVisit directEntities
  simp only
  rw [foldl_renameChild_fst, renameAll_append]
  congr 1
  exact renameComponents_eq m _ _ st

/-- With enough iterations a walk visits exactly the pending game objects. -/
theorem walkOrder_perm (fuel : Nat) (todo : List StackEntry)
    (hf : stackCount todo ≤ fuel) : (walkOrder fuel todo).Perm (pendingEntities todo) := by
  induction fuel generalizing todo with
  | zero =>
    cases todo with
    | nil => exact List.Perm.refl _
    | cons e rest =>
      have := nodeCount_pos e.so
      rw [stackCount] at hf
      omega
  | succ n ih =>
    cases todo with
    | nil => exact List.Perm.refl _
    | cons e rest =>
      rw [walkOrder]
      have hs := stackCount_after_visit e rest
      exact (List.Perm.append_left _ (ih _ (by omega))).trans (pendingEntities_visit e rest)

/-- The instance walk renames the game objects in the order of the walk. -/
theorem instanceWalk_eq_renameAll (m : LinkToInstanceId) (fuel : Nat)
    (todo : List StackEntry) (st : Heap × List RenamedGameObject) :
    instanceWalk m fuel todo st = renameAll m (walkOrder fuel todo) st := by
  induction fuel generalizing todo st with
  | zero => rfl
  | succ n ih =>
    cases todo with
    | nil => rfl
    | cons e rest =>
      rw [instanceWalk, walkOrder, renameAll_append, ← instanceVisit_fst m e rest st,
        ← instanceVisit_snd m e rest st]
      exact ih _ _

theorem lookupId_assign (m : LinkToInstanceId) (key : String) (im : IdMap) (k : String)
    (l : Int) :
    lookupId (m.assign key im) k l = if k = key then im l else lookupId m k l := by
  unfold lookupId LinkToInstanceId.assign
  by_cases hk : k = key <;> simp [hk]

theorem recordAll_key {α : Type} (h : Heap) (key : String) (flag : Bool) (lk : α → Int)
    (bl : α → Nat) (xs : List α) (f : String → Int → Option Nat) (k : String) (l : Int) :
    recordAll h (xs.map (fun x => (⟨key, flag, lk x, bl x⟩ : Entity))) f k l =
      if k = key then
        (xs.foldl (fun (im : IdMap) x => im.assign (lk x) (h (bl x))) (f key)) l
      else f k l := by
  induction xs generalizing f with
  | nil => by_cases hk : k = key <;> simp [recordAll, hk]
  | cons x rest ih =>
    simp only [List.map_cons, recordAll, List.foldl_cons]
    have := ih (fun k l => if k = key ∧ l = lk x then some (h (bl x)) else f k l)
    simp only [recordAll] at this
    rw [this]
    by_cases hk : k = key
    · simp only [hk, if_true, true_and]
      congr 1
    · simp [hk]

theorem recordAll_append (h : Heap) (l1 l2 : List Entity) (f : String → Int → Option Nat) :
    recordAll h (l1 ++ l2) f = recordAll h l2 (recordAll h l1 f) := by
  simp [recordAll, List.foldl_append]

theorem foldl_pair_fst {α σ τ : Type} (g : σ → α → σ) (p : τ → α → τ) (xs : List α)
    (s : σ) (t : τ) :
    (xs.foldl (fun (st : σ × τ) x => (g st.1 x, p st.2 x)) (s, t)).1 = xs.foldl g s := by
  induction xs generalizing s t with
  | nil => rfl
  | cons x rest ih => rw [List.foldl_cons, List.foldl_cons, ih]

theorem prefabVisit_lookup (h : Heap) (current : StackEntry) (todo : List StackEntry)
    (m : LinkToInstanceId) :
    lookupId (prefabVisit h current todo m).1
      = recordAll h (directEntities current) (lookupId m) := by
  funext k l
  unfold prefabVisit directEntities
  simp only
  rw [lookupId_assign, recordAll_append, recordAll_key,
    foldl_pair_fst (fun (im : IdMap) (child : SceneObject) =>
        im.assign child.linkId (h child.instanceData))
      (fun (td : List StackEntry) (child : SceneObject) =>
        (⟨child, childParentUUID current⟩ : StackEntry) :: td)]
  have hin : recordAll h (current.so.components.map
      (fun c => (⟨childParentUUID current, false, c.linkId, c.instanceData⟩ : Entity)))
      (lookupId m) (childParentUUID current)
        = current.so.components.foldl
            (fun (im : IdMap) component =>
              im.assign component.linkId (h component.instanceData))
            ((m (childParentUUID current)).getD (fun _ => none)) := by
    funext l2
    rw [recordAll_key, if_pos rfl]
    have hbase : lookupId m (childParentUUID current)
        = (m (childParentUUID current)).getD (fun _ => none) := by
      funext l3
      unfold lookupId
      cases m (childParentUUID current) <;> rfl
    rw [hbase]
  by_cases hk : k = childParentUUID current
  · rw [if_pos hk, if_pos hk, hin]
  · rw [if_neg hk, if_neg hk, recordAll_key, if_neg hk]

/-- The prefab walk enters the game objects in the order of the walk. -/
theorem prefabWalk_lookup (h : Heap) (fuel : Nat) (todo : List StackEntry)
    (m : LinkToInstanceId) :
    lookupId (prefabWalk h fuel todo m) = recordAll h (walkOrder fuel todo) (lookupId m) := by
  induction fuel generalizing todo m with
  | zero => rfl
  | succ n ih =>
    cases todo with
    | nil => rfl
    | cons e rest =>
      rw [prefabWalk, walkOrder, recordAll_append, ← prefabVisit_lookup h e rest m,
        ← prefabVisit_snd h e rest m]
      exact ih _ _

end WalkOrder

/-! ## Effect of a list of renames -/

section RenameAll

theorem condRename_fst (a : Nat) (v : Option Nat) (st : Heap × List RenamedGameObject) :
    (condRename a v st).1 =
      match v with
      | some x => Function.update st.1 a x
      | none => st.1 := by
  cases v <;> rfl

theorem condRename_frame (a b : Nat) (v : Option Nat) (st : Heap × List RenamedGameObject)
    (hb : b ≠ a) : (condRename a v st).1 b = st.1 b := by
  cases v with
  | none => rfl
  | some x => exact Function.update_noteq hb _ _

theorem condRename_value (a : Nat) (v : Option Nat) (st : Heap × List RenamedGameObject) :
    (condRename a v st).1 a = v.getD (st.1 a) := by
  cases v with
  | none => rfl
  | some x => exact Function.update_same _ _ _

theorem written_condRename (a : Nat) (v : Option Nat) (st : Heap × List RenamedGameObject) :
    written (condRename a v st) = written st ++ (if v.isSome then [a] else []) := by
  cases v with
  | none => simp [condRename]
  | some x => simp [condRename, written_renameSlot]

theorem renameAll_frame (m : LinkToInstanceId) (L : List Entity)
    (st : Heap × List RenamedGameObject) (a : Nat) (ha : a ∉ L.map Entity.block) :
    (renameAll m L st).1 a = st.1 a := by
  induction L generalizing st with
  | nil => rfl
  | cons x rest ih =>
    simp only [List.map_cons, List.mem_cons, not_or] at ha
    show (renameAll m rest (condRename x.block (newId m x) st)).1 a = st.1 a
    rw [ih _ ha.2, condRename_frame _ _ _ _ ha.1]

theorem renameAll_value (m : LinkToInstanceId) (L : List Entity)
    (st : Heap × List RenamedGameObject) (hnd : (L.map Entity.block).Nodup)
    (e : Entity) (he : e ∈ L) :
    (renameAll m L st).1 e.block = (newId m e).getD (st.1 e.block) := by
  induction L generalizing st with
  | nil => cases he
  | cons x rest ih =>
    rw [List.map_cons, List.nodup_cons] at hnd
    show (renameAll m rest (condRename x.block (newId m x) st)).1 e.block = _
    rcases List.mem_cons.mp he with rfl | hr
    · rw [renameAll_frame m rest _ _ hnd.1, condRename_value]
    · have hne : e.block ≠ x.block := by
        intro h
        exact hnd.1 (h ▸ List.mem_map_of_mem Entity.block hr)
      rw [ih _ hnd.2 hr, condRename_frame _ _ _ _ hne]

theorem renameAll_records (m : LinkToInstanceId) (L : List Entity)
    (st : Heap × List RenamedGameObject) :
    ∃ recs, (renameAll m L st).2 = st.2 ++ recs := by
  induction L generalizing st with
  | nil => exact ⟨[], by simp [renameAll]⟩
  | cons x rest ih =>
    obtain ⟨recs, hr⟩ := ih (condRename x.block (newId m x) st)
    show ∃ recs, (renameAll m rest (condRename x.block (newId m x) st)).2 = st.2 ++ recs
    rw [hr]
    cases newId m x with
    | none => exact ⟨recs, rfl⟩
    | some v =>
      exact ⟨(⟨x.block, st.1 x.block⟩ : RenamedGameObject) :: recs, by
        simp [condRename, renameSlot]⟩

theorem written_renameAll (m : LinkToInstanceId) (L : List Entity)
    (st : Heap × List RenamedGameObject) :
    written (renameAll m L st) =
      written st ++ (L.filter (fun e => (newId m e).isSome)).map Entity.block := by
  induction L generalizing st with
  | nil => simp [renameAll]
  | cons x rest ih =>
    show written (renameAll m rest (condRename x.block (newId m x) st)) = _
    rw [ih, written_condRename, List.filter_cons]
    cases newId m x <;> simp

theorem sim_condRename (h1 h2 : Heap) (a : Nat) (v : Option Nat)
    (sA sB : Heap × List RenamedGameObject) (hs : Sim h1 h2 sA sB) :
    Sim h1 h2 (condRename a v sA) (condRename a v sB) := by
  cases v with
  | none => exact hs
  | some x =>
    obtain ⟨hw, hv⟩ := hs
    refine ⟨by simp only [condRename, written_renameSlot, hw], ?_⟩
    intro b
    simp only [condRename, written_renameSlot, List.mem_append, List.mem_singleton]
    by_cases hb : b = a
    · subst hb
      exact ⟨fun _ => by simp [renameSlot], fun hn => absurd (Or.inr rfl) hn⟩
    · constructor
      · intro hm
        rcases hm with hm | hm
        · simpa [renameSlot, Function.update_noteq hb] using (hv b).1 hm
        · exact absurd hm hb
      · intro hn
        have := (hv b).2 (fun hm => hn (Or.inl hm))
        simpa [renameSlot, Function.update_noteq hb] using this

theorem sim_renameAll (h1 h2 : Heap) (m : LinkToInstanceId) (L : List Entity)
    (sA sB : Heap × List RenamedGameObject) (hs : Sim h1 h2 sA sB) :
    Sim h1 h2 (renameAll m L sA) (renameAll m L sB) := by
  induction L generalizing sA sB with
  | nil => exact hs
  | cons x rest ih => exact ih _ _ (sim_condRename h1 h2 _ _ _ _ hs)

mutual
theorem entitiesBelow_blocks :
    ∀ (uuid : String) (so : SceneObject),
      ((entitiesBelow uuid so).map Entity.block).Perm (ownedBlocks so)
  | uuid, .mk n l a u f cs ch => by
    rw [entitiesBelow, ownedBlocks]
    simp only [directEntities, List.map_append, List.map_map, List.append_assoc,
      SceneObject.components_mk, SceneObject.children_mk]
    apply List.Perm.append
    · exact List.Perm.of_eq (List.map_congr_left (fun _ _ => rfl))
    · have := belowList_blocks (if u = "" then uuid else u) ch
      refine List.Perm.trans (List.Perm.append_right _ ?_) this
      exact List.Perm.of_eq (List.map_congr_left (fun _ _ => rfl))
theorem belowList_blocks :
    ∀ (key : String) (ch : List SceneObject),
      (ch.map SceneObject.instanceData ++
        (entitiesBelow.belowList key ch).map Entity.block).Perm (ownedBlocks.blocksList ch)
  | _, [] => List.Perm.refl _
  | key, c :: rest => by
    rw [entitiesBelow.belowList, ownedBlocks.blocksList]
    simp only [List.map_cons, List.map_append, List.cons_append]
    apply List.Perm.cons
    have h1 := entitiesBelow_blocks key c
    have h2 := belowList_blocks key rest
    refine List.Perm.trans ?_ (List.Perm.append h1 h2)
    rw [← List.append_assoc, ← List.append_assoc]
    exact List.Perm.append_right _ List.perm_append_comm
end

theorem entity_block_mem (uuid : String) (so : SceneObject) (e : Entity)
    (he : e ∈ entitiesBelow uuid so) : e.block ∈ ownedBlocks so :=
  (entitiesBelow_blocks uuid so).mem_iff.mp (List.mem_map_of_mem Entity.block he)

theorem walkOrder_root_perm (so : SceneObject) :
    (walkOrder (nodeCount so) [⟨so, "root"⟩]).Perm (entitiesBelow "root" so) := by
  have := walkOrder_perm (nodeCount so) [⟨so, "root"⟩] (by simp [stackCount])
  simpa [pendingEntities] using this

/-- The state after `renameInstanceIds` is the root rename followed by the renames of the
game objects below the instance root in the order of the walk, with the lookups of the map
built by the prefab walk. -/
theorem renameInstanceIds_eq_renameAll (h : Heap) (prefab inst : SceneObject)
    (output : List RenamedGameObject) :
    renameInstanceIds h prefab inst output =
      renameAll (prefabWalk h (nodeCount prefab) [⟨prefab, "root"⟩] (fun _ => none))
        (walkOrder (nodeCount inst) [⟨inst, "root"⟩])
        (renameSlot inst.instanceData (h prefab.instanceData) (h, output)) := by
  unfold renameInstanceIds
  exact instanceWalk_eq_renameAll _ _ _ _

end RenameAll

/-! ## Identity alignment -/

section Alignment

variable {B : Type}

theorem recordAll_cons (h : Heap) (x : Entity) (rest : List Entity)
    (f : String → Int → Option Nat) :
    recordAll h (x :: rest) f =
      recordAll h rest
        (fun k l => if k = x.key ∧ l = x.linkId then some (h x.block) else f k l) := rfl

theorem recordAll_frame (h : Heap) (L : List Entity) (f : String → Int → Option Nat)
    (k : String) (l : Int) (hn : ∀ e ∈ L, ¬ (k = e.key ∧ l = e.linkId)) :
    recordAll h L f k l = f k l := by
  induction L generalizing f with
  | nil => rfl
  | cons x rest ih =>
    rw [recordAll_cons, ih _ (fun e he => hn e (List.mem_cons_of_mem _ he)),
      if_neg (hn x (List.mem_cons_self _ _))]

theorem recordAll_value (h : Heap) (L : List Entity) (f : String → Int → Option Nat)
    (hnd : (L.map (fun e => (e.key, e.linkId))).Nodup) (e : Entity) (he : e ∈ L) :
    recordAll h L f e.key e.linkId = some (h e.block) := by
  induction L generalizing f with
  | nil => cases he
  | cons x rest ih =>
    rw [List.map_cons, List.nodup_cons] at hnd
    rw [recordAll_cons]
    rcases List.mem_cons.mp he with rfl | hr
    · rw [recordAll_frame]
      · rw [if_pos ⟨rfl, rfl⟩]
      intro e' he' hk
      apply hnd.1
      rw [List.mem_map]
      exact ⟨e', he', by rw [hk.1, hk.2]⟩
    · exact ih _ hnd.2 hr

theorem recordAll_isSome_of_isSome (h : Heap) (L : List Entity)
    (f : String → Int → Option Nat) (k : String) (l : Int) (hs : (f k l).isSome = true) :
    (recordAll h L f k l).isSome = true := by
  induction L generalizing f with
  | nil => exact hs
  | cons x rest ih =>
    rw [recordAll_cons]
    apply ih
    dsimp only
    by_cases hk : k = x.key ∧ l = x.linkId
    · rw [if_pos hk]; rfl
    · rw [if_neg hk]; exact hs

theorem recordAll_isSome (h : Heap) (L : List Entity) (f : String → Int → Option Nat)
    (e : Entity) (he : e ∈ L) : (recordAll h L f e.key e.linkId).isSome = true := by
  induction L generalizing f with
  | nil => cases he
  | cons x rest ih =>
    rw [recordAll_cons]
    rcases List.mem_cons.mp he with rfl | hr
    · apply recordAll_isSome_of_isSome
      dsimp only
      rw [if_pos ⟨rfl, rfl⟩]; rfl
    · exact ih _ hr

theorem recordAll_congr (h1 h2 : Heap) (L : List Entity) (f : String → Int → Option Nat)
    (hh : ∀ e ∈ L, h1 e.block = h2 e.block) : recordAll h1 L f = recordAll h2 L f := by
  induction L generalizing f with
  | nil => rfl
  | cons x rest ih =>
    rw [recordAll_cons, recordAll_cons, hh x (List.mem_cons_self _ _)]
    exact ih _ (fun e he => hh e (List.mem_cons_of_mem _ he))

theorem newId_congr (m1 m2 : LinkToInstanceId) (hm : lookupId m1 = lookupId m2) :
    newId m1 = newId m2 := by
  funext e
  unfold newId
  rw [hm]

theorem renameAll_congr (m1 m2 : LinkToInstanceId) (hm : lookupId m1 = lookupId m2)
    (L : List Entity) (st : Heap × List RenamedGameObject) :
    renameAll m1 L st = renameAll m2 L st := by
  unfold renameAll
  rw [newId_congr m1 m2 hm]

/-- The lookups of the map built by the prefab walk of `renameInstanceIds`. -/
theorem prefabMap_lookup (h : Heap) (prefab : SceneObject) :
    lookupId (prefabWalk h (nodeCount prefab) [⟨prefab, "root"⟩] (fun _ => none))
      = recordAll h (walkOrder (nodeCount prefab) [⟨prefab, "root"⟩]) (fun _ _ => none) := by
  rw [prefabWalk_lookup]
  rfl

/-- C19. `renameInstanceIds` appends, before any other record, a record for the identity
slot of the instance root holding the root's original instance ID, and sets the root's
instance ID to that of the prefab root, whatever the link ID of the root; the root keeps that
ID to the end of the pass when no other game object of the tree shares its instance-data
block. -/
theorem rename_root_first (h : Heap) (prefab inst : SceneObject)
    (output : List RenamedGameObject) :
    (∃ rest, (renameInstanceIds h prefab inst output).2 =
      output ++ (⟨inst.instanceData, h inst.instanceData⟩ : RenamedGameObject) :: rest) ∧
    (renameSlot inst.instanceData (h prefab.instanceData) (h, output)).1 inst.instanceData
      = h prefab.instanceData ∧
    (inst.instanceData ∉ ownedBlocks inst →
      (renameInstanceIds h prefab inst output).1 inst.instanceData = h prefab.instanceData) := by
  rw [renameInstanceIds_eq_renameAll]
  refine ⟨?_, by simp [renameSlot], ?_⟩
  · obtain ⟨recs, hr⟩ := renameAll_records
      (prefabWalk h (nodeCount prefab) [⟨prefab, "root"⟩] (fun _ => none))
      (walkOrder (nodeCount inst) [⟨inst, "root"⟩])
      (renameSlot inst.instanceData (h prefab.instanceData) (h, output))
    exact ⟨recs, by rw [hr]; simp [renameSlot]⟩
  · intro hroot
    rw [renameAll_frame]
    · simp [renameSlot]
    · intro hmem
      apply hroot
      have hp := ((walkOrder_root_perm inst).map Entity.block).trans
        (entitiesBelow_blocks "root" inst)
      exact hp.mem_iff.mp hmem

/-- Witness of C19: the instance root has link ID -1 and is renamed all the same; its record
comes first. -/
theorem rename_root_first_witness :
    unlinkedRootInstance.linkId = -1 ∧
    unlinkedRootInstance.instanceData ∉ ownedBlocks unlinkedRootInstance ∧
    (renameInstanceIds exampleHeap examplePrefab unlinkedRootInstance []).1 11 = 101 ∧
    (renameInstanceIds exampleHeap examplePrefab unlinkedRootInstance []).2
      = [⟨11, 111⟩, ⟨12, 112⟩] :=
  ⟨rfl, by decide,
    (rename_root_first exampleHeap examplePrefab unlinkedRootInstance []).2.2 (by decide),
    by decide⟩

section PathCorrespondence

theorem mem_belowList (key : String) (ch : List SceneObject) (c : SceneObject) (e : Entity)
    (hc : c ∈ ch) (he : e ∈ entitiesBelow key c) : e ∈ entitiesBelow.belowList key ch := by
  induction ch with
  | nil => cases hc
  | cons x rest ih =>
    rw [entitiesBelow.belowList, List.mem_append]
    rcases List.mem_cons.mp hc with rfl | h
    · exact Or.inl he
    · exact Or.inr (ih h)

theorem childParentUUID_congr (P I : SceneObject) (uuid : String)
    (hu : P.mPrefabLinkUUID = I.mPrefabLinkUUID) :
    childParentUUID ⟨P, uuid⟩ = childParentUUID ⟨I, uuid⟩ := by
  unfold childParentUUID
  simp only [hu]

/-- Game objects that correspond through the same sequence of child link IDs lie in the same
prefab-link scope and have the same link ID. -/
theorem corresponds_entities (uuid : String) (P I : SceneObject) (e' e : Entity)
    (hc : Corresponds uuid P I e' e) :
    e' ∈ entitiesBelow uuid P ∧ e ∈ entitiesBelow uuid I ∧ e'.key = e.key ∧
      e'.linkId = e.linkId := by
  induction hc with
  | component uuid P I pc ic hu hpc hic hl =>
    refine ⟨?_, ?_, childParentUUID_congr P I uuid hu, hl⟩
    · rw [entitiesBelow_eq, directEntities]
      exact List.mem_append_left _ (List.mem_append_left _
        (List.mem_map.mpr ⟨pc, hpc, rfl⟩))
    · rw [entitiesBelow_eq, directEntities]
      exact List.mem_append_left _ (List.mem_append_left _
        (List.mem_map.mpr ⟨ic, hic, rfl⟩))
  | child uuid P I pc ic hu hpc hic hl =>
    refine ⟨?_, ?_, childParentUUID_congr P I uuid hu, hl⟩
    · rw [entitiesBelow_eq, directEntities]
      exact List.mem_append_left _ (List.mem_append_right _
        (List.mem_map.mpr ⟨pc, hpc, rfl⟩))
    · rw [entitiesBelow_eq, directEntities]
      exact List.mem_append_left _ (List.mem_append_right _
        (List.mem_map.mpr ⟨ic, hic, rfl⟩))
  | descend uuid P I pc ic e' e hu hpc hic _ _ ih =>
    obtain ⟨h1, h2, h3, h4⟩ := ih
    refine ⟨?_, ?_, h3, h4⟩
    · rw [entitiesBelow_eq]
      exact List.mem_append_right _ (mem_belowList _ _ pc e' hpc h1)
    · rw [entitiesBelow_eq]
      apply List.mem_append_right
      rw [← childParentUUID_congr P I uuid hu]
      exact mem_belowList _ _ ic e hic h2

end PathCorrespondence

/-- C16 as stated fails: link IDs are unique within the child collection and within the
component collection of every node, the instance component with link ID 1 corresponds to the
prefab component with link ID 1 (instance ID 105), yet after the rename it holds instance ID
102, that of the prefab child with link ID 1, which was entered later into the same map. -/
theorem identity_alignment_counterexample :
    (collidingPrefab.components.map Component.linkId).Nodup ∧
    (collidingPrefab.children.map SceneObject.linkId).Nodup ∧
    (collidingInstance.components.map Component.linkId).Nodup ∧
    (collidingInstance.children.map SceneObject.linkId).Nodup ∧
    collidingPrefab.components = [⟨1, 5, 0, 70⟩] ∧
    collidingInstance.components = [⟨1, 15, 0, 70⟩] ∧
    exampleHeap 5 = 105 ∧
    (renameInstanceIds exampleHeap collidingPrefab collidingInstance []).1 5 = 105 ∧
    (renameInstanceIds exampleHeap collidingPrefab collidingInstance []).1 15 = 102 := by
  refine ⟨by decide, by decide, by decide, by decide, rfl, rfl, rfl, by decide, by decide⟩

/-- C16, amended. Identity alignment by prefab-link scope. If no two game objects below the
prefab root share both the prefab-link scope and the link ID, and every game object of the
instance tree owns its instance-data block, then after `renameInstanceIds` the instance root
has the instance ID of the prefab root, and every instance game object below the root
(scene object or component) whose link ID is not -1 has the instance ID of the prefab game
object with the same link ID in the same scope, when there is one. When the two trees share no
block the prefab's instance IDs are untouched, so the two IDs are equal after the pass as
well. In particular two game objects reached through the same sequence of child link IDs,
the nested-prefab UUIDs on the way being the same on both sides, end with the same instance
ID (`Corresponds`). -/
theorem identity_alignment (h : Heap) (prefab inst : SceneObject)
    (hI : (instanceDataBlocks inst).Nodup)
    (hP : ((entitiesBelow "root" prefab).map (fun e => (e.key, e.linkId))).Nodup) :
    (renameInstanceIds h prefab inst []).1 inst.instanceData = h prefab.instanceData ∧
    (∀ e ∈ entitiesBelow "root" inst, ∀ e' ∈ entitiesBelow "root" prefab,
      e'.key = e.key → e'.linkId = e.linkId → e.linkId ≠ -1 →
      (renameInstanceIds h prefab inst []).1 e.block = h e'.block) ∧
    ((∀ a ∈ instanceDataBlocks prefab, a ∉ instanceDataBlocks inst) →
      ∀ a ∈ instanceDataBlocks prefab, (renameInstanceIds h prefab inst []).1 a = h a) ∧
    (∀ e' e, Corresponds "root" prefab inst e' e → e.linkId ≠ -1 →
      (renameInstanceIds h prefab inst []).1 e.block = h e'.block) := by
  have hpI := ((walkOrder_root_perm inst).map Entity.block).trans
    (entitiesBelow_blocks "root" inst)
  rw [instanceDataBlocks, List.nodup_cons] at hI
  have hndI : ((walkOrder (nodeCount inst) [⟨inst, "root"⟩]).map Entity.block).Nodup :=
    hpI.nodup_iff.mpr hI.2
  have hroot : inst.instanceData ∉
      (walkOrder (nodeCount inst) [⟨inst, "root"⟩]).map Entity.block :=
    fun hm => hI.1 (hpI.mem_iff.mp hm)
  have hpP := walkOrder_root_perm prefab
  have hndP : ((walkOrder (nodeCount prefab) [⟨prefab, "root"⟩]).map
      (fun e => (e.key, e.linkId))).Nodup :=
    ((hpP.map _).nodup_iff).mpr hP
  rw [renameInstanceIds_eq_renameAll]
  have hscope : ∀ e ∈ entitiesBelow "root" inst, ∀ e' ∈ entitiesBelow "root" prefab,
      e'.key = e.key → e'.linkId = e.linkId → e.linkId ≠ -1 →
      (renameAll (prefabWalk h (nodeCount prefab) [⟨prefab, "root"⟩] (fun _ => none))
        (walkOrder (nodeCount inst) [⟨inst, "root"⟩])
        (renameSlot inst.instanceData (h prefab.instanceData) (h, []))).1 e.block
        = h e'.block := by
    intro e he e' he' hk hl hnode
    have heW := (walkOrder_root_perm inst).mem_iff.mpr he
    have he'W := hpP.mem_iff.mpr he'
    rw [renameAll_value _ _ _ hndI e heW]
    have hnew : newId (prefabWalk h (nodeCount prefab) [⟨prefab, "root"⟩] (fun _ => none)) e
        = some (h e'.block) := by
      unfold newId
      rw [if_neg (fun hc => hnode hc.2), prefabMap_lookup, ← hk, ← hl]
      exact recordAll_value h _ _ hndP e' he'W
    rw [hnew]
    rfl
  refine ⟨?_, hscope, ?_, ?_⟩
  · rw [renameAll_frame _ _ _ _ hroot]
    simp [renameSlot]
  · intro hdisj a ha
    have hna : a ∉ (walkOrder (nodeCount inst) [⟨inst, "root"⟩]).map Entity.block := by
      intro hm
      exact hdisj a ha (List.mem_cons_of_mem _ (hpI.mem_iff.mp hm))
    have hne : a ≠ inst.instanceData := by
      intro hc
      exact hdisj a ha (hc ▸ List.mem_cons_self _ _)
    rw [renameAll_frame _ _ _ _ hna]
    simp [renameSlot, Function.update_noteq hne]
  · intro e' e hc hnode
    obtain ⟨h1, h2, h3, h4⟩ := corresponds_entities "root" prefab inst e' e hc
    exact hscope e h2 e' h1 h3 h4 hnode

/-- Witness of C16, amended, on the example prefab and instance: the instance child `A`
(block 12) gets the instance ID 102 of the prefab child `A`, and the root gets 101; the two
children `A` correspond through the same link ID below the roots. -/
theorem identity_alignment_witness :
    (instanceDataBlocks exampleInstance).Nodup ∧
    ((entitiesBelow "root" examplePrefab).map (fun e => (e.key, e.linkId))).Nodup ∧
    (renameInstanceIds exampleHeap examplePrefab exampleInstance []).1 11 = 101 ∧
    (renameInstanceIds exampleHeap examplePrefab exampleInstance []).1 12 = 102 ∧
    (renameInstanceIds exampleHeap examplePrefab exampleInstance []).1 instanceA.instanceData
      = exampleHeap prefabA.instanceData :=
  ⟨by decide, by decide,
    (identity_alignment exampleHeap examplePrefab exampleInstance (by decide) (by decide)).1,
    (identity_alignment exampleHeap examplePrefab exampleInstance (by decide)
      (by decide)).2.1 ⟨"root", true, 1, 12⟩ (by decide) ⟨"root", true, 1, 2⟩ (by decide)
      rfl rfl (by decide),
    (identity_alignment exampleHeap examplePrefab exampleInstance (by decide)
      (by decide)).2.2.2 _ _
      (Corresponds.child "root" examplePrefab exampleInstance prefabA instanceA rfl
        (List.mem_cons_self _ _) (List.mem_cons_self _ _) rfl) (by decide)⟩

end Alignment

/-! ## Independence of the instance's runtime identity -/

section Independence

variable {B : Type}

theorem sim_initial (h1 h2 : Heap) : Sim h1 h2 (h1, []) (h2, []) :=
  ⟨rfl, fun _ => ⟨fun hm => by simp [written] at hm, fun _ => ⟨rfl, rfl⟩⟩⟩

theorem walkOrder_block_mem (so : SceneObject) (e : Entity)
    (he : e ∈ walkOrder (nodeCount so) [⟨so, "root"⟩]) : e.block ∈ instanceDataBlocks so :=
  List.mem_cons_of_mem _
    (entity_block_mem "root" so e ((walkOrder_root_perm so).mem_iff.mp he))

/-- When two heaps agree on the blocks of the prefab and differ only on blocks that the pass
renames, the heaps after `renameInstanceIds` are equal. -/
theorem renameInstanceIds_heap_eq (h1 h2 : Heap) (prefab inst : SceneObject)
    (hP : ∀ a ∈ instanceDataBlocks prefab, h1 a = h2 a)
    (hd : ∀ a, h1 a ≠ h2 a → a = inst.instanceData ∨
      ∃ e ∈ entitiesBelow "root" inst, e.block = a ∧ e.linkId ≠ -1 ∧
        ∃ e' ∈ entitiesBelow "root" prefab, e'.key = e.key ∧ e'.linkId = e.linkId) :
    (renameInstanceIds h1 prefab inst []).1 = (renameInstanceIds h2 prefab inst []).1 := by
  have hm : lookupId (prefabWalk h1 (nodeCount prefab) [⟨prefab, "root"⟩] (fun _ => none))
      = lookupId (prefabWalk h2 (nodeCount prefab) [⟨prefab, "root"⟩] (fun _ => none)) := by
    rw [prefabMap_lookup, prefabMap_lookup]
    exact recordAll_congr h1 h2 _ _ (fun e he => hP _ (walkOrder_block_mem prefab e he))
  have hroot : h1 prefab.instanceData = h2 prefab.instanceData :=
    hP _ (List.mem_cons_self _ _)
  rw [renameInstanceIds_eq_renameAll, renameInstanceIds_eq_renameAll,
    ← renameAll_congr _ _ hm, ← hroot]
  have hs0 := sim_condRename h1 h2 inst.instanceData (some (h1 prefab.instanceData)) _ _
    (sim_initial h1 h2)
  have hs := sim_renameAll h1 h2
    (prefabWalk h1 (nodeCount prefab) [⟨prefab, "root"⟩] (fun _ => none))
    (walkOrder (nodeCount inst) [⟨inst, "root"⟩]) _ _ hs0
  simp only [condRename] at hs
  funext a
  by_cases hw : a ∈ written (renameAll
      (prefabWalk h1 (nodeCount prefab) [⟨prefab, "root"⟩] (fun _ => none))
      (walkOrder (nodeCount inst) [⟨inst, "root"⟩])
      (renameSlot inst.instanceData (h1 prefab.instanceData) (h1, [])))
  · exact (hs.2 a).1 hw
  · obtain ⟨e1, e2⟩ := (hs.2 a).2 hw
    rw [e1, e2]
    by_contra hne
    apply hw
    rw [written_renameAll, written_renameSlot]
    rcases hd a hne with rfl | ⟨e, he, hb, hnode, e', he', hk, hl⟩
    · simp [written]
    · apply List.mem_append_right
      rw [List.mem_map]
      refine ⟨e, ?_, hb⟩
      rw [List.mem_filter]
      refine ⟨(walkOrder_root_perm inst).mem_iff.mpr he, ?_⟩
      unfold newId
      rw [if_neg (fun hc => hnode hc.2), prefabMap_lookup, ← hk, ← hl]
      exact recordAll_isSome h1 _ _ e' ((walkOrder_root_perm prefab).mem_iff.mpr he')

/-- C15. Diffing does not depend on the runtime identity of the instance. Take one prefab and
one instance tree under two assignments of instance IDs (two heaps) that give the prefab's
game objects the same IDs and differ only on the instance root and on instance game objects
that have a corresponding prefab game object, that is a link ID other than -1 and a prefab
game object with the same link ID in the same prefab-link scope. Then, with a serializer that
may read any instance ID, `create` returns the same diff under both. -/
theorem create_identity_independent (env : Env B) (h1 h2 : Heap) (prefab inst : SceneObject)
    (hP : ∀ a ∈ instanceDataBlocks prefab, h1 a = h2 a)
    (hd : ∀ a, h1 a ≠ h2 a → a = inst.instanceData ∨
      ∃ e ∈ entitiesBelow "root" inst, e.block = a ∧ e.linkId ≠ -1 ∧
        ∃ e' ∈ entitiesBelow "root" prefab, e'.key = e.key ∧ e'.linkId = e.linkId) :
    (create env h1 prefab inst).1 = (create env h2 prefab inst).1 := by
  by_cases hu : prefab.mPrefabLinkUUID = inst.mPrefabLinkUUID
  · rw [create_fst_eq env h1 prefab inst hu, create_fst_eq env h2 prefab inst hu,
      renameInstanceIds_heap_eq h1 h2 prefab inst hP hd]
  · simp [create, hu]

/-- Witness of C15: the instance root and the instance child `A` have other instance IDs in
the second heap; the diff returned by `create` is the same. -/
theorem create_identity_independent_witness :
    otherIdsHeap 11 ≠ exampleHeap 11 ∧ otherIdsHeap 12 ≠ exampleHeap 12 ∧
    (∀ a ∈ instanceDataBlocks examplePrefab, exampleHeap a = otherIdsHeap a) ∧
    (create exampleEnv exampleHeap examplePrefab exampleInstance).1
      = (create exampleEnv otherIdsHeap examplePrefab exampleInstance).1 := by
  have hP : ∀ a ∈ instanceDataBlocks examplePrefab, exampleHeap a = otherIdsHeap a := by
    decide
  refine ⟨by decide, by decide, hP, ?_⟩
  apply create_identity_independent exampleEnv exampleHeap otherIdsHeap examplePrefab
    exampleInstance hP
  intro a hne
  by_cases h11 : a = 11
  · exact Or.inl h11
  · by_cases h12 : a = 12
    · refine Or.inr ⟨⟨"root", true, 1, 12⟩, by decide, h12.symm, by decide,
        ⟨"root", true, 1, 2⟩, by decide, rfl, rfl⟩
    · exfalso
      apply hne
      unfold otherIdsHeap
      rw [Function.update_noteq h12, Function.update_noteq h11]

end Independence

section Asymmetry

variable {B : Type}

theorem addedComponentsOf_generateDiff (env : Env B) (h : Heap) (P I : SceneObject) :
    addedComponentsOf (generateDiff env h P I) =
      (I.components.filter (isAddedComponent P.components)).map (env.encodeComponent h) := by
  rw [generateDiff_eq]
  split
  · rename_i hc
    simp only [Bool.and_eq_true, List.isEmpty_iff] at hc
    rw [hc.2.1.1.1.2]; rfl
  · rfl

theorem isAddedComponent_iff (pcs : List Component) (ic : Component) :
    isAddedComponent pcs ic = true ↔
      (ic.linkId = -1 ∨ ∀ pc ∈ pcs, pc.linkId ≠ ic.linkId) := by
  simp [isAddedComponent]

theorem children_setChildren (o : SceneObject) (ch : List SceneObject) :
    (o.setChildren ch).children = ch := by
  cases o; rfl

/-- C21. Child/component asymmetry of `generateDiff(P, I)`. The `addedChildren` list is built
from the instance children that are not flagged do-not-persist only: it is the list of
serializations of those among them that have link ID -1 or a link ID carried by no child of
`P`, and it stays the same when the flagged children are taken out of `I`. The
`addedComponents` list is the list of serializations of every component of `I`, in the order
of the components of `I`, that has link ID -1 or a link ID carried by no component of `P`:
the selection looks at the link ID alone. -/
theorem generateDiff_asymmetry (env : Env B) (h : Heap) (P I : SceneObject) :
    addedChildrenOf (generateDiff env h P I) =
      ((I.children.filter (fun c => !c.dontSave)).filter (fun c =>
        decide (c.linkId = -1) || decide (∀ pc ∈ P.children, pc.linkId ≠ c.linkId))).map
          (env.encodeSceneObject h) ∧
    addedChildrenOf (generateDiff env h P I) =
      addedChildrenOf (generateDiff env h P
        (I.setChildren (I.children.filter (fun c => !c.dontSave)))) ∧
    addedComponentsOf (generateDiff env h P I) =
      (I.components.filter (fun c =>
        decide (c.linkId = -1) || decide (∀ pc ∈ P.components, pc.linkId ≠ c.linkId))).map
          (env.encodeComponent h) ∧
    addedChildrenOf (generateDiff exampleEnv exampleHeap barePrefab flaggedInstance) = [] ∧
    addedComponentsOf (generateDiff exampleEnv exampleHeap barePrefab flaggedInstance)
      = [Blob.component (-1) 0 70 115] := by
  have h1 : addedChildrenOf (generateDiff env h P I) =
      ((I.children.filter (fun c => !c.dontSave)).filter (fun c =>
        decide (c.linkId = -1) || decide (∀ pc ∈ P.children, pc.linkId ≠ c.linkId))).map
          (env.encodeSceneObject h) := by
    rw [addedChildrenOf_generateDiff_filter, List.filter_filter]
    congr 1
    apply List.filter_congr
    intro c _
    rw [Bool.and_comm]
  refine ⟨h1, ?_, ?_, rfl, rfl⟩
  · rw [h1, addedChildrenOf_generateDiff_filter, children_setChildren, List.filter_filter,
      List.filter_filter]
    congr 1
    apply List.filter_congr
    intro c _
    cases c.dontSave <;> simp
  · rw [addedComponentsOf_generateDiff]
    congr 1
    apply List.filter_congr
    intro c _
    rw [Bool.eq_iff_iff, isAddedComponent_iff]
    simp

end Asymmetry

section RenameFrame

theorem renameAll_new_records (m : LinkToInstanceId) (L : List Entity)
    (st : Heap × List RenamedGameObject) :
    ∃ recs, (renameAll m L st).2 = st.2 ++ recs ∧
      recs.map RenamedGameObject.instanceData =
        (L.filter (fun e => (newId m e).isSome)).map Entity.block := by
  obtain ⟨recs, hr⟩ := renameAll_records m L st
  refine ⟨recs, hr, ?_⟩
  have hw := written_renameAll m L st
  unfold written at hw
  rw [hr, List.map_append] at hw
  exact List.append_cancel_left hw

theorem written_renameInstanceIds (h : Heap) (prefab inst : SceneObject)
    (output : List RenamedGameObject) :
    ∃ recs, (renameInstanceIds h prefab inst output).2 = output ++ recs ∧
      ∀ r ∈ recs, r.instanceData ∈ instanceDataBlocks inst := by
  rw [renameInstanceIds_eq_renameAll]
  obtain ⟨recs, hr, hb⟩ := renameAll_new_records
    (prefabWalk h (nodeCount prefab) [⟨prefab, "root"⟩] (fun _ => none))
    (walkOrder (nodeCount inst) [⟨inst, "root"⟩])
    (renameSlot inst.instanceData (h prefab.instanceData) (h, output))
  refine ⟨(⟨inst.instanceData, h inst.instanceData⟩ : RenamedGameObject) :: recs, ?_, ?_⟩
  · rw [hr]
    simp [renameSlot]
  · intro r hrm
    rcases List.mem_cons.mp hrm with rfl | hrec
    · exact List.mem_cons_self _ _
    · have hm : r.instanceData ∈ recs.map RenamedGameObject.instanceData :=
        List.mem_map_of_mem _ hrec
      rw [hb] at hm
      obtain ⟨e, he, heb⟩ := List.mem_map.mp hm
      rw [← heb]
      exact walkOrder_block_mem inst e (List.mem_filter.mp he).1

theorem renameInstanceIds_frame (h : Heap) (prefab inst : SceneObject)
    (output : List RenamedGameObject) (a : Nat) (ha : a ∉ instanceDataBlocks inst) :
    (renameInstanceIds h prefab inst output).1 a = h a := by
  have hpI := ((walkOrder_root_perm inst).map Entity.block).trans
    (entitiesBelow_blocks "root" inst)
  have hna : a ∉ (walkOrder (nodeCount inst) [⟨inst, "root"⟩]).map Entity.block :=
    fun hm => ha (List.mem_cons_of_mem _ (hpI.mem_iff.mp hm))
  have hne : a ≠ inst.instanceData := fun hc => ha (hc ▸ List.mem_cons_self _ _)
  rw [renameInstanceIds_eq_renameAll, renameAll_frame _ _ _ _ hna]
  simp [renameSlot, Function.update_noteq hne]

/-- C22. Frame of `renameInstanceIds`. In an instance tree in which every game object owns
its instance-data block, a scene object below the root whose link ID is -1 keeps its instance
ID, whatever the prefab tree holds. The pass writes blocks of the instance tree only: every
other block keeps its instance ID, every record appended to the output names a block of the
instance tree, and so, the prefab being another tree, no instance ID of the prefab tree is
written. -/
theorem rename_frame (h : Heap) (prefab inst : SceneObject)
    (output : List RenamedGameObject) :
    ((instanceDataBlocks inst).Nodup →
      ∀ e ∈ entitiesBelow "root" inst, e.isNode = true → e.linkId = -1 →
        (renameInstanceIds h prefab inst output).1 e.block = h e.block) ∧
    (∀ a, a ∉ instanceDataBlocks inst →
      (renameInstanceIds h prefab inst output).1 a = h a) ∧
    (∃ recs, (renameInstanceIds h prefab inst output).2 = output ++ recs ∧
      ∀ r ∈ recs, r.instanceData ∈ instanceDataBlocks inst) ∧
    ((∀ a ∈ instanceDataBlocks prefab, a ∉ instanceDataBlocks inst) →
      ∀ a ∈ instanceDataBlocks prefab,
        (renameInstanceIds h prefab inst output).1 a = h a) := by
  refine ⟨?_, renameInstanceIds_frame h prefab inst output,
    written_renameInstanceIds h prefab inst output,
    fun hd a ha => renameInstanceIds_frame h prefab inst output a (hd a ha)⟩
  intro hI e he hn hl
  have hpI := ((walkOrder_root_perm inst).map Entity.block).trans
    (entitiesBelow_blocks "root" inst)
  rw [instanceDataBlocks, List.nodup_cons] at hI
  have hndI : ((walkOrder (nodeCount inst) [⟨inst, "root"⟩]).map Entity.block).Nodup :=
    hpI.nodup_iff.mpr hI.2
  have heW := (walkOrder_root_perm inst).mem_iff.mpr he
  have hne : e.block ≠ inst.instanceData := by
    intro hc
    exact hI.1 (hc ▸ entity_block_mem "root" inst e he)
  rw [renameInstanceIds_eq_renameAll, renameAll_value _ _ _ hndI e heW]
  have hnew : newId (prefabWalk h (nodeCount prefab) [⟨prefab, "root"⟩] (fun _ => none)) e
      = none := by
    unfold newId
    rw [if_pos ⟨hn, hl⟩]
  rw [hnew]
  simp [renameSlot, Function.update_noteq hne]

/-- Witness of C22 on the example trees: the instance child `C` (block 13, link ID -1) keeps
its instance ID 113, and the blocks 1, 2, 3 of the prefab keep theirs. -/
theorem rename_frame_witness :
    (instanceDataBlocks exampleInstance).Nodup ∧
    (∀ a ∈ instanceDataBlocks examplePrefab, a ∉ instanceDataBlocks exampleInstance) ∧
    (renameInstanceIds exampleHeap examplePrefab exampleInstance []).1 13 = 113 ∧
    (renameInstanceIds exampleHeap examplePrefab exampleInstance []).1 2 = 102 :=
  ⟨by decide, by decide,
    (rename_frame exampleHeap examplePrefab exampleInstance []).1 (by decide)
      ⟨"root", true, -1, 13⟩ (by decide) rfl rfl,
    (rename_frame exampleHeap examplePrefab exampleInstance []).2.2.2 (by decide) 2
      (by decide)⟩

end RenameFrame

section FileName

theorem intOfSize_of_lt (n : Nat) (hn : n < 2147483648) : intOfSize n = n := by
  unfold intOfSize
  omega

theorem substr_append (stem s : String) : substr (stem ++ s) stem.length = s := by
  cases stem with
  | mk l =>
    apply String.ext
    show List.drop l.length (String.mk l ++ s).data = s.data
    rw [String.data_append, List.drop_left]

theorem fileName_def (dynLibExtension name : String) :
    fileName dynLibExtension name =
      if intOfSize name.length ≤ intOfSize ("." ++ dynLibExtension).length ∨
          substr name (intOfSize name.length
            - intOfSize ("." ++ dynLibExtension).length).toNat ≠ "." ++ dynLibExtension then
        name ++ ("." ++ dynLibExtension)
      else
        name := rfl

theorem eq_take_append_substr (s : String) (pos : Nat) :
    s = String.mk (s.data.take pos) ++ substr s pos := by
  apply String.ext
  simp [substr]

theorem fileName_eq_or (dynLibExtension name : String) :
    (fileName dynLibExtension name = name ++ ("." ++ dynLibExtension)) ∨
    (fileName dynLibExtension name = name ∧
      ∃ stem : String, name = stem ++ ("." ++ dynLibExtension)) := by
  rw [fileName_def]
  split
  · exact Or.inl rfl
  · rename_i hc
    rw [not_or, not_not] at hc
    refine Or.inr ⟨rfl, String.mk (name.data.take
      (intOfSize name.length - intOfSize ("." ++ dynLibExtension).length).toNat), ?_⟩
    have := eq_take_append_substr name
      (intOfSize name.length - intOfSize ("." ++ dynLibExtension).length).toNat
    rw [hc.2] at this
    exact this

theorem fileName_stem (dynLibExtension stem : String) (hs : stem ≠ "")
    (hl : (stem ++ ("." ++ dynLibExtension)).length < 2147483648) :
    fileName dynLibExtension (stem ++ ("." ++ dynLibExtension))
      = stem ++ ("." ++ dynLibExtension) := by
  have hpos : 0 < stem.length := by
    rcases Nat.eq_zero_or_pos stem.length with h0 | hp
    · exfalso
      apply hs
      apply String.ext
      exact List.length_eq_zero.mp h0
    · exact hp
  have hlen : (stem ++ ("." ++ dynLibExtension)).length
      = stem.length + ("." ++ dynLibExtension).length := String.length_append _ _
  rw [fileName_def, if_neg]
  rw [not_or, not_not]
  rw [intOfSize_of_lt _ hl, intOfSize_of_lt _ (by omega), hlen]
  refine ⟨by omega, ?_⟩
  have hp : ((((stem.length + ("." ++ dynLibExtension).length : Nat) : Int)
      - ((("." ++ dynLibExtension).length : Nat) : Int))).toNat = stem.length := by omega
  rw [hp]
  exact substr_append stem _

theorem fileName_suffix_only (dynLibExtension : String) :
    fileName dynLibExtension ("." ++ dynLibExtension)
      = ("." ++ dynLibExtension) ++ ("." ++ dynLibExtension) := by
  rw [fileName_def, if_pos (Or.inl (le_refl _))]

/-- C23 as stated fails: with the extension `dll`, the name `.dll` ends with "." followed by
the extension, yet the file name used as the key is not the name itself: the suffix is
appended a second time. -/
theorem fileName_extension_counterexample :
    (∃ stem : String, ".dll" = stem ++ ("." ++ "dll")) ∧
    fileName "dll" ".dll" ≠ ".dll" ∧
    fileName "dll" ".dll" = ".dll.dll" :=
  ⟨⟨"", by decide⟩, by decide, by decide⟩

/-- C23, amended. The file name that `DynLibManager::load` uses as the key: for a name
shorter than 2^31 characters that is a non-empty stem followed by "." and the extension, it
is the name itself; for a name that does not end with "." and the extension it is the name
with that suffix appended; for the name that is the suffix alone the suffix is appended as
well. In every case the key is the name or the name with the suffix appended, and it ends
with "." and the extension. -/
theorem fileName_extension (dynLibExtension name : String) :
    (∀ stem : String, stem ≠ "" → name = stem ++ ("." ++ dynLibExtension) →
      name.length < 2147483648 → fileName dynLibExtension name = name) ∧
    ((¬ ∃ stem : String, name = stem ++ ("." ++ dynLibExtension)) →
      fileName dynLibExtension name = name ++ ("." ++ dynLibExtension)) ∧
    fileName dynLibExtension ("." ++ dynLibExtension)
      = ("." ++ dynLibExtension) ++ ("." ++ dynLibExtension) ∧
    (fileName dynLibExtension name = name ∨
      fileName dynLibExtension name = name ++ ("." ++ dynLibExtension)) ∧
    (∃ stem : String, fileName dynLibExtension name = stem ++ ("." ++ dynLibExtension)) := by
  refine ⟨?_, ?_, fileName_suffix_only dynLibExtension, ?_, ?_⟩
  · intro stem hs hn hl
    subst hn
    exact fileName_stem dynLibExtension stem hs hl
  · intro hno
    rcases fileName_eq_or dynLibExtension name with h | ⟨_, hex⟩
    · exact h
    · exact absurd hex hno
  · rcases fileName_eq_or dynLibExtension name with h | ⟨h, _⟩
    · exact Or.inr h
    · exact Or.inl h
  · rcases fileName_eq_or dynLibExtension name with h | ⟨h, stem, hst⟩
    · exact ⟨name, h⟩
    · exact ⟨stem, h.trans hst⟩

/-- Witness of C23, amended: `Foo.dll` is kept, `Foo` becomes `Foo.dll`. -/
theorem fileName_extension_witness :
    fileName "dll" "Foo.dll" = "Foo.dll" ∧ fileName "dll" "Foo" = "Foo.dll" :=
  ⟨(fileName_extension "dll" "Foo.dll").1 "Foo" (by decide) (by decide) (by decide),
    ((fileName_extension "dll" "Foo").2.1 (by
      rintro ⟨stem, hst⟩
      have hl := congrArg String.length hst
      rw [String.length_append] at hl
      have h3 : ("Foo" : String).length = 3 := by decide
      have h4 : ("." ++ "dll" : String).length = 4 := by decide
      omega)).trans (by decide)⟩

end FileName

section LoadCache

theorem find_eq_none_iff (m : LibraryMap) (key : String) :
    LibraryMap.find m key = none ↔ key ∉ m.map Prod.fst := by
  unfold LibraryMap.find
  rw [Option.map_eq_none', List.find?_eq_none]
  simp only [List.mem_map, not_exists, not_and, beq_iff_eq]

theorem find_append_absent (m : LibraryMap) (key : String) (value : Nat)
    (h : LibraryMap.find m key = none) :
    LibraryMap.find (m ++ [(key, value)]) key = some value := by
  unfold LibraryMap.find at h ⊢
  rw [Option.map_eq_none'] at h
  rw [List.find?_append, h]
  simp

theorem find_assign_absent (m : LibraryMap) (key : String) (value : Nat)
    (h : LibraryMap.find m key = none) :
    LibraryMap.find (LibraryMap.assign m key value) key = some value := by
  unfold LibraryMap.assign
  rw [h]
  exact find_append_absent m key value h

theorem keys_assign (m : LibraryMap) (key : String) (value : Nat) :
    (LibraryMap.assign m key value).map Prod.fst =
      if (LibraryMap.find m key).isSome then m.map Prod.fst else m.map Prod.fst ++ [key] := by
  unfold LibraryMap.assign
  split
  · rw [List.map_map]
    apply List.map_congr_left
    intro e _
    show (if e.1 = key then (key, value) else e).1 = e.1
    split
    · rename_i hk
      exact hk.symm
    · rfl
  · rw [List.map_append]
    rfl

theorem nodup_keys_assign (m : LibraryMap) (key : String) (value : Nat)
    (hm : (m.map Prod.fst).Nodup) : ((LibraryMap.assign m key value).map Prod.fst).Nodup := by
  rw [keys_assign]
  split
  · exact hm
  · rename_i hf
    have hnone : LibraryMap.find m key = none := by
      cases hc : LibraryMap.find m key with
      | none => rfl
      | some v => rw [hc] at hf; exact absurd rfl hf
    have hk := (find_eq_none_iff m key).mp hnone
    exact List.Nodup.append hm (List.nodup_singleton key)
      (List.disjoint_singleton.mpr hk)

theorem keys_erase_sublist (m : LibraryMap) (key : String) :
    ((LibraryMap.erase m key).map Prod.fst).Sublist (m.map Prod.fst) :=
  List.Sublist.map _ (List.filter_sublist m)

theorem load_eq (env : DynLibEnv) (mgr : DynLibManager) (name : String) :
    DynLibManager.load env mgr name =
      match LibraryMap.find mgr.mLoadedLibraries (fileName env.extension name) with
      | some lib => some (lib, mgr)
      | none =>
        match env.newDynLib (fileName env.extension name) with
        | none => none
        | some object =>
          some (env.bs_alloc mgr.objects,
            ⟨LibraryMap.assign mgr.mLoadedLibraries (fileName env.extension name)
                (env.bs_alloc mgr.objects),
              Function.update mgr.objects (env.bs_alloc mgr.objects) (some object)⟩) := rfl

theorem load_of_find (env : DynLibEnv) (mgr : DynLibManager) (name : String) (lib : Nat)
    (h : LibraryMap.find mgr.mLoadedLibraries (fileName env.extension name) = some lib) :
    DynLibManager.load env mgr name = some (lib, mgr) := by
  rw [load_eq, h]

theorem find_after_load (env : DynLibEnv) (mgr mgr1 : DynLibManager) (name : String)
    (lib : Nat) (hload : DynLibManager.load env mgr name = some (lib, mgr1)) :
    LibraryMap.find mgr1.mLoadedLibraries (fileName env.extension name) = some lib := by
  rw [load_eq] at hload
  cases hf : LibraryMap.find mgr.mLoadedLibraries (fileName env.extension name) with
  | some l =>
    rw [hf] at hload
    simp only [Option.some.injEq, Prod.mk.injEq] at hload
    rw [← hload.2, ← hload.1]
    exact hf
  | none =>
    rw [hf] at hload
    cases hn : env.newDynLib (fileName env.extension name) with
    | none => rw [hn] at hload; cases hload
    | some object =>
      rw [hn] at hload
      simp only [Option.some.injEq, Prod.mk.injEq] at hload
      rw [← hload.2, ← hload.1]
      exact find_assign_absent _ _ _ hf

theorem mapInvariant_load (env : DynLibEnv) (mgr mgr1 : DynLibManager) (name : String)
    (lib : Nat) (hload : DynLibManager.load env mgr name = some (lib, mgr1))
    (hi : MapInvariant env mgr.mLoadedLibraries) : MapInvariant env mgr1.mLoadedLibraries := by
  rw [load_eq] at hload
  cases hf : LibraryMap.find mgr.mLoadedLibraries (fileName env.extension name) with
  | some l =>
    rw [hf] at hload
    simp only [Option.some.injEq, Prod.mk.injEq] at hload
    rw [← hload.2]
    exact hi
  | none =>
    rw [hf] at hload
    cases hn : env.newDynLib (fileName env.extension name) with
    | none => rw [hn] at hload; cases hload
    | some object =>
      rw [hn] at hload
      simp only [Option.some.injEq, Prod.mk.injEq] at hload
      rw [← hload.2]
      refine ⟨nodup_keys_assign _ _ _ hi.1, ?_⟩
      intro key hk
      rw [keys_assign, hf] at hk
      simp only [Option.isSome_none, Bool.false_eq_true, if_false, List.mem_append,
        List.mem_singleton] at hk
      rcases hk with hk | hk
      · exact hi.2 key hk
      · exact ⟨name, hk⟩

theorem mapInvariant_unload (env : DynLibEnv) (mgr mgr1 : DynLibManager) (lib : Nat)
    (hun : DynLibManager.unload mgr lib = some mgr1)
    (hi : MapInvariant env mgr.mLoadedLibraries) : MapInvariant env mgr1.mLoadedLibraries := by
  unfold DynLibManager.unload at hun
  cases ho : mgr.objects lib with
  | none => rw [ho] at hun; cases hun
  | some object =>
    rw [ho] at hun
    simp only [Option.some.injEq] at hun
    rw [← hun]
    exact ⟨(keys_erase_sublist _ _).nodup hi.1,
      fun key hk => hi.2 key ((keys_erase_sublist _ _).subset hk)⟩

theorem mapInvariant_reachable (env : DynLibEnv) (mgr : DynLibManager)
    (hr : Reachable env mgr) : MapInvariant env mgr.mLoadedLibraries := by
  induction hr with
  | init objects => exact ⟨List.nodup_nil, fun _ hk => by cases hk⟩
  | load mgr mgr1 name lib _ hload ih => exact mapInvariant_load env mgr mgr1 name lib hload ih
  | unload mgr mgr1 lib _ hun ih => exact mapInvariant_unload env mgr mgr1 lib hun ih

theorem entries_unique (m : LibraryMap) (hm : (m.map Prod.fst).Nodup) (key : String)
    (l1 l2 : Nat) (h1 : (key, l1) ∈ m) (h2 : (key, l2) ∈ m) : l1 = l2 := by
  have := List.inj_on_of_nodup_map hm h1 h2 rfl
  exact (Prod.mk.inj this).2

theorem find_append_present (m : LibraryMap) (key other : String) (value lib : Nat)
    (h : LibraryMap.find m key = some lib) :
    LibraryMap.find (m ++ [(other, value)]) key = some lib := by
  unfold LibraryMap.find at h ⊢
  rw [List.find?_append]
  cases hf : List.find? (fun e => e.1 == key) m with
  | none => rw [hf] at h; cases h
  | some e => rw [hf] at h; exact h

theorem find_preserved_load (env : DynLibEnv) (mgr mgr1 : DynLibManager) (name key : String)
    (lib l : Nat) (hload : DynLibManager.load env mgr name = some (lib, mgr1))
    (hk : LibraryMap.find mgr.mLoadedLibraries key = some l) :
    LibraryMap.find mgr1.mLoadedLibraries key = some l := by
  rw [load_eq] at hload
  cases hf : LibraryMap.find mgr.mLoadedLibraries (fileName env.extension name) with
  | some x =>
    rw [hf] at hload
    simp only [Option.some.injEq, Prod.mk.injEq] at hload
    rw [← hload.2]
    exact hk
  | none =>
    rw [hf] at hload
    cases hn : env.newDynLib (fileName env.extension name) with
    | none => rw [hn] at hload; cases hload
    | some object =>
      rw [hn] at hload
      simp only [Option.some.injEq, Prod.mk.injEq] at hload
      rw [← hload.2]
      show LibraryMap.find (LibraryMap.assign mgr.mLoadedLibraries _ _) key = some l
      unfold LibraryMap.assign
      rw [hf]
      exact find_append_present _ _ _ _ _ hk

theorem find_preserved_loads (env : DynLibEnv) (mgr mgr1 : DynLibManager) (key : String)
    (l : Nat) (hl : LoadsTo env mgr mgr1)
    (hk : LibraryMap.find mgr.mLoadedLibraries key = some l) :
    LibraryMap.find mgr1.mLoadedLibraries key = some l := by
  induction hl with
  | refl => exact hk
  | step m1 m2 name lib _ hload ih => exact find_preserved_load env m1 m2 name key lib l hload ih

/-- C24. `DynLibManager::load` is a cache. When a call `load(name)` returns a library, a
second call with the same name on the state it left returns the same library and leaves the
state, the map of loaded libraries with it, as it is; so does a later call with the same name
(or with any name that has the same file name) after further calls of `load`, as long as
`unload` was not called. In every state that a manager reaches from the empty map through
calls of `load` and `unload`, no two entries of the map have the same key, every key is the
file name made of a name by `load`, and so the map holds one library at most for a file
name. -/
theorem load_cached (env : DynLibEnv) (mgr mgr1 : DynLibManager) (name : String) (lib : Nat)
    (hload : DynLibManager.load env mgr name = some (lib, mgr1)) :
    DynLibManager.load env mgr1 name = some (lib, mgr1) ∧
    (∀ mgr2 : DynLibManager, LoadsTo env mgr1 mgr2 →
      ∀ other : String, fileName env.extension other = fileName env.extension name →
        DynLibManager.load env mgr2 other = some (lib, mgr2)) ∧
    (∀ m : DynLibManager, Reachable env m →
      (m.mLoadedLibraries.map Prod.fst).Nodup ∧
      (∀ key ∈ m.mLoadedLibraries.map Prod.fst,
        ∃ n : String, key = fileName env.extension n) ∧
      ∀ (key : String) (l1 l2 : Nat), (key, l1) ∈ m.mLoadedLibraries →
        (key, l2) ∈ m.mLoadedLibraries → l1 = l2) := by
  have hf := find_after_load env mgr mgr1 name lib hload
  refine ⟨load_of_find env mgr1 name lib hf, ?_, ?_⟩
  · intro mgr2 hl other ho
    apply load_of_find
    rw [ho]
    exact find_preserved_loads env mgr1 mgr2 _ lib hl hf
  · intro m hr
    have hi := mapInvariant_reachable env m hr
    exact ⟨hi.1, hi.2, entries_unique _ hi.1⟩

/-- Witness of C24: after `load("Foo")` on the empty manager, `load("Foo")` returns the
library at address 1 and leaves the state as it is, and so does `load("Foo.dll")` after
`load("Bar")`. -/
theorem load_cached_witness :
    DynLibManager.load exampleDynLibEnv emptyManager "Foo" = some (1, fooManager) ∧
    DynLibManager.load exampleDynLibEnv fooManager "Foo" = some (1, fooManager) ∧
    DynLibManager.load exampleDynLibEnv fooManager "Bar" = some (2, fooBarManager) ∧
    DynLibManager.load exampleDynLibEnv fooBarManager "Foo.dll" = some (1, fooBarManager) ∧
    (fooBarManager.mLoadedLibraries.map Prod.fst).Nodup :=
  ⟨rfl,
    (load_cached exampleDynLibEnv emptyManager fooManager "Foo" 1 rfl).1,
    rfl,
    (load_cached exampleDynLibEnv emptyManager fooManager "Foo" 1 rfl).2.1 fooBarManager
      (LoadsTo.step fooManager fooManager fooBarManager "Bar" 2 (LoadsTo.refl _) rfl)
      "Foo.dll" (by decide),
    ((load_cached exampleDynLibEnv emptyManager fooManager "Foo" 1 rfl).2.2 fooBarManager
      (Reachable.load fooManager fooBarManager "Bar" 2
        (Reachable.load emptyManager fooManager "Foo" 1 (Reachable.init _) rfl) rfl)).1⟩

end LoadCache

section ApplyOrder

variable {B : Type}

theorem components_setComponents (o : SceneObject) (cs : List Component) :
    (o.setComponents cs).components = cs := by
  cases o; rfl

theorem setComponents_setComponents (o : SceneObject) (a b : List Component) :
    (o.setComponents a).setComponents b = o.setComponents b := by
  cases o; rfl

theorem setChildren_setChildren (o : SceneObject) (a b : List SceneObject) :
    (o.setChildren a).setChildren b = o.setChildren b := by
  cases o; rfl

theorem removedComponents_traced (rc : List Int) (o : SceneObject) (t : List ApplyEvent) :
    rc.foldl
      (fun (st : SceneObject × List ApplyEvent) removedId =>
        if st.1.components.any (fun component => removedId == component.linkId) then
          (st.1.setComponents (destroyComponent removedId st.1.components),
            st.2 ++ [ApplyEvent.destroyComponent removedId])
        else st) (o, t)
      = (o.setComponents (removeComponents rc o.components),
          t ++ (destroyedComponentIds rc o.components).map ApplyEvent.destroyComponent) := by
  induction rc generalizing o t with
  | nil => simp [removeComponents, destroyedComponentIds, setComponents_self]
  | cons k rest ih =>
    rw [List.foldl_cons]
    by_cases hc : o.components.any (fun component => k == component.linkId) = true
    · simp only [hc, if_true]
      rw [ih, components_setComponents, setComponents_setComponents, destroyedComponentIds,
        if_pos hc]
      simp [removeComponents]
    · simp only [hc]
      rw [ih, destroyedComponentIds, if_neg hc]
      rw [Bool.not_eq_true] at hc
      simp [removeComponents, destroyComponent_of_no_match k _ hc]

theorem removedChildren_traced (rch : List Int) (o : SceneObject) (t : List ApplyEvent) :
    rch.foldl
      (fun (st : SceneObject × List ApplyEvent) removedId =>
        if st.1.children.any (fun child => removedId == child.linkId) then
          (st.1.setChildren (destroyChild removedId st.1.children),
            st.2 ++ [ApplyEvent.destroyChild removedId])
        else st) (o, t)
      = (o.setChildren (removeChildren rch o.children),
          t ++ (destroyedChildIds rch o.children).map ApplyEvent.destroyChild) := by
  induction rch generalizing o t with
  | nil => simp [removeChildren, destroyedChildIds, setChildren_self]
  | cons k rest ih =>
    rw [List.foldl_cons]
    by_cases hc : o.children.any (fun child => k == child.linkId) = true
    · simp only [hc, if_true]
      rw [ih, children_setChildren, setChildren_setChildren, destroyedChildIds, if_pos hc]
      simp [removeChildren]
    · simp only [hc]
      rw [ih, destroyedChildIds, if_neg hc]
      rw [Bool.not_eq_true] at hc
      simp [removeChildren, destroyChild_of_no_match k _ hc]

theorem addedComponents_traced (env : Env B) (ac : List B) (o : SceneObject)
    (t : List ApplyEvent) :
    ac.foldl
      (fun (st : SceneObject × List ApplyEvent) addedComponentData =>
        (st.1.addComponentInternal (env.decodeComponent addedComponentData),
          st.2 ++ [ApplyEvent.addComponentInternal
            (env.decodeComponent addedComponentData).linkId])) (o, t)
      = (o.setComponents (o.components ++ ac.map env.decodeComponent),
          t ++ ac.map (fun b => ApplyEvent.addComponentInternal
            (env.decodeComponent b).linkId)) := by
  induction ac generalizing o t with
  | nil => simp [setComponents_self]
  | cons b rest ih =>
    rw [List.foldl_cons, ih]
    simp [SceneObject.addComponentInternal, components_setComponents,
      setComponents_setComponents]

theorem addedChildren_traced (env : Env B) (ach : List B) (o : SceneObject)
    (t : List ApplyEvent) :
    ach.foldl
      (fun (st : SceneObject × List ApplyEvent) addedChildData =>
        ((env.decodeSceneObject addedChildData).setParent st.1,
          st.2 ++ [ApplyEvent.setParent (env.decodeSceneObject addedChildData).linkId]))
      (o, t)
      = (o.setChildren (o.children ++ ach.map env.decodeSceneObject),
          t ++ ach.map (fun b => ApplyEvent.setParent (env.decodeSceneObject b).linkId)) := by
  induction ach generalizing o t with
  | nil => simp [setChildren_self]
  | cons b rest ih =>
    rw [List.foldl_cons, ih]
    simp [SceneObject.setParent, children_setChildren, setChildren_setChildren]

theorem componentDiffs_traced (env : Env B) (cd : List (PrefabComponentDiff B))
    (o : SceneObject) (t : List ApplyEvent) :
    cd.foldl
      (fun (st : SceneObject × List ApplyEvent) componentDiff =>
        if st.1.components.any (fun component => componentDiff.id == component.linkId) then
          (st.1.setComponents (applyComponentDiff env componentDiff st.1.components),
            st.2 ++ [ApplyEvent.handlerApplyDiff componentDiff.id])
        else st) (o, t)
      = (o.setComponents (applyComponentDiffs env cd o.components),
          t ++ (patchedComponentIds env cd o.components).map
            ApplyEvent.handlerApplyDiff) := by
  induction cd generalizing o t with
  | nil => simp [applyComponentDiffs, patchedComponentIds, setComponents_self]
  | cons k rest ih =>
    rw [List.foldl_cons]
    by_cases hc : o.components.any (fun component => k.id == component.linkId) = true
    · simp only [hc, if_true]
      rw [ih, components_setComponents, setComponents_setComponents, patchedComponentIds,
        if_pos hc]
      simp [applyComponentDiffs]
    · simp only [hc]
      rw [ih, patchedComponentIds, if_neg hc]
      rw [Bool.not_eq_true] at hc
      simp [applyComponentDiffs, applyComponentDiff_of_not_any env k _ hc]

/-- The trace of `applyDiff` by phase: the name, the removals, the additions and the component
deltas, in this order, and then whatever the loop over `childDiffs` performs on the children
left by the removals and additions. -/
theorem applyDiffTraced_phases (env : Env B) (d : PrefabObjectDiff B) (T : SceneObject)
    (tr : List ApplyEvent) :
    (applyDiffTraced env d T tr).2 =
      (applyChildDiffsTraced env d.childDiffs
        (removeChildren d.removedChildren T.children
          ++ d.addedChildren.map env.decodeSceneObject)
        (tr ++ ApplyEvent.setName d.name ::
          ((destroyedComponentIds d.removedComponents T.components).map
              ApplyEvent.destroyComponent
            ++ (destroyedChildIds d.removedChildren T.children).map ApplyEvent.destroyChild
            ++ d.addedComponents.map
              (fun b => ApplyEvent.addComponentInternal (env.decodeComponent b).linkId)
            ++ d.addedChildren.map
              (fun b => ApplyEvent.setParent (env.decodeSceneObject b).linkId)
            ++ (patchedComponentIds env d.componentDiffs
                (removeComponents d.removedComponents T.components
                  ++ d.addedComponents.map env.decodeComponent)).map
              ApplyEvent.handlerApplyDiff))).2 := by
  cases d with
  | mk i n cd rc ac chd rch ach =>
    cases T with
    | mk n0 l a u f cs ch =>
      rw [applyDiffTraced]
      dsimp only
      rw [removedComponents_traced, removedChildren_traced, addedComponents_traced,
        addedChildren_traced, componentDiffs_traced]
      simp only [SceneObject.setName, SceneObject.setComponents, SceneObject.setChildren,
        SceneObject.components_mk, SceneObject.children_mk, PrefabObjectDiff.name,
        PrefabObjectDiff.componentDiffs, PrefabObjectDiff.removedComponents,
        PrefabObjectDiff.addedComponents, PrefabObjectDiff.childDiffs,
        PrefabObjectDiff.removedChildren, PrefabObjectDiff.addedChildren, List.append_assoc,
        List.singleton_append, List.cons_append, List.nil_append]

end ApplyOrder

section ApplyOrderClaims

variable {B : Type}

/-- C10. Ordering of `applyDiff`. The operations that `applyDiff` performs on a diff node and
a target are, in program order: the renaming, the destructions of the loop over
`removedComponents`, those of the loop over `removedChildren`, one `addComponentInternal` for
each entry of `addedComponents`, one `setParent` for each entry of `addedChildren`, the
handler calls of the loop over `componentDiffs`, and then the operations of the loop over
`childDiffs`, which runs on the children left by the removals and the additions. So every
removal comes before every addition, and every addition before every component delta and
every recursive child application. In the result the removals have acted on the original
component and child lists, the decoded additions are appended to the survivors, and the
component deltas and the recursive child applications have run on the lists so obtained.
Consequently, when the diff removes link ID `k` and adds a child that decodes to a node with
link ID `k`, on a target with exactly one child with link ID `k`, the result has exactly one
child with link ID `k` and it is the decoded added node (it has the identity of the decoded
node, and it is that node unchanged when no child diff addresses `k`); the original child is
gone. -/
theorem applyDiff_ordering (env : Env B) (d : PrefabObjectDiff B) (T : SceneObject) :
    (∀ tr : List ApplyEvent,
      (applyDiffTraced env d T tr).1 = applyDiff env d T ∧
      ∃ recursion : List ApplyEvent,
        (applyDiffTraced env d T tr).2 =
          tr ++ ApplyEvent.setName d.name ::
            ((destroyedComponentIds d.removedComponents T.components).map
                ApplyEvent.destroyComponent
              ++ (destroyedChildIds d.removedChildren T.children).map ApplyEvent.destroyChild
              ++ d.addedComponents.map
                (fun b => ApplyEvent.addComponentInternal (env.decodeComponent b).linkId)
              ++ d.addedChildren.map
                (fun b => ApplyEvent.setParent (env.decodeSceneObject b).linkId)
              ++ (patchedComponentIds env d.componentDiffs
                  (removeComponents d.removedComponents T.components
                    ++ d.addedComponents.map env.decodeComponent)).map
                ApplyEvent.handlerApplyDiff
              ++ recursion) ∧
        (applyChildDiffsTraced env d.childDiffs
          (removeChildren d.removedChildren T.children
            ++ d.addedChildren.map env.decodeSceneObject)
          (tr ++ ApplyEvent.setName d.name ::
            ((destroyedComponentIds d.removedComponents T.components).map
                ApplyEvent.destroyComponent
              ++ (destroyedChildIds d.removedChildren T.children).map ApplyEvent.destroyChild
              ++ d.addedComponents.map
                (fun b => ApplyEvent.addComponentInternal (env.decodeComponent b).linkId)
              ++ d.addedChildren.map
                (fun b => ApplyEvent.setParent (env.decodeSceneObject b).linkId)
              ++ (patchedComponentIds env d.componentDiffs
                  (removeComponents d.removedComponents T.components
                    ++ d.addedComponents.map env.decodeComponent)).map
                ApplyEvent.handlerApplyDiff))).2 =
          tr ++ ApplyEvent.setName d.name ::
            ((destroyedComponentIds d.removedComponents T.components).map
                ApplyEvent.destroyComponent
              ++ (destroyedChildIds d.removedChildren T.children).map ApplyEvent.destroyChild
              ++ d.addedComponents.map
                (fun b => ApplyEvent.addComponentInternal (env.decodeComponent b).linkId)
              ++ d.addedChildren.map
                (fun b => ApplyEvent.setParent (env.decodeSceneObject b).linkId)
              ++ (patchedComponentIds env d.componentDiffs
                  (removeComponents d.removedComponents T.components
                    ++ d.addedComponents.map env.decodeComponent)).map
                ApplyEvent.handlerApplyDiff
              ++ recursion)) ∧
    applyDiff env d T =
      SceneObject.mk d.name T.linkId T.instanceData T.mPrefabLinkUUID T.dontSave
        (applyComponentDiffs env d.componentDiffs
          (removeComponents d.removedComponents T.components
            ++ d.addedComponents.map env.decodeComponent))
        (applyChildDiffs env d.childDiffs
          (removeChildren d.removedChildren T.children
            ++ d.addedChildren.map env.decodeSceneObject)) ∧
    ∀ (k : Int) (b : B), d.removedChildren = [k] → d.addedChildren = [b] →
      (env.decodeSceneObject b).linkId = k →
      (T.children.filter (fun c => c.linkId == k)).length = 1 →
      ((applyDiff env d T).children.filter (fun c => c.linkId == k)).map
          SceneObject.instanceData = [(env.decodeSceneObject b).instanceData] ∧
      ((∀ cd ∈ d.childDiffs, cd.id ≠ k) →
        (applyDiff env d T).children.filter (fun c => c.linkId == k)
          = [env.decodeSceneObject b]) := by
  refine ⟨?_, applyDiff_eq env d T, ?_⟩
  · intro tr
    refine ⟨(applyDiffTraced_spec env d T tr).1, ?_⟩
    obtain ⟨evs, he, _⟩ := (applyChildDiffsTraced_spec env d.childDiffs
      (removeChildren d.removedChildren T.children
        ++ d.addedChildren.map env.decodeSceneObject)
      (tr ++ ApplyEvent.setName d.name ::
        ((destroyedComponentIds d.removedComponents T.components).map
            ApplyEvent.destroyComponent
          ++ (destroyedChildIds d.removedChildren T.children).map ApplyEvent.destroyChild
          ++ d.addedComponents.map
            (fun b => ApplyEvent.addComponentInternal (env.decodeComponent b).linkId)
          ++ d.addedChildren.map
            (fun b => ApplyEvent.setParent (env.decodeSceneObject b).linkId)
          ++ (patchedComponentIds env d.componentDiffs
              (removeComponents d.removedComponents T.components
                ++ d.addedComponents.map env.decodeComponent)).map
            ApplyEvent.handlerApplyDiff))).2
    refine ⟨evs, ?_, ?_⟩
    · rw [applyDiffTraced_phases, he]
      simp only [List.append_assoc, List.cons_append]
    · rw [he]
      simp only [List.append_assoc, List.cons_append]
  · intro k b hr ha hl h1
    have hrem : removeChildren [k] T.children = destroyChild k T.children := rfl
    have hbase : (removeChildren d.removedChildren T.children
        ++ d.addedChildren.map env.decodeSceneObject).filter (fun c => c.linkId == k)
          = [env.decodeSceneObject b] := by
      rw [hr, ha, hrem, List.filter_append, filter_destroyChild_of_unique k _ h1]
      simp [hl]
    constructor
    · rw [applyDiff_eq, SceneObject.children_mk, filter_linkId_map_instanceData,
        applyChildDiffs_map_identity, ← filter_linkId_map_instanceData, hbase]
      rfl
    · intro hcd
      rw [applyDiff_eq, SceneObject.children_mk, applyChildDiffs_filter_ne env k _ _ hcd,
        hbase]

/-- Witness of C10: the removed child's link ID 7 is reused by the added child; the old child
is destroyed before the new one is attached, the old child is gone and the new one is
present. On a diff with entries of every kind but child diffs the operations come by phase,
and the renaming of a child by its child diff comes after the removal and the addition of the
parent. -/
theorem applyDiff_ordering_witness :
    (reuseTarget.children.filter (fun c => c.linkId == 7)).length = 1 ∧
    (applyDiff exampleEnv reuseDiff reuseTarget).children.filter (fun c => c.linkId == 7)
      = [SceneObject.mk "New" 7 40 "" false [] []] ∧
    (applyDiff exampleEnv reuseDiff reuseTarget).children
      = [SceneObject.mk "New" 7 40 "" false [] []] ∧
    (applyDiffTraced exampleEnv reuseDiff reuseTarget []).2
      = [ApplyEvent.setName "Root", ApplyEvent.destroyChild 7, ApplyEvent.setParent 7] ∧
    (applyDiffTraced exampleEnv mixedDiff populatedTarget []).2
      = [ApplyEvent.setName "Root", ApplyEvent.destroyComponent 3, ApplyEvent.destroyChild 1,
          ApplyEvent.addComponentInternal 8, ApplyEvent.addComponentInternal 9,
          ApplyEvent.setParent (-1), ApplyEvent.setParent (-1),
          ApplyEvent.handlerApplyDiff 4] ∧
    (applyDiffTraced exampleEnv
        (PrefabObjectDiff.mk 0 "Root" [] [] [Blob.component 8 0 10 0]
          [PrefabObjectDiff.mk 1 "A2" [] [] [] [] [] []] [2] []) populatedTarget []).2
      = [ApplyEvent.setName "Root", ApplyEvent.destroyChild 2,
          ApplyEvent.addComponentInternal 8, ApplyEvent.setName "A2"] :=
  ⟨rfl,
    ((applyDiff_ordering exampleEnv reuseDiff reuseTarget).2.2 7
      (Blob.object (SceneObject.mk "New" 7 40 "" false [] [])) rfl rfl rfl rfl).2
      (fun _ h => by cases h),
    rfl, by decide, by decide, by decide⟩

end ApplyOrderClaims

section NoDiffStability

variable {B : Type}

end NoDiffStability

section NoDiffStabilityClaims

variable {B : Type}

end NoDiffStabilityClaims

end BansheeEngine
